import Mathlib

/-!
# Map overlay layout (`src/map_overlay.c`)

A shallow embedding of the map overlay: the label layout (`ovr_refresh`,
`ovr_optimizeLayout`, `force_collision`, `ovr_refresh_uzawa_overlap`), the
coordinate mapping, the opening and fading of the overlay (`ovr_setOpen`,
`ovr_initAlpha`, `ovr_render`) and the marker registry (`ovr_mrkAddPoint`,
`ovr_mrkRm`, `ovr_mrkClear`).

Numbers.  The C code computes in `float`/`double`.  Finite values are modelled
by exact rationals (rounding is idealised away).  The radius-shrink loop can
divide by a zero radius sum, so it is modelled over `FVal`, which adds the
IEEE-754 infinities and NaN with their arithmetic and comparison rules; zero
is unsigned, which is exact here because no negative zero arises from the
non-negative distances and radii the loop starts from.  The later phases
(placement, relaxation) are modelled over `ℚ`; their divisions by the overlay
resolution are exact whenever the resolution is non-zero.

C arrays are total functions on indices; only indices below `items` are read.
The marker array is a list.  The marker id counter is an `unsigned int`,
modelled as a natural number reduced modulo 2^32 at every increment.
-/

namespace MapOverlay

/-! ## Floating-point values with infinities and NaN -/

/-- An IEEE-754 value with rounding idealised: NaN, the two infinities, or an
exact finite rational. -/
inductive FVal where
  | nan : FVal
  | ninf : FVal
  | fin (q : ℚ) : FVal
  | pinf : FVal
deriving DecidableEq

namespace FVal

/-- IEEE addition. -/
def add : FVal → FVal → FVal
  | nan, _ => nan
  | _, nan => nan
  | pinf, ninf => nan
  | ninf, pinf => nan
  | pinf, _ => pinf
  | _, pinf => pinf
  | ninf, _ => ninf
  | _, ninf => ninf
  | fin a, fin b => fin (a + b)

/-- IEEE negation. -/
def neg : FVal → FVal
  | nan => nan
  | ninf => pinf
  | pinf => ninf
  | fin a => fin (-a)

/-- IEEE subtraction. -/
def sub (a b : FVal) : FVal := add a (neg b)

/-- Sign-directed infinity: the result of multiplying or dividing an infinity
of sign `pos` by a finite non-zero `q`, or of dividing a non-zero by zero. -/
def signedInf (pos : Bool) (q : ℚ) : FVal :=
  if (decide (0 < q)) = pos then pinf else ninf

/-- IEEE multiplication (`0 * inf` is NaN). -/
def mul : FVal → FVal → FVal
  | nan, _ => nan
  | _, nan => nan
  | fin a, fin b => fin (a * b)
  | fin a, pinf => if a = 0 then nan else signedInf true a
  | fin a, ninf => if a = 0 then nan else signedInf false a
  | pinf, fin b => if b = 0 then nan else signedInf true b
  | ninf, fin b => if b = 0 then nan else signedInf false b
  | pinf, pinf => pinf
  | ninf, ninf => pinf
  | pinf, ninf => ninf
  | ninf, pinf => ninf

/-- IEEE division: `x/0` is an infinity for `x ≠ 0` and NaN for `x = 0`;
`inf/inf` is NaN; a finite value over an infinity is zero. -/
def div : FVal → FVal → FVal
  | nan, _ => nan
  | _, nan => nan
  | fin a, fin b =>
      if b = 0 then (if a = 0 then nan else signedInf true a) else fin (a / b)
  | fin _, pinf => fin 0
  | fin _, ninf => fin 0
  | pinf, fin b => if b = 0 then pinf else signedInf true b
  | ninf, fin b => if b = 0 then ninf else signedInf false b
  | pinf, pinf => nan
  | ninf, ninf => nan
  | pinf, ninf => nan
  | ninf, pinf => nan

/-- The C comparison `a < b` (false when either side is NaN). -/
def lt : FVal → FVal → Bool
  | nan, _ => false
  | _, nan => false
  | ninf, ninf => false
  | ninf, _ => true
  | fin _, ninf => false
  | fin a, fin b => decide (a < b)
  | fin _, pinf => true
  | pinf, _ => false

/-- The C comparison `a <= b` (false when either side is NaN). -/
def le : FVal → FVal → Bool
  | nan, _ => false
  | _, nan => false
  | ninf, _ => true
  | fin _, ninf => false
  | fin a, fin b => decide (a ≤ b)
  | fin _, pinf => true
  | pinf, pinf => true
  | pinf, _ => false

/-- The C comparison `a > b`. -/
def gt (a b : FVal) : Bool := lt b a

/-- The C comparison `a >= b`. -/
def ge (a b : FVal) : Bool := le b a

/-- Modelled from the spec: the macro `MAX` comes from a header that is not
among the sources; it yields the larger argument, `(((x)>(y))?(x):(y))`, so
that a NaN second argument is returned and a NaN first argument is dropped. -/
def MAX (x y : FVal) : FVal := if gt x y then x else y

end FVal

/-- The constant `FLT_EPSILON` of `<float.h>`: 2^-23. -/
def FLT_EPSILON : ℚ := 1 / 8388608

/-! ## Data -/

/-- The struct `Vector2d`, of which the layout reads `x` and `y`. -/
structure Vector2d where
  x : ℚ
  y : ℚ
deriving DecidableEq

/-- The struct `MapOverlayPos`: the per-object layout record. -/
structure MapOverlayPos where
  radius : ℚ
  text_offx : ℚ
  text_offy : ℚ
  text_width : ℚ
deriving DecidableEq

/-- The struct `MapOverlayRadiusConstraint`: radius `i` plus radius `j` is at
most `dist`. -/
structure MapOverlayRadiusConstraint where
  i : Nat
  j : Nat
  dist : FVal
deriving DecidableEq

/-! ## The radius-shrink loop of `ovr_optimizeLayout` (lines 227-253) -/

/-- The distance stored in a constraint:
`hypot( pos[i]->x - pos[j]->x, pos[i]->y - pos[j]->y ) / ovr_res`.
The libm function `hypot` is a parameter. -/
def pairDist (hypot : ℚ → ℚ → ℚ) (ovr_res : ℚ) (pos : Nat → Vector2d)
    (i j : Nat) : FVal :=
  FVal.div (FVal.fin (hypot ((pos i).x - (pos j).x) ((pos i).y - (pos j).y)))
    (FVal.fin ovr_res)

/-- The inner loop over `cur.j` that pushes the conflicting pairs of item
`i`. -/
def fitsOfRow (hypot : ℚ → ℚ → ℚ) (ovr_res : ℚ) (pos : Nat → Vector2d)
    (radius : Nat → FVal) (items i : Nat) : List MapOverlayRadiusConstraint :=
  (List.range' (i + 1) (items - (i + 1))).filterMap fun j =>
    let dist := pairDist hypot ovr_res pos i j
    if FVal.lt dist (FVal.add (radius i) (radius j)) then
      some { i := i, j := j, dist := dist }
    else none

/-- The double loop that fills `fits` with every pair `i < j` whose distance
is less than the sum of the two radii, in the order of the pushes. -/
def initFits (hypot : ℚ → ℚ → ℚ) (ovr_res : ℚ) (pos : Nat → Vector2d)
    (radius : Nat → FVal) (items : Nat) : List MapOverlayRadiusConstraint :=
  (List.range items).flatMap (fitsOfRow hypot ovr_res pos radius items)

/-- The value `r` of a constraint: `dist / (radius[i] + radius[j])`, with the
conversion of the quotient to `float` left out; `fitRatioF` below has the
conversion. -/
def fitRatio (radius : Nat → FVal) (c : MapOverlayRadiusConstraint) : FVal :=
  FVal.div c.dist (FVal.add (radius c.i) (radius c.j))

/-- The accumulators of one scan of `fits`. -/
structure ScanResult where
  fits : List MapOverlayRadiusConstraint
  shrink_factor : FVal
  must_shrink : Nat → Bool

/-- The `for` loop over `fits` inside the `while` loop.  The radii are not
written during the scan.  When the entry at index `i` has `r >= 1` it is
erased, the following entries move down by one, and the `i++` of the loop
then steps over the entry that has just moved to index `i`: that entry stays
in the list without being examined in this scan. -/
def scanFits (radius : Nat → FVal) :
    List MapOverlayRadiusConstraint → FVal → (Nat → Bool) → ScanResult
  | [], sf, ms => { fits := [], shrink_factor := sf, must_shrink := ms }
  | c :: rest, sf, ms =>
    if FVal.ge (fitRatio radius c) (FVal.fin 1) then
      match rest with
      | [] => { fits := [], shrink_factor := sf, must_shrink := ms }
      | d :: rest2 =>
        let out := scanFits radius rest2 sf ms
        { out with fits := d :: out.fits }
    else
      let out := scanFits radius rest
        (FVal.MAX sf (FVal.sub (fitRatio radius c) (FVal.fin FLT_EPSILON)))
        (fun k => decide (k = c.i) || decide (k = c.j) || ms k)
      { out with fits := c :: out.fits }

/-- The state of the `while` loop: the radii and the conflict list. -/
structure ShrinkState where
  radius : Nat → FVal
  fits : List MapOverlayRadiusConstraint

/-- One round of the `while` loop: scan `fits` starting from
`shrink_factor = 0` and cleared flags, then multiply every flagged radius by
the shrink factor. -/
def shrinkRound (items : Nat) (s : ShrinkState) : ShrinkState :=
  let out := scanFits s.radius s.fits (FVal.fin 0) (fun _ => false)
  { radius := fun i =>
      if i < items ∧ out.must_shrink i = true then
        FVal.mul (s.radius i) out.shrink_factor
      else s.radius i
    fits := out.fits }

/-- The `while (array_size( fits ) > 0)` loop, bounded by `fuel` rounds:
`none` when the list is still non-empty after `fuel` rounds. -/
def shrinkLoop (items : Nat) : Nat → ShrinkState → Option (Nat → FVal)
  | fuel, s =>
    match s.fits with
    | [] => some s.radius
    | _ :: _ =>
      match fuel with
      | 0 => none
      | fuel + 1 => shrinkLoop items fuel (shrinkRound items s)

/-- The state in which the `while` loop is entered. -/
def shrinkInit (hypot : ℚ → ℚ → ℚ) (ovr_res : ℚ) (pos : Nat → Vector2d)
    (radius : Nat → ℚ) (items : Nat) : ShrinkState :=
  { radius := fun i => FVal.fin (radius i)
    fits := initFits hypot ovr_res pos (fun i => FVal.fin (radius i)) items }

/-! ## The radius-shrink loop with the roundings of the type `float` -/

/-- The integer nearest to `m`, the even one of the two when `m` lies half way
between two integers. -/
def roundHalfEven (m : ℚ) : ℤ :=
  if m - ⌊m⌋ < 1 / 2 then ⌊m⌋
  else if 1 / 2 < m - ⌊m⌋ then ⌊m⌋ + 1
  else if ⌊m⌋ % 2 = 0 then ⌊m⌋ else ⌊m⌋ + 1

/-- The conversion of a value to the C type `float` (IEEE-754 binary32, round
to nearest, ties to even): the value is rounded to 24 significant bits.  The
exponent range is taken as unbounded, which leaves out the overflow to an
infinity and the subnormal range; a ratio `r` with `FLT_EPSILON <= r < 1`
lies in the normal range. -/
def toFloat (q : ℚ) : ℚ :=
  if q = 0 then 0
  else (roundHalfEven (q / (2 : ℚ) ^ (Int.log 2 |q| - 23)) : ℚ) * (2 : ℚ) ^ (Int.log 2 |q| - 23)

/-- A value after the rounding `f` of its finite part; NaN and the infinities
are kept. -/
def FVal.rounded (f : ℚ → ℚ) : FVal → FVal
  | FVal.fin q => FVal.fin (f q)
  | v => v

/-- The inner loop over `cur.j`, with the rounding of the sum
`mo[cur.i]->radius + mo[cur.j]->radius`.  The sum has the type of the field
`radius`; that type is declared in `map_overlay.h`, which is not among the
sources, so its rounding is the parameter `rr`: `toFloat` for a `float`
field, the identity for a `double` field.  The arithmetic in `double`
(`cur.dist` and the quotient before it is stored in `r`) is exact. -/
def fitsOfRowF (rr : ℚ → ℚ) (hypot : ℚ → ℚ → ℚ) (ovr_res : ℚ) (pos : Nat → Vector2d)
    (radius : Nat → FVal) (items i : Nat) : List MapOverlayRadiusConstraint :=
  (List.range' (i + 1) (items - (i + 1))).filterMap fun j =>
    let dist := pairDist hypot ovr_res pos i j
    if FVal.lt dist (FVal.rounded rr (FVal.add (radius i) (radius j))) then
      some { i := i, j := j, dist := dist }
    else none

/-- The double loop that fills `fits`, with the rounding of the sums. -/
def initFitsF (rr : ℚ → ℚ) (hypot : ℚ → ℚ → ℚ) (ovr_res : ℚ) (pos : Nat → Vector2d)
    (radius : Nat → FVal) (items : Nat) : List MapOverlayRadiusConstraint :=
  (List.range items).flatMap (fitsOfRowF rr hypot ovr_res pos radius items)

/-- The value stored in `float r` (declared on line 213) by
`r = fits[i].dist / (mo[fits[i].i]->radius + mo[fits[i].j]->radius)`: the
quotient of the `double` distance by the rounded sum, converted to `float`. -/
def fitRatioF (rr : ℚ → ℚ) (radius : Nat → FVal) (c : MapOverlayRadiusConstraint) : FVal :=
  FVal.rounded toFloat (FVal.div c.dist (FVal.rounded rr (FVal.add (radius c.i) (radius c.j))))

/-- The `for` loop over `fits` of `scanFits`, with `r` and the `float`
difference `r - FLT_EPSILON` rounded to `float`. -/
def scanFitsF (rr : ℚ → ℚ) (radius : Nat → FVal) :
    List MapOverlayRadiusConstraint → FVal → (Nat → Bool) → ScanResult
  | [], sf, ms => { fits := [], shrink_factor := sf, must_shrink := ms }
  | c :: rest, sf, ms =>
    if FVal.ge (fitRatioF rr radius c) (FVal.fin 1) then
      match rest with
      | [] => { fits := [], shrink_factor := sf, must_shrink := ms }
      | d :: rest2 =>
        let out := scanFitsF rr radius rest2 sf ms
        { out with fits := d :: out.fits }
    else
      let out := scanFitsF rr radius rest
        (FVal.MAX sf (FVal.rounded toFloat
          (FVal.sub (fitRatioF rr radius c) (FVal.fin FLT_EPSILON))))
        (fun k => decide (k = c.i) || decide (k = c.j) || ms k)
      { out with fits := c :: out.fits }

/-- One round of the `while` loop with the roundings: the product
`mo[i]->radius *= shrink_factor` is stored in the field `radius`. -/
def shrinkRoundF (rr : ℚ → ℚ) (items : Nat) (s : ShrinkState) : ShrinkState :=
  let out := scanFitsF rr s.radius s.fits (FVal.fin 0) (fun _ => false)
  { radius := fun i =>
      if i < items ∧ out.must_shrink i = true then
        FVal.rounded rr (FVal.mul (s.radius i) out.shrink_factor)
      else s.radius i
    fits := out.fits }

/-- The `while (array_size( fits ) > 0)` loop with the roundings, bounded by
`fuel` rounds: `none` when the list is still non-empty after `fuel` rounds. -/
def shrinkLoopF (rr : ℚ → ℚ) (items : Nat) : Nat → ShrinkState → Option (Nat → FVal)
  | fuel, s =>
    match s.fits with
    | [] => some s.radius
    | _ :: _ =>
      match fuel with
      | 0 => none
      | fuel + 1 => shrinkLoopF rr items fuel (shrinkRoundF rr items s)

/-- The state in which the `while` loop is entered, the conflicts found with
the rounded sums. -/
def shrinkInitF (rr : ℚ → ℚ) (hypot : ℚ → ℚ → ℚ) (ovr_res : ℚ) (pos : Nat → Vector2d)
    (radius : Nat → ℚ) (items : Nat) : ShrinkState :=
  { radius := fun i => FVal.fin (radius i)
    fits := initFitsF rr hypot ovr_res pos (fun i => FVal.fin (radius i)) items }

/-! ## Rational helpers of the placement and relaxation phases -/

/-- Modelled from the spec: the macro `MAX` comes from a header that is not
among the sources; it yields the larger argument, `(((x)>(y))?(x):(y))`. -/
def MAX (x y : ℚ) : ℚ := if x > y then x else y

/-- Modelled from the spec: the macro `MIN` comes from a header that is not
among the sources; it yields the smaller argument, `(((x)>(y))?(y):(x))`. -/
def MIN (x y : ℚ) : ℚ := if x > y then y else x

/-- Modelled from the spec: the macro `ABS` comes from a header that is not
among the sources; it yields the magnitude, `(((x)<0)?-(x):(x))`. -/
def ABS (x : ℚ) : ℚ := if x < 0 then -x else x

/-- The constant `ovr_text_pixbuf`: extra margin around overlay text. -/
def ovr_text_pixbuf : ℚ := 5

/-- The constant `max_iters` of `ovr_optimizeLayout`. -/
def max_iters : Nat := 15

/-- The constant `kx` of `ovr_optimizeLayout`: .015. -/
def kx : ℚ := 15 / 1000

/-- The constant `ky` of `ovr_optimizeLayout`: .045. -/
def ky : ℚ := 45 / 1000

/-- The constant `eps_con` of `ovr_optimizeLayout`: 1.3. -/
def eps_con : ℚ := 13 / 10

/-! ## `force_collision` (lines 395-430) -/

/-- The function `force_collision`: `ox`, `oy` are the values of the two
accumulators on entry, the result is their values on return. -/
def force_collision (ox oy x y w h mx my mw mh : ℚ) : ℚ × ℚ :=
  let ox1 :=
    if (y + h < my + ovr_text_pixbuf) ∨ (y + ovr_text_pixbuf > my + mh) then 0
    else if x + (1 / 2) * w < mx + (1 / 2) * mw then MIN 0 (ox + (mx - (x + w)))
    else MAX 0 (ox + ((mx + mw) - x))
  let oy1 :=
    if (x + w < mx + ovr_text_pixbuf) ∨ (x + ovr_text_pixbuf > mx + mw) then 0
    else if y + (1 / 2) * h < my + (1 / 2) * mh then MIN 0 (oy + (my - (y + h)))
    else MAX 0 (oy + ((my + mh) - y))
  (ox1, oy1)

/-! ## Initial placement (lines 263-309) -/

/-- The array `tx` of item `i`: the x offsets of the four candidates
(right-of, left-of, above, below). -/
def candTx (mo : Nat → MapOverlayPos) (i k : Nat) : ℚ :=
  let w := (mo i).text_width + 2 * ovr_text_pixbuf
  match k with
  | 0 => (mo i).radius + ovr_text_pixbuf + 1 / 10
  | 1 => -(mo i).radius - 1 / 10 - w
  | _ => -(mo i).text_width / 2

/-- The array `ty` of item `i`: the y offsets of the four candidates. -/
def candTy (font_h : ℚ) (mo : Nat → MapOverlayPos) (i k : Nat) : ℚ :=
  let h := font_h + 2 * ovr_text_pixbuf
  match k with
  | 0 => -font_h / 2
  | 1 => -font_h / 2
  | 2 => (mo i).radius + ovr_text_pixbuf + 1 / 10
  | _ => -(mo i).radius - 1 / 10 - h

/-- The push of the footprint square of item `j` on the box `(x, y, w, h)`:
the call of `force_collision` with `fx = fy = 0` in the loop over `j`. -/
def footprintForce (ovr_res : ℚ) (pos : Nat → Vector2d) (mo : Nat → MapOverlayPos)
    (x y w h : ℚ) (j : Nat) : ℚ × ℚ :=
  let mw := 2 * (mo j).radius
  let mh := mw
  let mx := (pos j).x / ovr_res - mw / 2
  let my := (pos j).y / ovr_res - mh / 2
  force_collision 0 0 x y w h mx my mw mh

/-- The value `val` of candidate `k` of item `i` after the loop over `j`:
the sum over all footprints of `ABS(fx) + ABS(fy)`. -/
def candVal (ovr_res font_h : ℚ) (items : Nat) (pos : Nat → Vector2d)
    (mo : Nat → MapOverlayPos) (i k : Nat) : ℚ :=
  let x := (pos i).x / ovr_res - ovr_text_pixbuf
  let y := (pos i).y / ovr_res - ovr_text_pixbuf
  let w := (mo i).text_width + 2 * ovr_text_pixbuf
  let h := font_h + 2 * ovr_text_pixbuf
  (List.range items).foldl (fun val j =>
    let f := footprintForce ovr_res pos mo
      (x + candTx mo i k) (y + candTy font_h mo i k) w h j
    val + (ABS f.1 + ABS f.2)) 0

/-- The variables `bx`, `by`, `best` of the candidate scan; `best = none`
stands for the initial `HUGE_VALF`. -/
structure Best where
  bx : ℚ
  by_ : ℚ
  best : Option ℚ
deriving DecidableEq

/-- The test `val < best`, where `best = none` stands for `HUGE_VALF`. -/
def ltBest (val : ℚ) : Option ℚ → Bool
  | none => true
  | some best => decide (val < best)

/-- The loop `for (k=0; k<4; k++)` with its `break`: `n` candidates remain,
starting with candidate `k`. -/
def scanCandidates (val tx ty : Nat → ℚ) : Nat → Nat → Best → Best
  | 0, _, b => b
  | n + 1, k, b =>
    let b1 : Best :=
      if k = 0 ∨ ltBest (val k) b.best = true then
        { bx := tx k, by_ := ty k, best := some (val k) }
      else b
    if val k = 0 then b1 else scanCandidates val tx ty n (k + 1) b1

/-- The same scan without the `if (val==0.) break;`. -/
def scanCandidatesNoBreak (val tx ty : Nat → ℚ) : Nat → Nat → Best → Best
  | 0, _, b => b
  | n + 1, k, b =>
    let b1 : Best :=
      if k = 0 ∨ ltBest (val k) b.best = true then
        { bx := tx k, by_ := ty k, best := some (val k) }
      else b
    scanCandidatesNoBreak val tx ty n (k + 1) b1

/-- The result of the candidate scan for item `i`: the values of `bx`, `by`
and `best` when the loop over `k` is left. -/
def selectPlacement (ovr_res font_h : ℚ) (items : Nat) (pos : Nat → Vector2d)
    (mo : Nat → MapOverlayPos) (i : Nat) : Best :=
  scanCandidates (candVal ovr_res font_h items pos mo i) (candTx mo i)
    (candTy font_h mo i) 4 0 { bx := 0, by_ := 0, best := none }

/-- The array `off_0x` after the initialisation loop. -/
def off_0x (ovr_res font_h : ℚ) (items : Nat) (pos : Nat → Vector2d)
    (mo : Nat → MapOverlayPos) (i : Nat) : ℚ :=
  (selectPlacement ovr_res font_h items pos mo i).bx

/-- The array `off_0y` after the initialisation loop. -/
def off_0y (ovr_res font_h : ℚ) (items : Nat) (pos : Nat → Vector2d)
    (mo : Nat → MapOverlayPos) (i : Nat) : ℚ :=
  (selectPlacement ovr_res font_h items pos mo i).by_

/-! ## Relaxation (lines 311-379) and `ovr_refresh_uzawa_overlap` -/

/-- The buffers of the relaxation: the two force matrices (flat, row `i`
occupies the indices `2*items*i .. 2*items*i + 2*items - 1`), the offset
buffers and the committed offsets. -/
structure RelaxState where
  forces_xa : Nat → ℚ
  forces_ya : Nat → ℚ
  off_buffx : Nat → ℚ
  off_buffy : Nat → ℚ
  off_dx : Nat → ℚ
  off_dy : Nat → ℚ

/-- The buffers as `calloc` leaves them. -/
def relaxInit : RelaxState :=
  { forces_xa := fun _ => 0, forces_ya := fun _ => 0,
    off_buffx := fun _ => 0, off_buffy := fun _ => 0,
    off_dx := fun _ => 0, off_dy := fun _ => 0 }

/-- One iteration of the loop over `i` in `ovr_refresh_uzawa_overlap`, acting
on the two force matrices: the footprint of item `i` always, the label box of
item `i` unless `i == self`. -/
def uzawaItem (ovr_res font_h : ℚ) (items : Nat) (pos : Nat → Vector2d)
    (mo : Nat → MapOverlayPos) (self : Nat) (x y w h : ℚ)
    (offx offy offdx offdy : Nat → ℚ)
    (F : (Nat → ℚ) × (Nat → ℚ)) (i : Nat) : (Nat → ℚ) × (Nat → ℚ) :=
  let pb2 := ovr_text_pixbuf * 2
  let mw := 2 * (mo i).radius
  let mh := mw
  let mx := (pos i).x / ovr_res - mw / 2
  let my := (pos i).y / ovr_res - mh / 2
  let a := 2 * items * self + 2 * i + 1
  let f := force_collision (F.1 a) (F.2 a) x y w h mx my mw mh
  let F1 : (Nat → ℚ) × (Nat → ℚ) := (Function.update F.1 a f.1, Function.update F.2 a f.2)
  if i = self then F1
  else
    let tw := (mo i).text_width + pb2
    let th := font_h + pb2
    let tx := (pos i).x / ovr_res + offdx i + offx i - ovr_text_pixbuf
    let ty := (pos i).y / ovr_res + offdy i + offy i - ovr_text_pixbuf
    let b := 2 * items * self + 2 * i
    let g := force_collision (F1.1 b) (F1.2 b) x y w h tx ty tw th
    (Function.update F1.1 b g.1, Function.update F1.2 b g.2)

/-- The function `ovr_refresh_uzawa_overlap`: the force matrices after the
loop over all items. -/
def ovr_refresh_uzawa_overlap (ovr_res font_h : ℚ) (items : Nat)
    (pos : Nat → Vector2d) (mo : Nat → MapOverlayPos) (self : Nat) (x y w h : ℚ)
    (offx offy offdx offdy : Nat → ℚ)
    (F : (Nat → ℚ) × (Nat → ℚ)) : (Nat → ℚ) × (Nat → ℚ) :=
  (List.range items).foldl
    (uzawaItem ovr_res font_h items pos mo self x y w h offx offy offdx offdy) F

/-- The sum `sx` (or `sy`) of row `i` of a force matrix: the loop over
`j < 2*items`. -/
def rowSum (items : Nat) (F : Nat → ℚ) (i : Nat) : ℚ :=
  (List.range (2 * items)).foldl (fun s j => s + F (2 * items * i + j)) 0

/-- The body of the loop over `i` inside one sweep, for item `i`: the state
and the stagnation indicator `val`. -/
def sweepItem (ovr_res font_h : ℚ) (items : Nat) (pos : Nat → Vector2d)
    (mo : Nat → MapOverlayPos) (o0x o0y : Nat → ℚ)
    (sv : RelaxState × ℚ) (i : Nat) : RelaxState × ℚ :=
  let s := sv.1
  let cx := (pos i).x / ovr_res
  let cy := (pos i).y / ovr_res
  let F := ovr_refresh_uzawa_overlap ovr_res font_h items pos mo i
    (cx + s.off_dx i + o0x i - ovr_text_pixbuf)
    (cy + s.off_dy i + o0y i - ovr_text_pixbuf)
    ((mo i).text_width + 2 * ovr_text_pixbuf)
    (font_h + 2 * ovr_text_pixbuf)
    o0x o0y s.off_dx s.off_dy (s.forces_xa, s.forces_ya)
  let sx := rowSum items F.1 i
  let sy := rowSum items F.2 i
  let old_bx := s.off_buffx i
  let old_by := s.off_buffy i
  let nbx := kx * sx
  let nby := ky * sy
  ({ s with forces_xa := F.1, forces_ya := F.2,
            off_buffx := Function.update s.off_buffx i nbx,
            off_buffy := Function.update s.off_buffy i nby },
   MAX sv.2 (ABS (old_bx - nbx) + ABS (old_by - nby)))

/-- The loop that copies the buffers into the committed offsets. -/
def commitOffsets (items : Nat) (s : RelaxState) : RelaxState :=
  { s with off_dx := fun i => if i < items then s.off_buffx i else s.off_dx i,
           off_dy := fun i => if i < items then s.off_buffy i else s.off_dy i }

/-- One sweep of the main loop in which the items are visited in the given
order: `val = 0`, the loop over the items, then the commit.  The result is
the state and the value of `val` that the stagnation test reads. -/
def sweepWith (ovr_res font_h : ℚ) (items : Nat) (pos : Nat → Vector2d)
    (mo : Nat → MapOverlayPos) (o0x o0y : Nat → ℚ) (order : List Nat)
    (s : RelaxState) : RelaxState × ℚ :=
  let r := order.foldl (sweepItem ovr_res font_h items pos mo o0x o0y) (s, 0)
  (commitOffsets items r.1, r.2)

/-- The main loop with `n` iterations of the budget left and `iter` sweeps
done, sweep number `iter` visiting the items in the order `order iter`.  The
result is the final state and the number of sweeps that were executed. -/
def uzawaLoopWith (ovr_res font_h : ℚ) (items : Nat) (pos : Nat → Vector2d)
    (mo : Nat → MapOverlayPos) (o0x o0y : Nat → ℚ) (order : Nat → List Nat) :
    Nat → Nat → RelaxState → RelaxState × Nat
  | 0, iter, s => (s, iter)
  | n + 1, iter, s =>
    let r := sweepWith ovr_res font_h items pos mo o0x o0y (order iter) s
    if r.2 ≤ eps_con then (r.1, iter + 1)
    else uzawaLoopWith ovr_res font_h items pos mo o0x o0y order n (iter + 1) r.1

/-- One sweep as the code runs it: items `0 .. items-1` in increasing
order. -/
def sweep (ovr_res font_h : ℚ) (items : Nat) (pos : Nat → Vector2d)
    (mo : Nat → MapOverlayPos) (o0x o0y : Nat → ℚ)
    (s : RelaxState) : RelaxState × ℚ :=
  sweepWith ovr_res font_h items pos mo o0x o0y (List.range items) s

/-- The main Uzawa loop as the code runs it, from the zeroed buffers. -/
def uzawaLoop (ovr_res font_h : ℚ) (items : Nat) (pos : Nat → Vector2d)
    (mo : Nat → MapOverlayPos) (o0x o0y : Nat → ℚ) : RelaxState × Nat :=
  uzawaLoopWith ovr_res font_h items pos mo o0x o0y (fun _ => List.range items)
    max_iters 0 relaxInit

/-! ## `ovr_optimizeLayout` (lines 210-390) -/

/-- The finite value of an `FVal` (0 for a value that is not finite). -/
def FVal.toRat : FVal → ℚ
  | FVal.fin q => q
  | _ => 0

/-- Whether an `FVal` is finite. -/
def FVal.isFin : FVal → Bool
  | FVal.fin _ => true
  | _ => false

/-- The loop "Limit shrinkage": `radius = MAX( radius, 4 )`. -/
def limitShrinkage (radius : Nat → FVal) (i : Nat) : FVal :=
  FVal.MAX (radius i) (FVal.fin 4)

/-- The placement and relaxation phases on the records `mo`, whose radii are
the clamped ones: the records with the final label offsets written. -/
def layoutLabels (ovr_res font_h : ℚ) (items : Nat) (pos : Nat → Vector2d)
    (mo : Nat → MapOverlayPos) : Nat → MapOverlayPos :=
  let o0x := off_0x ovr_res font_h items pos mo
  let o0y := off_0y ovr_res font_h items pos mo
  let s := (uzawaLoop ovr_res font_h items pos mo o0x o0y).1
  fun i =>
    if i < items then
      { mo i with text_offx := s.off_dx i + o0x i, text_offy := s.off_dy i + o0y i }
    else mo i

/-- The function `ovr_optimizeLayout`.  `fuel` bounds the rounds of the
radius-shrink loop; the result is `none` when that loop has not finished
within `fuel` rounds, and also when a clamped radius is not finite, which is
where the rational model of the later phases ends. -/
def ovr_optimizeLayout (hypot : ℚ → ℚ → ℚ) (ovr_res font_h : ℚ) (fuel : Nat)
    (items : Nat) (pos : Nat → Vector2d) (mo : Nat → MapOverlayPos) :
    Option (Nat → MapOverlayPos) :=
  if items = 0 then some mo
  else
    match shrinkLoop items fuel
        (shrinkInit hypot ovr_res pos (fun i => (mo i).radius) items) with
    | none => none
    | some rad =>
      if ∀ i, i < items → (limitShrinkage rad i).isFin = true then
        let mo1 : Nat → MapOverlayPos := fun i =>
          if i < items then { mo i with radius := (limitShrinkage rad i).toRat }
          else mo i
        some (layoutLabels ovr_res font_h items pos mo1)
      else none

/-! ## `ovr_refresh` (lines 141-205) -/

/-- A jump point of the current system, as far as the overlay reads it:
position, the results of `jp_isUsable` and `jp_isKnown`, the pixel width that
`gl_printWidthRaw` returns for its label, its layout record and its alpha. -/
structure JumpPoint where
  pos : Vector2d
  usable : Bool
  known : Bool
  label_width : ℚ
  mo : MapOverlayPos
  map_alpha : ℚ
deriving DecidableEq

/-- A planet of the current system, as far as the overlay reads it. -/
structure Planet where
  pos : Vector2d
  radius : ℚ
  known : Bool
  label_width : ℚ
  mo : MapOverlayPos
  map_alpha : ℚ
deriving DecidableEq

/-- The overlay globals `ovr_open`, `ovr_res`, `ovr_dt` and the objects of
`cur_system`. -/
structure Overlay where
  ovr_open : Bool
  ovr_res : ℚ
  jumps : List JumpPoint
  planets : List Planet
  ovr_dt : ℚ
deriving DecidableEq

/-- The value of `max_x` after the two loops over the jump points and the
planets, known or not. -/
def refreshMaxX (jumps : List JumpPoint) (planets : List Planet) : ℚ :=
  planets.foldl (fun m p => MAX m (ABS p.pos.x))
    (jumps.foldl (fun m jp => MAX m (ABS jp.pos.x)) 0)

/-- The value of `max_y` after the two loops. -/
def refreshMaxY (jumps : List JumpPoint) (planets : List Planet) : ℚ :=
  planets.foldl (fun m p => MAX m (ABS p.pos.y))
    (jumps.foldl (fun m jp => MAX m (ABS jp.pos.y)) 0)

/-- The assignment
`ovr_res = 2. * 1.2 * MAX( max_x / map_overlay_width(), max_y / map_overlay_height() )`. -/
def refreshResolution (width height : ℚ) (jumps : List JumpPoint)
    (planets : List Planet) : ℚ :=
  2 * (12 / 10) * MAX (refreshMaxX jumps planets / width)
    (refreshMaxY jumps planets / height)

/-- The entries of `pos` and `mo` that the first loop collects: the usable
and known jump points, with `radius = jumppoint_gfx->sw / 2.` and the label
width. -/
def jumpEntries (sw : ℚ) (jumps : List JumpPoint) : List (Vector2d × MapOverlayPos) :=
  (jumps.filter fun jp => jp.usable && jp.known).map fun jp =>
    (jp.pos, { jp.mo with radius := sw / 2, text_width := jp.label_width })

/-- The entries that the second loop collects: the known planets, with
`radius = pnt->radius / 2.` and the label width. -/
def planetEntries (planets : List Planet) : List (Vector2d × MapOverlayPos) :=
  (planets.filter fun p => p.known).map fun p =>
    (p.pos, { p.mo with radius := p.radius / 2, text_width := p.label_width })

/-- Entry `i` of an array filled from a list (a zero record past its end). -/
def entryAt (l : List (Vector2d × MapOverlayPos)) (i : Nat) : Vector2d × MapOverlayPos :=
  l.getD i (⟨0, 0⟩, ⟨0, 0, 0, 0⟩)

/-- The loop `mo[i]->radius = MAX( 2.+mo[i]->radius / ovr_res, i<jumpitems ? 5. : 7.5 )`. -/
def scaleRadius (ovr_res : ℚ) (items jumpitems : Nat) (mo : Nat → MapOverlayPos)
    (i : Nat) : MapOverlayPos :=
  if i < items then
    { mo i with radius := MAX (2 + (mo i).radius / ovr_res)
                            (if i < jumpitems then 5 else 15 / 2) }
  else mo i

/-- The resolution that `ovr_refresh` leaves in `ovr_res`: the computed one,
or 50 when no item was collected. -/
def refreshRes (width height sw : ℚ) (jumps : List JumpPoint)
    (planets : List Planet) : ℚ :=
  if (jumpEntries sw jumps ++ planetEntries planets).length = 0 then 50
  else refreshResolution width height jumps planets

/-- The number `items` of collected objects. -/
def refreshItems (sw : ℚ) (jumps : List JumpPoint) (planets : List Planet) : Nat :=
  (jumpEntries sw jumps ++ planetEntries planets).length

/-- The array `pos` that `ovr_refresh` passes to `ovr_optimizeLayout`. -/
def refreshPos (sw : ℚ) (jumps : List JumpPoint) (planets : List Planet)
    (i : Nat) : Vector2d :=
  (entryAt (jumpEntries sw jumps ++ planetEntries planets) i).1

/-- The array `mo` that `ovr_refresh` passes to `ovr_optimizeLayout`: the
collected records with the radii scaled by the computed resolution. -/
def refreshMo (width height sw : ℚ) (jumps : List JumpPoint) (planets : List Planet)
    (i : Nat) : MapOverlayPos :=
  scaleRadius (refreshResolution width height jumps planets)
    (refreshItems sw jumps planets) (jumpEntries sw jumps).length
    (fun i => (entryAt (jumpEntries sw jumps ++ planetEntries planets) i).2) i

/-- The array `mo` when `ovr_refresh` returns from `ovr_optimizeLayout`, for
an open overlay: entry `i` is the record of the `i`-th collected object. -/
def refreshLayout (hypot : ℚ → ℚ → ℚ) (width height sw font_h : ℚ) (fuel : Nat)
    (jumps : List JumpPoint) (planets : List Planet) :
    Option (Nat → MapOverlayPos) :=
  ovr_optimizeLayout hypot (refreshRes width height sw jumps planets) font_h fuel
    (refreshItems sw jumps planets) (refreshPos sw jumps planets)
    (refreshMo width height sw jumps planets)

/-- Store the records `mo n, mo (n+1), ..` into the usable and known jump
points, in order; the second component is the next free index. -/
def storeJumps (mo : Nat → MapOverlayPos) : List JumpPoint → Nat → List JumpPoint × Nat
  | [], n => ([], n)
  | jp :: rest, n =>
    if jp.usable && jp.known then
      let r := storeJumps mo rest (n + 1)
      ({ jp with mo := mo n } :: r.1, r.2)
    else
      let r := storeJumps mo rest n
      (jp :: r.1, r.2)

/-- Store the records `mo n, mo (n+1), ..` into the known planets, in order. -/
def storePlanets (mo : Nat → MapOverlayPos) : List Planet → Nat → List Planet
  | [], _ => []
  | p :: rest, n =>
    if p.known then { p with mo := mo n } :: storePlanets mo rest (n + 1)
    else p :: storePlanets mo rest n

/-- The function `ovr_refresh`: nothing happens on a closed overlay;
otherwise the resolution is recomputed and every collected object receives its
record of the array `mo`.  `width`, `height` are `map_overlay_width()` and
`map_overlay_height()`, `sw` is `jumppoint_gfx->sw`, `font_h` is
`gl_smallFont.h`. -/
def ovr_refresh (hypot : ℚ → ℚ → ℚ) (width height sw font_h : ℚ) (fuel : Nat)
    (o : Overlay) : Option Overlay :=
  if o.ovr_open = false then some o
  else
    match refreshLayout hypot width height sw font_h fuel o.jumps o.planets with
    | none => none
    | some mo =>
      let js := storeJumps mo o.jumps 0
      some { o with ovr_res := refreshRes width height sw o.jumps o.planets,
                    jumps := js.1,
                    planets := storePlanets mo o.planets js.2 }

/-! ## Coordinate mapping (lines 93-97 and 129-131) -/

/-- The function `map_overlayToScreenPos`: the pair `(*ox, *oy)`.  `center_x`,
`center_y` are the values of `map_overlay_center_x()` and
`map_overlay_center_y()`. -/
def map_overlayToScreenPos (center_x center_y ovr_res x y : ℚ) : ℚ × ℚ :=
  (center_x + x / ovr_res, center_y + y / ovr_res)

/-- The step "Translate to space coords" of `ovr_input`: the pair `(x, y)`
computed from the pointer position `(mx, my)`.  The code holds `mx`, `my` in
`int` variables and converts them to `double`; the formula is modelled on all
rationals. -/
def inputToSpace (center_x center_y ovr_res mx my : ℚ) : ℚ × ℚ :=
  ((mx - center_x) * ovr_res, (my - center_y) * ovr_res)

/-! ## Opening, closing and fading (lines 463-513 and 572-655) -/

/-- The constant `OVERLAY_FADEIN`: `(1.0/3.0)`. -/
def OVERLAY_FADEIN : ℚ := 1 / 3

/-- The function `ovr_initAlpha` on the planets and jump points and on
`ovr_dt`.  The safe lanes, which it also resets and which come from
`safelanes_get`, are kept out of the model. -/
def ovr_initAlpha (o : Overlay) : Overlay :=
  { o with
    jumps := o.jumps.map fun jp =>
      if (!jp.usable || !jp.known) = true then { jp with map_alpha := 0 }
      else { jp with map_alpha := 1 }
    planets := o.planets.map fun pnt =>
      if (!pnt.known) = true then { pnt with map_alpha := 0 }
      else { pnt with map_alpha := 1 }
    ovr_dt := 0 }

/-- The function `ovr_setOpen`; `open_` is its `int` argument.  The calls of
`input_mouseShow` and `input_mouseHide` and the release of the safe lanes are
kept out of the model. -/
def ovr_setOpen (open_ : Int) (o : Overlay) : Overlay :=
  if open_ ≠ 0 ∧ o.ovr_open = false then
    ovr_initAlpha { o with ovr_open := true }
  else if o.ovr_open = true then { o with ovr_open := false }
  else o

/-- The function `ovr_isOpen`: `!!ovr_open`. -/
def ovr_isOpen (o : Overlay) : Int := if o.ovr_open = true then 1 else 0

/-- The update of one alpha in `ovr_render`:
`if (a < 1.0) a = MIN( a+OVERLAY_FADEIN*dt, 1.0 )`. -/
def fadeAlpha (dt a : ℚ) : ℚ :=
  if a < 1 then MIN (a + OVERLAY_FADEIN * dt) 1 else a

/-- The function `ovr_render` on the overlay state: nothing happens when the
overlay is closed or the player is destroyed or absent (`player_alive` is
false); otherwise `ovr_dt` advances and the alpha of every planet and of every
jump point is updated.  Drawing is kept out of the model. -/
def ovr_render (dt : ℚ) (player_alive : Bool) (o : Overlay) : Overlay :=
  if o.ovr_open = false then o
  else if player_alive = false then o
  else
    { o with
      ovr_dt := o.ovr_dt + dt
      planets := o.planets.map fun pnt =>
        { pnt with map_alpha := fadeAlpha dt pnt.map_alpha }
      jumps := o.jumps.map fun jp =>
        { jp with map_alpha := fadeAlpha dt jp.map_alpha } }

/-! ## Markers (lines 39-51 and 798-884) -/

/-- The number of values of an `unsigned int`, taken as 32 bits wide. -/
def UINT_RANGE : Nat := 4294967296

/-- The struct `ovr_marker_t`; `pt_x`, `pt_y` are `u.pt.x`, `u.pt.y`, and
`text = none` is the `NULL` pointer. -/
structure ovr_marker_t where
  id : Nat
  text : Option String
  type : Int
  pt_x : ℚ
  pt_y : ℚ
deriving DecidableEq

/-- The globals `mrk_idgen` and `ovr_markers` (an empty list for both the
`NULL` pointer and the empty array). -/
structure MarkerRegistry where
  mrk_idgen : Nat
  ovr_markers : List ovr_marker_t
deriving DecidableEq

/-- The registry at program start: `mrk_idgen = 0`, `ovr_markers = NULL`. -/
def mrkInit : MarkerRegistry := { mrk_idgen := 0, ovr_markers := [] }

/-- The function `ovr_mrkCleanup`: the text is freed and set to `NULL`. -/
def ovr_mrkCleanup (mrk : ovr_marker_t) : ovr_marker_t := { mrk with text := none }

/-- The macro `array_erase( &a, &a[first], &a[last] )`: the entries from
`first` up to, not including, `last` are removed. -/
def array_erase (a : List ovr_marker_t) (first last : Nat) : List ovr_marker_t :=
  a.take first ++ a.drop last

/-- The function `ovr_mrkClear`: every marker is cleaned up, then the whole
range of the array is erased. -/
def ovr_mrkClear (r : MarkerRegistry) : MarkerRegistry :=
  let cleaned := r.ovr_markers.map ovr_mrkCleanup
  { r with ovr_markers := array_erase cleaned 0 cleaned.length }

/-- The function `ovr_mrkNew`: the array grows by one zeroed entry at its end
and that entry receives the id `++mrk_idgen`, an `unsigned int` increment. -/
def ovr_mrkNew (r : MarkerRegistry) : MarkerRegistry :=
  let g := (r.mrk_idgen + 1) % UINT_RANGE
  { mrk_idgen := g
    ovr_markers := r.ovr_markers ++
      [{ id := g, text := none, type := 0, pt_x := 0, pt_y := 0 }] }

/-- The function `ovr_mrkAddPoint`: the registry after the call and the
returned id.  The writes through `mrk` go to the entry that `ovr_mrkNew` has
grown, the last one; `strdup` yields the text itself. -/
def ovr_mrkAddPoint (text : Option String) (x y : ℚ) (r : MarkerRegistry) :
    MarkerRegistry × Nat :=
  let r1 := ovr_mrkNew r
  ({ r1 with
     ovr_markers := r1.ovr_markers.modifyLast fun mrk =>
       { mrk with
         type := 0
         text := (match text with
                  | some t => some t
                  | none => mrk.text)
         pt_x := x
         pt_y := y } },
   r1.mrk_idgen)

/-- The loop of `ovr_mrkRm` from the entry at the head of the list on: entries
with another id are stepped over, the first entry with the id is cleaned up
and erased, and the loop is left. -/
def rmLoop (id : Nat) : List ovr_marker_t → List ovr_marker_t
  | [] => []
  | mrk :: rest => if id ≠ mrk.id then mrk :: rmLoop id rest else rest

/-- The function `ovr_mrkRm`. -/
def ovr_mrkRm (id : Nat) (r : MarkerRegistry) : MarkerRegistry :=
  { r with ovr_markers := rmLoop id r.ovr_markers }

/-- A call of the marker interface. -/
inductive MrkCall where
  | addPoint (text : Option String) (x y : ℚ) : MrkCall
  | rm (id : Nat) : MrkCall
  | clear : MrkCall
deriving DecidableEq

/-- One call: the registry after it and the id it returns, if it returns
one. -/
def mrkCall (r : MarkerRegistry) : MrkCall → MarkerRegistry × Option Nat
  | MrkCall.addPoint text x y =>
    ((ovr_mrkAddPoint text x y r).1, some (ovr_mrkAddPoint text x y r).2)
  | MrkCall.rm id => (ovr_mrkRm id r, none)
  | MrkCall.clear => (ovr_mrkClear r, none)

/-- A sequence of calls from registry `r`: the final registry and the ids
returned, in the order of the calls. -/
def mrkRun (calls : List MrkCall) (r : MarkerRegistry) : MarkerRegistry × List Nat :=
  calls.foldl (fun acc c => ((mrkCall acc.1 c).1, acc.2 ++ (mrkCall acc.1 c).2.toList))
    (r, [])

/-! ## Predicates used in the statements and proofs -/

/-- The rational distance of the pair `(i, j)`:
`hypot( pos[i]->x - pos[j]->x, pos[i]->y - pos[j]->y ) / ovr_res`, exact for a
non-zero resolution. -/
def itemDist (hypot : ℚ → ℚ → ℚ) (ovr_res : ℚ) (pos : Nat → Vector2d) (i j : Nat) : ℚ :=
  hypot ((pos i).x - (pos j).x) ((pos i).y - (pos j).y) / ovr_res

/-- The function `hypot` restricted to arguments of which one is zero, where
it is the magnitude of the other one; the concrete instances below only use
it at such arguments. -/
def hypotAxis (a b : ℚ) : ℚ := max |a| |b|

/-- Two items on the x axis at distance 3: the positions of the concrete
instances. -/
def twoPos : Nat → Vector2d := fun i => if i = 0 then { x := 0, y := 0 } else { x := 3, y := 0 }

/-- Two records with radius 2 and text width 30: the layout records of the
concrete instances. -/
def twoMo : Nat → MapOverlayPos := fun _ =>
  { radius := 2, text_offx := 0, text_offy := 0, text_width := 30 }

/-- Two items on the x axis whose distance `16 - 2^-40` is just below the sum
of the radii 8 and 8. -/
def nearPos : Nat → Vector2d := fun i =>
  if i = 0 then { x := 0, y := 0 } else { x := 16 - 1 / 1099511627776, y := 0 }

/-- Two items on the x axis at distance `58 - 2^-19`. -/
def twicePos : Nat → Vector2d := fun i =>
  if i = 0 then { x := 0, y := 0 } else { x := 58 - 1 / 524288, y := 0 }

/-- The radii 40 and `26 + 2^-18` of the two items of `twicePos`; both are
values of the type `float`. -/
def twiceRadius : Nat → ℚ := fun i => if i = 0 then 40 else 26 + 1 / 262144

/-- A known planet at (100, 0) with radius 60 and label width 30. -/
def lonePlanet : Planet :=
  { pos := { x := 100, y := 0 }, radius := 60, known := true, label_width := 30,
    mo := { radius := 0, text_offx := 0, text_offy := 0, text_width := 0 }, map_alpha := 0 }

/-- A well-formed constraint: both indices are items and the stored distance is
finite and positive. -/
def FitOk (items : Nat) (c : MapOverlayRadiusConstraint) : Prop :=
  c.i < items ∧ c.j < items ∧ ∃ d, c.dist = FVal.fin d ∧ 0 < d

/-- Every radius of an item is finite and non-negative. -/
def RadiiOk (items : Nat) (radius : Nat → FVal) : Prop :=
  ∀ i, i < items → ∃ q, radius i = FVal.fin q ∧ 0 ≤ q

/-- A state of the shrink loop in which all radii are finite and non-negative
and all constraints are well formed. -/
def GoodState (items : Nat) (s : ShrinkState) : Prop :=
  RadiiOk items s.radius ∧ ∀ c ∈ s.fits, FitOk items c

/-- The pair of a constraint is still in conflict under the given radii: the
test `r >= 1` fails. -/
def unsat (radius : Nat → FVal) (c : MapOverlayRadiusConstraint) : Bool :=
  !(FVal.ge (fitRatio radius c) (FVal.fin 1))

/-- The termination measure of the shrink loop: the length of the conflict
list plus the number of its pairs that are still in conflict. -/
def shrinkMeasure (s : ShrinkState) : Nat :=
  s.fits.length + s.fits.countP (unsat s.radius)

/-- Radii `r2` are finite, non-negative and at most the radii `r1`, on the
items. -/
def RadiiLe (items : Nat) (r1 r2 : Nat → FVal) : Prop :=
  ∀ i, i < items → ∃ a b, r1 i = FVal.fin a ∧ r2 i = FVal.fin b ∧ 0 ≤ b ∧ b ≤ a

/-- The pair `(i, j)` does not overlap: both radii are finite and their sum is
at most the distance `d i j`. -/
def PairSat (d : Nat → Nat → ℚ) (radius : Nat → FVal) (i j : Nat) : Prop :=
  ∃ a b, radius i = FVal.fin a ∧ radius j = FVal.fin b ∧ a + b ≤ d i j

/-- The invariant of the shrink loop for a distance table `d`: every stored
distance is the one of its pair, and every pair that is not in the conflict
list does not overlap. -/
def PairInv (items : Nat) (d : Nat → Nat → ℚ) (s : ShrinkState) : Prop :=
  (∀ c ∈ s.fits, c.dist = FVal.fin (d c.i c.j)) ∧
  ∀ i j, i < j → j < items → (∃ c ∈ s.fits, c.i = i ∧ c.j = j) ∨ PairSat d s.radius i j

/-- `b` holds candidate `m`, the first minimiser of `val` among the candidates
below `k`. -/
def BestOf (val tx ty : Nat → ℚ) (k : Nat) (b : Best) : Prop :=
  ∃ m, m < k ∧ b = { bx := tx m, by_ := ty m, best := some (val m) } ∧
    (∀ j, j < k → val m ≤ val j) ∧ (∀ j, j < m → val m < val j)

/-- The row of a force matrix in which the flat index `idx` lies. -/
def rowOf (items idx : Nat) : Nat := idx / (2 * items)

/-- The force matrices after the call of `ovr_refresh_uzawa_overlap` that the
sweep makes for item `i` in state `s`. -/
def itemForces (ovr_res font_h : ℚ) (items : Nat) (pos : Nat → Vector2d)
    (mo : Nat → MapOverlayPos) (o0x o0y : Nat → ℚ) (s : RelaxState) (i : Nat) :
    (Nat → ℚ) × (Nat → ℚ) :=
  ovr_refresh_uzawa_overlap ovr_res font_h items pos mo i
    ((pos i).x / ovr_res + s.off_dx i + o0x i - ovr_text_pixbuf)
    ((pos i).y / ovr_res + s.off_dy i + o0y i - ovr_text_pixbuf)
    ((mo i).text_width + 2 * ovr_text_pixbuf)
    (font_h + 2 * ovr_text_pixbuf)
    o0x o0y s.off_dx s.off_dy (s.forces_xa, s.forces_ya)

/-- The value `kx * sx` that the sweep stores in `off_buffx[i]`. -/
def itemNewX (ovr_res font_h : ℚ) (items : Nat) (pos : Nat → Vector2d)
    (mo : Nat → MapOverlayPos) (o0x o0y : Nat → ℚ) (s : RelaxState) (i : Nat) : ℚ :=
  kx * rowSum items (itemForces ovr_res font_h items pos mo o0x o0y s i).1 i

/-- The value `ky * sy` that the sweep stores in `off_buffy[i]`. -/
def itemNewY (ovr_res font_h : ℚ) (items : Nat) (pos : Nat → Vector2d)
    (mo : Nat → MapOverlayPos) (o0x o0y : Nat → ℚ) (s : RelaxState) (i : Nat) : ℚ :=
  ky * rowSum items (itemForces ovr_res font_h items pos mo o0x o0y s i).2 i

/-- The change `ABS(old_bx-off_buffx[i]) + ABS(old_by-off_buffy[i])` of item
`i`. -/
def itemChange (ovr_res font_h : ℚ) (items : Nat) (pos : Nat → Vector2d)
    (mo : Nat → MapOverlayPos) (o0x o0y : Nat → ℚ) (s : RelaxState) (i : Nat) : ℚ :=
  ABS (s.off_buffx i - itemNewX ovr_res font_h items pos mo o0x o0y s i)
    + ABS (s.off_buffy i - itemNewY ovr_res font_h items pos mo o0x o0y s i)

/-- The state after the items of `L` have been visited, written item by item
from the state `s` in which the sweep started. -/
def sweepPar (ovr_res font_h : ℚ) (items : Nat) (pos : Nat → Vector2d)
    (mo : Nat → MapOverlayPos) (o0x o0y : Nat → ℚ) (L : List Nat) (s : RelaxState) :
    RelaxState :=
  { forces_xa := fun idx =>
      if rowOf items idx ∈ L then
        (itemForces ovr_res font_h items pos mo o0x o0y s (rowOf items idx)).1 idx
      else s.forces_xa idx
    forces_ya := fun idx =>
      if rowOf items idx ∈ L then
        (itemForces ovr_res font_h items pos mo o0x o0y s (rowOf items idx)).2 idx
      else s.forces_ya idx
    off_buffx := fun k =>
      if k ∈ L then itemNewX ovr_res font_h items pos mo o0x o0y s k else s.off_buffx k
    off_buffy := fun k =>
      if k ∈ L then itemNewY ovr_res font_h items pos mo o0x o0y s k else s.off_buffy k
    off_dx := s.off_dx
    off_dy := s.off_dy }

/-- Two pairs of force matrices agree on row `i`. -/
def AgreeRow (items i : Nat) (F G : (Nat → ℚ) × (Nat → ℚ)) : Prop :=
  ∀ idx, rowOf items idx = i → F.1 idx = G.1 idx ∧ F.2 idx = G.2 idx

/-- The state after `n` sweeps of the code from state `s`. -/
def sweepsFrom (ovr_res font_h : ℚ) (items : Nat) (pos : Nat → Vector2d)
    (mo : Nat → MapOverlayPos) (o0x o0y : Nat → ℚ) : Nat → RelaxState → RelaxState
  | 0, s => s
  | n + 1, s =>
    sweepsFrom ovr_res font_h items pos mo o0x o0y n
      (sweep ovr_res font_h items pos mo o0x o0y s).1

/-- The change of the committed offset of item `i` between two states:
`|change in dx| + |change in dy|`. -/
def offsetChange (s t : RelaxState) (i : Nat) : ℚ :=
  ABS (s.off_dx i - t.off_dx i) + ABS (s.off_dy i - t.off_dy i)

/-- The buffers hold the committed offsets of all items. -/
def Synced (items : Nat) (s : RelaxState) : Prop :=
  ∀ i, i < items → s.off_buffx i = s.off_dx i ∧ s.off_buffy i = s.off_dy i

/-- The state of the relaxation of a layout after `n` sweeps from the zeroed
buffers, with the initial placements of the layout. -/
def layoutSweeps (ovr_res font_h : ℚ) (items : Nat) (pos : Nat → Vector2d)
    (mo : Nat → MapOverlayPos) (n : Nat) : RelaxState :=
  sweepsFrom ovr_res font_h items pos mo (off_0x ovr_res font_h items pos mo)
    (off_0y ovr_res font_h items pos mo) n relaxInit

/-- The push of the label box of item `j`, placed with the offsets `offx`,
`offy`, `offdx`, `offdy`, on the box `(x, y, w, h)`: the second call of
`force_collision` in `ovr_refresh_uzawa_overlap`, with zeroed accumulators. -/
def labelForce (ovr_res font_h : ℚ) (pos : Nat → Vector2d) (mo : Nat → MapOverlayPos)
    (offx offy offdx offdy : Nat → ℚ) (x y w h : ℚ) (j : Nat) : ℚ × ℚ :=
  force_collision 0 0 x y w h
    ((pos j).x / ovr_res + offdx j + offx j - ovr_text_pixbuf)
    ((pos j).y / ovr_res + offdy j + offy j - ovr_text_pixbuf)
    ((mo j).text_width + ovr_text_pixbuf * 2)
    (font_h + ovr_text_pixbuf * 2)

/-- Whether a call is a call of `ovr_mrkAddPoint`. -/
def isAdd : MrkCall → Bool
  | MrkCall.addPoint _ _ _ => true
  | _ => false

/-- The ids of the stored markers, in the order of the array. -/
def storedIds (r : MarkerRegistry) : List Nat := r.ovr_markers.map fun mrk => mrk.id

/-- The marker that `ovr_mrkAddPoint( NULL, 0, 0 )` stores with id 1. -/
def markerOne : ovr_marker_t := { id := 1, text := none, type := 0, pt_x := 0, pt_y := 0 }

/-- The calls `ovr_mrkAddPoint( NULL, 0, 0 ); ovr_mrkRm( id )` in which `id` is
the id that the call of `ovr_mrkAddPoint` returns when `k + 1` ids have been
returned before. -/
def addRemove (k : Nat) : List MrkCall :=
  [MrkCall.addPoint none 0 0, MrkCall.rm ((k + 2) % UINT_RANGE)]

/-- A call sequence that makes `mrk_idgen` wrap around: one marker is added and
kept, then 2^32 - 1 markers are added and removed at once, then one more
marker is added. -/
def wrapCalls : List MrkCall :=
  (MrkCall.addPoint none 0 0 :: (List.range 4294967295).flatMap addRemove)
    ++ [MrkCall.addPoint none 0 0]

/-- The registry that `wrapCalls` leaves: two markers with id 1. -/
def dupRegistry : MarkerRegistry := { mrk_idgen := 1, ovr_markers := [markerOne, markerOne] }

/-- A known planet at the origin, with radius 60 and label width 30. -/
def originPlanet : Planet :=
  { pos := { x := 0, y := 0 }, radius := 60, known := true, label_width := 30,
    mo := { radius := 0, text_offx := 0, text_offy := 0, text_width := 0 }, map_alpha := 0 }

/-- An open overlay over a system whose only object is `originPlanet`. -/
def originOverlay : Overlay :=
  { ovr_open := true, ovr_res := 10, jumps := [], planets := [originPlanet], ovr_dt := 0 }

/-- A planet at (100, 0) that is not known. -/
def unknownPlanet : Planet :=
  { pos := { x := 100, y := 0 }, radius := 60, known := false, label_width := 30,
    mo := { radius := 0, text_offx := 0, text_offy := 0, text_width := 0 }, map_alpha := 0 }

/-- An open overlay over a system whose only object is `unknownPlanet`. -/
def unknownOverlay : Overlay :=
  { ovr_open := true, ovr_res := 10, jumps := [], planets := [unknownPlanet], ovr_dt := 0 }

/-- The number `M` is the largest magnitude among `vals` (0 when there is
none). -/
def IsMaxAbs (M : ℚ) (vals : List ℚ) : Prop :=
  (∀ v ∈ vals, |v| ≤ M) ∧ (vals = [] → M = 0) ∧ (vals ≠ [] → ∃ v ∈ vals, M = |v|)

/-- A known planet with alpha 0.9 and an unknown planet with alpha 0.5. -/
def fadePlanets : List Planet :=
  [{ pos := { x := 100, y := 0 }, radius := 60, known := true, label_width := 30,
     mo := { radius := 0, text_offx := 0, text_offy := 0, text_width := 0 },
     map_alpha := 9 / 10 },
   { pos := { x := 0, y := 50 }, radius := 40, known := false, label_width := 30,
     mo := { radius := 0, text_offx := 0, text_offy := 0, text_width := 0 },
     map_alpha := 1 / 2 }]

/-- A usable and known jump point with alpha 1/4. -/
def fadeJumps : List JumpPoint :=
  [{ pos := { x := -200, y := 0 }, usable := true, known := true, label_width := 20,
     mo := { radius := 0, text_offx := 0, text_offy := 0, text_width := 0 },
     map_alpha := 1 / 4 }]

/-- A closed overlay over `fadePlanets` and `fadeJumps`, with `ovr_dt = 7`. -/
def closedOverlay : Overlay :=
  { ovr_open := false, ovr_res := 10, jumps := fadeJumps, planets := fadePlanets, ovr_dt := 7 }

/-- An open overlay over `fadePlanets` and `fadeJumps`. -/
def openOverlay : Overlay :=
  { ovr_open := true, ovr_res := 10, jumps := fadeJumps, planets := fadePlanets, ovr_dt := 0 }

/-- A layout record with the label offset cleared. -/
def clearOffset (r : MapOverlayPos) : MapOverlayPos := { r with text_offx := 0, text_offy := 0 }

/-- A jump point with its layout record zeroed: what is left is the object
itself. -/
def clearJumpMo (jp : JumpPoint) : JumpPoint := { jp with mo := ⟨0, 0, 0, 0⟩ }

/-- A planet with its layout record zeroed. -/
def clearPlanetMo (p : Planet) : Planet := { p with mo := ⟨0, 0, 0, 0⟩ }

/-- An open overlay over the objects of `openOverlay`, whose layout records
and resolution hold other values. -/
def staleOverlay : Overlay :=
  { ovr_open := true, ovr_res := 3,
    jumps := fadeJumps.map fun jp => { jp with mo := ⟨9, 8, 7, 6⟩ },
    planets := fadePlanets.map fun p => { p with mo := ⟨1, 2, 3, 4⟩ },
    ovr_dt := 0 }

/-- Four items on the x axis at 0, 3, 100 and 103. -/
def fourPos : Nat → Vector2d := fun i =>
  if i = 0 then { x := 0, y := 0 } else if i = 1 then { x := 3, y := 0 }
  else if i = 2 then { x := 100, y := 0 } else { x := 103, y := 0 }

/-- The state in which the shrink loop is entered for `fourPos` with radius 2
for every item and resolution 1. -/
def fourInit : ShrinkState := shrinkInit hypotAxis 1 fourPos (fun _ => 2) 4

/-- Two items on the y axis at distance 3: (0, 0) and (0, 3). -/
def stackPos : Nat → Vector2d := fun i => if i = 0 then { x := 0, y := 0 } else { x := 0, y := 3 }

/-- Two records with radius 4 and text width 30. -/
def stackMo : Nat → MapOverlayPos := fun _ =>
  { radius := 4, text_offx := 0, text_offy := 0, text_width := 30 }

/-- The first call of `force_collision` in `ovr_refresh_uzawa_overlap`, for the
footprint of item `j`, on accumulators that hold `(ox, oy)`. -/
def footprintAcc (ovr_res : ℚ) (pos : Nat → Vector2d) (mo : Nat → MapOverlayPos)
    (ox oy x y w h : ℚ) (j : Nat) : ℚ × ℚ :=
  force_collision ox oy x y w h
    ((pos j).x / ovr_res - 2 * (mo j).radius / 2)
    ((pos j).y / ovr_res - 2 * (mo j).radius / 2)
    (2 * (mo j).radius) (2 * (mo j).radius)

/-- The second call of `force_collision` in `ovr_refresh_uzawa_overlap`, for
the label box of item `j`, on accumulators that hold `(ox, oy)`. -/
def labelAcc (ovr_res font_h : ℚ) (pos : Nat → Vector2d) (mo : Nat → MapOverlayPos)
    (offx offy offdx offdy : Nat → ℚ) (ox oy x y w h : ℚ) (j : Nat) : ℚ × ℚ :=
  force_collision ox oy x y w h
    ((pos j).x / ovr_res + offdx j + offx j - ovr_text_pixbuf)
    ((pos j).y / ovr_res + offdy j + offy j - ovr_text_pixbuf)
    ((mo j).text_width + ovr_text_pixbuf * 2)
    (font_h + ovr_text_pixbuf * 2)

/-- The sum `(Sx, Sy)` as the specification words it: the pushes, each computed
from the two rectangles alone (zeroed accumulators), of every footprint and of
the label box of every other item, placed with the committed offsets of state
`s`, on the current label box of item `i`. -/
def specPushSum (ovr_res font_h : ℚ) (items : Nat) (pos : Nat → Vector2d)
    (mo : Nat → MapOverlayPos) (o0x o0y : Nat → ℚ) (s : RelaxState) (i : Nat) : ℚ × ℚ :=
  let x := (pos i).x / ovr_res + s.off_dx i + o0x i - ovr_text_pixbuf
  let y := (pos i).y / ovr_res + s.off_dy i + o0y i - ovr_text_pixbuf
  let w := (mo i).text_width + 2 * ovr_text_pixbuf
  let h := font_h + 2 * ovr_text_pixbuf
  (((List.range items).map fun j =>
      (if j = i then 0
        else (labelForce ovr_res font_h pos mo o0x o0y s.off_dx s.off_dy x y w h j).1)
      + (footprintForce ovr_res pos mo x y w h j).1).sum,
   ((List.range items).map fun j =>
      (if j = i then 0
        else (labelForce ovr_res font_h pos mo o0x o0y s.off_dx s.off_dy x y w h j).2)
      + (footprintForce ovr_res pos mo x y w h j).2).sum)

theorem FVal.zero_div_not_ge (x : FVal) :
    FVal.ge (FVal.div (FVal.fin 0) x) (FVal.fin 1) = false := by
  cases x with
  | nan => rfl
  | ninf => simp [FVal.div, FVal.ge, FVal.le]
  | pinf => simp [FVal.div, FVal.ge, FVal.le]
  | fin s =>
    by_cases hs : s = 0
    · simp [FVal.div, FVal.ge, FVal.le, hs]
    · simp [FVal.div, FVal.ge, FVal.le, hs]

theorem FVal.ratio_ge_iff {d s : ℚ} (hd : 0 < d) (hs : 0 ≤ s) :
    FVal.ge (FVal.div (FVal.fin d) (FVal.fin s)) (FVal.fin 1) = true ↔ s ≤ d := by
  by_cases h0 : s = 0
  · subst h0
    simp [FVal.div, FVal.ge, FVal.le, FVal.signedInf, hd, hd.ne', hd.le]
  · have hs' : 0 < s := lt_of_le_of_ne hs (Ne.symm h0)
    simp [FVal.div, FVal.ge, FVal.le, h0, one_le_div hs']

theorem FVal.ratio_of_lt {d s : ℚ} (hd : 0 < d) (hs : d < s) :
    FVal.div (FVal.fin d) (FVal.fin s) = FVal.fin (d / s) := by
  have : s ≠ 0 := by linarith
  simp [FVal.div, this]

theorem FVal.MAX_fin (a b : ℚ) : FVal.MAX (FVal.fin a) (FVal.fin b) = FVal.fin (max a b) := by
  unfold FVal.MAX FVal.gt FVal.lt
  by_cases h : b < a
  · simp [h, max_eq_left h.le]
  · simp [h, max_eq_right (not_lt.mp h)]

theorem scanFits_cons_keep (radius : Nat → FVal) (c : MapOverlayRadiusConstraint)
    (rest : List MapOverlayRadiusConstraint) (sf : FVal) (ms : Nat → Bool)
    (h : ¬ FVal.ge (fitRatio radius c) (FVal.fin 1) = true) :
    scanFits radius (c :: rest) sf ms =
      { scanFits radius rest
          (FVal.MAX sf (FVal.sub (fitRatio radius c) (FVal.fin FLT_EPSILON)))
          (fun k => decide (k = c.i) || decide (k = c.j) || ms k) with
        fits := c :: (scanFits radius rest
          (FVal.MAX sf (FVal.sub (fitRatio radius c) (FVal.fin FLT_EPSILON)))
          (fun k => decide (k = c.i) || decide (k = c.j) || ms k)).fits } := by
  cases rest <;> simp [scanFits, h]

theorem scanFits_sublist (radius : Nat → FVal) (l : List MapOverlayRadiusConstraint)
    (sf : FVal) (ms : Nat → Bool) : (scanFits radius l sf ms).fits.Sublist l := by
  induction l, sf, ms using scanFits.induct radius with
  | case1 sf ms => simp [scanFits]
  | case2 c sf ms h => simp [scanFits, h]
  | case3 c sf ms h d rest2 ih =>
    simp only [scanFits, h, if_true]
    exact (ih.cons₂ d).cons c
  | case4 c rest sf ms h ih =>
    rw [scanFits_cons_keep radius c rest sf ms h]
    exact ih.cons₂ c

theorem scanFits_mem_or_ge (radius : Nat → FVal) (l : List MapOverlayRadiusConstraint)
    (sf : FVal) (ms : Nat → Bool) (c : MapOverlayRadiusConstraint) (hc : c ∈ l) :
    c ∈ (scanFits radius l sf ms).fits ∨ FVal.ge (fitRatio radius c) (FVal.fin 1) = true := by
  induction l, sf, ms using scanFits.induct radius with
  | case1 sf ms => simp at hc
  | case2 e sf ms h =>
    simp at hc; subst hc; exact Or.inr h
  | case3 e sf ms h d rest2 ih =>
    simp only [scanFits, h, if_true]
    rcases List.mem_cons.mp hc with rfl | hc
    · exact Or.inr h
    · rcases List.mem_cons.mp hc with rfl | hc
      · exact Or.inl (List.mem_cons_self _ _)
      · rcases ih hc with h1 | h1
        · exact Or.inl (List.mem_cons_of_mem _ h1)
        · exact Or.inr h1
  | case4 e rest sf ms h ih =>
    rw [scanFits_cons_keep radius e rest sf ms h]
    rcases List.mem_cons.mp hc with rfl | hc
    · exact Or.inl (List.mem_cons_self _ _)
    · rcases ih hc with h1 | h1
      · exact Or.inl (List.mem_cons_of_mem _ h1)
      · exact Or.inr h1

theorem scanFits_flag_mono (radius : Nat → FVal) (l : List MapOverlayRadiusConstraint)
    (sf : FVal) (ms : Nat → Bool) (k : Nat) (hk : ms k = true) :
    (scanFits radius l sf ms).must_shrink k = true := by
  induction l, sf, ms using scanFits.induct radius with
  | case1 sf ms => simpa [scanFits] using hk
  | case2 e sf ms h => simpa [scanFits, h] using hk
  | case3 e sf ms h d rest2 ih =>
    simp only [scanFits, h, if_true]
    exact ih hk
  | case4 e rest sf ms h ih =>
    rw [scanFits_cons_keep radius e rest sf ms h]
    exact ih (by simp [hk])

theorem FLT_EPSILON_pos : 0 < FLT_EPSILON := by norm_num [FLT_EPSILON]

theorem fitRatio_ge_iff {items : Nat} {radius : Nat → FVal} (hr : RadiiOk items radius)
    {c : MapOverlayRadiusConstraint} (hc : FitOk items c) :
    ∃ a b d, radius c.i = FVal.fin a ∧ radius c.j = FVal.fin b ∧ c.dist = FVal.fin d ∧
      0 ≤ a ∧ 0 ≤ b ∧ 0 < d ∧
      (FVal.ge (fitRatio radius c) (FVal.fin 1) = true ↔ a + b ≤ d) ∧
      (d < a + b → fitRatio radius c = FVal.fin (d / (a + b))) := by
  obtain ⟨hi, hj, d, hd, hd0⟩ := hc
  obtain ⟨a, ha, ha0⟩ := hr _ hi
  obtain ⟨b, hb, hb0⟩ := hr _ hj
  refine ⟨a, b, d, ha, hb, hd, ha0, hb0, hd0, ?_, ?_⟩
  · unfold fitRatio
    rw [ha, hb, hd]
    exact FVal.ratio_ge_iff hd0 (add_nonneg ha0 hb0)
  · intro h
    unfold fitRatio
    rw [ha, hb, hd]
    exact FVal.ratio_of_lt hd0 h

theorem scanFits_good (items : Nat) (radius : Nat → FVal) (hr : RadiiOk items radius)
    (l : List MapOverlayRadiusConstraint) (sf : FVal) (ms : Nat → Bool) :
    ∀ q, sf = FVal.fin q → 0 ≤ q → q < 1 → (∀ c ∈ l, FitOk items c) →
      ∃ q2, (scanFits radius l sf ms).shrink_factor = FVal.fin q2 ∧ q ≤ q2 ∧ q2 < 1 ∧
        ((scanFits radius l sf ms).fits.length = l.length →
          (∀ c ∈ l, (scanFits radius l sf ms).must_shrink c.i = true ∧
              (scanFits radius l sf ms).must_shrink c.j = true ∧
              ¬ FVal.ge (fitRatio radius c) (FVal.fin 1) = true) ∧
          (q2 = q ∨ ∃ c ∈ l, ∃ a b d, radius c.i = FVal.fin a ∧ radius c.j = FVal.fin b ∧
              c.dist = FVal.fin d ∧ q2 * (a + b) ≤ d)) := by
  induction l, sf, ms using scanFits.induct radius with
  | case1 sf ms =>
    intro q hq h0 h1 _
    exact ⟨q, by simp [scanFits, hq], le_refl _, h1, fun _ => ⟨by simp, Or.inl rfl⟩⟩
  | case2 e sf ms h =>
    intro q hq h0 h1 _
    refine ⟨q, by simp [scanFits, h, hq], le_refl _, h1, fun hlen => ?_⟩
    simp [scanFits, h] at hlen
  | case3 e sf ms h d rest2 ih =>
    intro q hq h0 h1 hl
    obtain ⟨q2, hsf, hq2, hq21, _⟩ := ih q hq h0 h1
      (fun c hc => hl c (List.mem_cons_of_mem _ (List.mem_cons_of_mem _ hc)))
    refine ⟨q2, by simpa [scanFits, h] using hsf, hq2, hq21, fun hlen => ?_⟩
    have hs := (scanFits_sublist radius rest2 sf ms).length_le
    simp [scanFits, h] at hlen
    omega
  | case4 e rest sf ms h ih =>
    intro q hq h0 h1 hl
    obtain ⟨a, b, d, ha, hb, hd, ha0, hb0, hd0, hiff, hval⟩ :=
      fitRatio_ge_iff hr (hl e (List.mem_cons_self _ _))
    have hlt : d < a + b := by
      by_contra hcon
      exact h (hiff.mpr (not_lt.mp hcon))
    have hab : 0 < a + b := lt_trans hd0 hlt
    have hratio1 : d / (a + b) < 1 := (div_lt_one hab).mpr hlt
    have hsfnew : FVal.MAX sf (FVal.sub (fitRatio radius e) (FVal.fin FLT_EPSILON))
        = FVal.fin (max q (d / (a + b) - FLT_EPSILON)) := by
      rw [hval hlt, hq]
      simp only [FVal.sub, FVal.neg, FVal.add]
      rw [FVal.MAX_fin, sub_eq_add_neg]
    have heps := FLT_EPSILON_pos
    obtain ⟨q2, hsf, hq2, hq21, hrest⟩ := ih (max q (d / (a + b) - FLT_EPSILON)) hsfnew
      (le_trans h0 (le_max_left _ _)) (max_lt h1 (by linarith))
      (fun c hc => hl c (List.mem_cons_of_mem _ hc))
    rw [scanFits_cons_keep radius e rest sf ms h]
    refine ⟨q2, hsf, le_trans (le_max_left _ _) hq2, hq21, fun hlen => ?_⟩
    have hlen2 : (scanFits radius rest
          (FVal.MAX sf (FVal.sub (fitRatio radius e) (FVal.fin FLT_EPSILON)))
          (fun k => decide (k = e.i) || decide (k = e.j) || ms k)).fits.length = rest.length := by
      simpa using hlen
    obtain ⟨hall, hor⟩ := hrest hlen2
    refine ⟨?_, ?_⟩
    · intro c hc
      rcases List.mem_cons.mp hc with rfl | hc
      · exact ⟨scanFits_flag_mono _ _ _ _ _ (by simp),
          scanFits_flag_mono _ _ _ _ _ (by simp), h⟩
      · exact hall c hc
    · rcases hor with hEq | ⟨c, hc, hex⟩
      · rcases le_total q (d / (a + b) - FLT_EPSILON) with hle | hle
        · right
          refine ⟨e, List.mem_cons_self _ _, a, b, d, ha, hb, hd, ?_⟩
          rw [hEq, max_eq_right hle, sub_mul, div_mul_cancel₀ d hab.ne']
          have : 0 ≤ FLT_EPSILON * (a + b) := mul_nonneg heps.le hab.le
          linarith
        · left
          rw [hEq, max_eq_left hle]
      · exact Or.inr ⟨c, List.mem_cons_of_mem _ hc, hex⟩

theorem countP_lt_of_imp {α : Type} (p q : α → Bool) (l : List α)
    (himp : ∀ c ∈ l, q c = true → p c = true)
    (hex : ∃ c ∈ l, p c = true ∧ q c = false) :
    l.countP q < l.countP p := by
  induction l with
  | nil => obtain ⟨c, hc, _⟩ := hex; simp at hc
  | cons x xs ih =>
    have hle : xs.countP q ≤ xs.countP p :=
      List.countP_mono_left (fun c hc h => himp c (List.mem_cons_of_mem _ hc) h)
    obtain ⟨c, hc, hp, hq⟩ := hex
    rcases List.mem_cons.mp hc with rfl | hc
    · rw [List.countP_cons_of_pos _ _ hp, List.countP_cons_of_neg _ _ (by simp [hq])]
      omega
    · have := ih (fun c hc h => himp c (List.mem_cons_of_mem _ hc) h) ⟨c, hc, hp, hq⟩
      by_cases hqx : q x = true
      · rw [List.countP_cons_of_pos _ _ hqx,
          List.countP_cons_of_pos _ _ (himp x (List.mem_cons_self _ _) hqx)]
        omega
      · rw [List.countP_cons_of_neg _ _ hqx]
        by_cases hpx : p x = true
        · rw [List.countP_cons_of_pos _ _ hpx]; omega
        · rw [List.countP_cons_of_neg _ _ hpx]; omega

theorem sat_mono {items : Nat} {r1 r2 : Nat → FVal} (hle : RadiiLe items r1 r2)
    (h1 : RadiiOk items r1) (h2 : RadiiOk items r2)
    {c : MapOverlayRadiusConstraint} (hc : FitOk items c)
    (hs : FVal.ge (fitRatio r1 c) (FVal.fin 1) = true) :
    FVal.ge (fitRatio r2 c) (FVal.fin 1) = true := by
  obtain ⟨a, b, d, ha, hb, hd, _, _, _, hiff, _⟩ := fitRatio_ge_iff h1 hc
  obtain ⟨a2, b2, d2, ha2, hb2, hd2, _, _, _, hiff2, _⟩ := fitRatio_ge_iff h2 hc
  obtain ⟨x, y, hx, hy, _, hxy⟩ := hle _ hc.1
  obtain ⟨u, v, hu, hv, _, huv⟩ := hle _ hc.2.1
  rw [ha] at hx; rw [ha2] at hy; rw [hb] at hu; rw [hb2] at hv; rw [hd] at hd2
  cases hx; cases hy; cases hu; cases hv; cases hd2
  rw [hiff2]
  have := hiff.mp hs
  linarith

theorem shrinkRound_good (items : Nat) (s : ShrinkState) (hg : GoodState items s) :
    GoodState items (shrinkRound items s) ∧
    RadiiLe items s.radius (shrinkRound items s).radius ∧
    (s.fits ≠ [] → shrinkMeasure (shrinkRound items s) < shrinkMeasure s) := by
  obtain ⟨hr, hf⟩ := hg
  obtain ⟨q2, hsf, hq0, hq1, hlen⟩ :=
    scanFits_good items s.radius hr s.fits (FVal.fin 0) (fun _ => false) 0 rfl (le_refl _)
      (by norm_num) hf
  have hsub := scanFits_sublist s.radius s.fits (FVal.fin 0) (fun _ => false)
  have hle : RadiiLe items s.radius (shrinkRound items s).radius := by
    intro i hi
    obtain ⟨a, ha, ha0⟩ := hr i hi
    by_cases hm : (scanFits s.radius s.fits (FVal.fin 0) (fun _ => false)).must_shrink i = true
    · refine ⟨a, a * q2, ha, ?_, mul_nonneg ha0 hq0, ?_⟩
      · simp only [shrinkRound, hi, hm, and_self, if_true, hsf, ha, FVal.mul]
      · nlinarith
    · refine ⟨a, a, ha, ?_, ha0, le_refl _⟩
      have hm2 : ¬ (i < items ∧
          (scanFits s.radius s.fits (FVal.fin 0) (fun _ => false)).must_shrink i = true) :=
        fun h => hm h.2
      simp only [shrinkRound, if_neg hm2, ha]
  have hr2 : RadiiOk items (shrinkRound items s).radius := by
    intro i hi
    obtain ⟨a, b, _, hb, hb0, _⟩ := hle i hi
    exact ⟨b, hb, hb0⟩
  have hf2 : ∀ c ∈ (shrinkRound items s).fits, FitOk items c :=
    fun c hc => hf c (hsub.subset hc)
  refine ⟨⟨hr2, hf2⟩, hle, fun hne => ?_⟩
  have hmono : ∀ c ∈ s.fits, unsat (shrinkRound items s).radius c = true →
      unsat s.radius c = true := by
    intro c hc h2
    unfold unsat at h2 ⊢
    by_contra hcon
    have h1 : FVal.ge (fitRatio s.radius c) (FVal.fin 1) = true := by
      simpa using hcon
    have := sat_mono hle hr hr2 (hf c hc) h1
    simp [this] at h2
  have hcnt1 : (shrinkRound items s).fits.countP (unsat (shrinkRound items s).radius)
      ≤ s.fits.countP (unsat (shrinkRound items s).radius) := hsub.countP_le _
  have hcnt2 : s.fits.countP (unsat (shrinkRound items s).radius)
      ≤ s.fits.countP (unsat s.radius) := List.countP_mono_left hmono
  unfold shrinkMeasure
  rcases Nat.lt_or_ge (shrinkRound items s).fits.length s.fits.length with hlt | hge
  · omega
  · have hEq : (scanFits s.radius s.fits (FVal.fin 0) (fun _ => false)).fits.length
        = s.fits.length := le_antisymm hsub.length_le hge
    obtain ⟨hall, hor⟩ := hlen hEq
    have hwit : ∃ c ∈ s.fits, ∃ a b d, s.radius c.i = FVal.fin a ∧ s.radius c.j = FVal.fin b ∧
        c.dist = FVal.fin d ∧ q2 * (a + b) ≤ d := by
      rcases hor with h0 | h0
      · obtain ⟨c, hc⟩ := List.exists_mem_of_ne_nil _ hne
        obtain ⟨a, b, d, ha, hb, hd, _, _, hd0, _, _⟩ := fitRatio_ge_iff hr (hf c hc)
        exact ⟨c, hc, a, b, d, ha, hb, hd, by rw [h0]; linarith⟩
      · exact h0
    obtain ⟨c, hc, a, b, d, ha, hb, hd, hqd⟩ := hwit
    have hstrict : s.fits.countP (unsat (shrinkRound items s).radius)
        < s.fits.countP (unsat s.radius) := by
      apply countP_lt_of_imp _ _ _ hmono
      refine ⟨c, hc, ?_, ?_⟩
      · unfold unsat
        simpa using (hall c hc).2.2
      · unfold unsat
        have hfc := hf c hc
        obtain ⟨a2, b2, d2, ha2, hb2, hd2, _, _, _, hiff2, _⟩ := fitRatio_ge_iff hr2 hfc
        have hi2 : (shrinkRound items s).radius c.i = FVal.fin (a * q2) := by
          simp only [shrinkRound, hfc.1, (hall c hc).1, and_self, if_true, hsf, ha, FVal.mul]
        have hj2 : (shrinkRound items s).radius c.j = FVal.fin (b * q2) := by
          simp only [shrinkRound, hfc.2.1, (hall c hc).2.1, and_self, if_true, hsf, hb, FVal.mul]
        rw [hi2] at ha2; rw [hj2] at hb2; rw [hd] at hd2
        cases ha2; cases hb2; cases hd2
        have : FVal.ge (fitRatio (shrinkRound items s).radius c) (FVal.fin 1) = true := by
          rw [hiff2]; linarith
        simp [this]
    have : (shrinkRound items s).fits.length = s.fits.length := hEq
    omega

theorem shrinkLoop_terminates (items : Nat) :
    ∀ (n : Nat) (s : ShrinkState), GoodState items s → shrinkMeasure s ≤ n →
      ∃ out, shrinkLoop items n s = some out ∧ RadiiOk items out ∧
        RadiiLe items s.radius out := by
  intro n
  induction n with
  | zero =>
    intro s hg hm
    have : s.fits = [] := by
      unfold shrinkMeasure at hm
      exact List.length_eq_zero.mp (by omega)
    refine ⟨s.radius, by simp [shrinkLoop, this], hg.1, fun i hi => ?_⟩
    obtain ⟨a, ha, ha0⟩ := hg.1 i hi
    exact ⟨a, a, ha, ha, ha0, le_refl _⟩
  | succ n ih =>
    intro s hg hm
    by_cases hnil : s.fits = []
    · refine ⟨s.radius, by simp [shrinkLoop, hnil], hg.1, fun i hi => ?_⟩
      obtain ⟨a, ha, ha0⟩ := hg.1 i hi
      exact ⟨a, a, ha, ha, ha0, le_refl _⟩
    · obtain ⟨hg2, hle, hdec⟩ := shrinkRound_good items s hg
      obtain ⟨out, hout, hok, hle2⟩ := ih (shrinkRound items s) hg2 (by have := hdec hnil; omega)
      refine ⟨out, ?_, hok, fun i hi => ?_⟩
      · obtain ⟨c, rest, hcr⟩ := List.exists_cons_of_ne_nil hnil
        rw [shrinkLoop]
        simp only [hcr]
        simpa using hout
      · obtain ⟨a, b, ha, hb, _, hab⟩ := hle i hi
        obtain ⟨b2, c, hb2, hc, hc0, hbc⟩ := hle2 i hi
        rw [hb] at hb2; cases hb2
        exact ⟨a, c, ha, hc, hc0, le_trans hbc hab⟩

theorem shrinkRound_keeps_zero (items : Nat) (s : ShrinkState)
    (c : MapOverlayRadiusConstraint) (hc : c ∈ s.fits) (hd : c.dist = FVal.fin 0) :
    c ∈ (shrinkRound items s).fits := by
  rcases scanFits_mem_or_ge s.radius s.fits (FVal.fin 0) (fun _ => false) c hc with h | h
  · exact h
  · unfold fitRatio at h
    rw [hd, FVal.zero_div_not_ge] at h
    exact absurd h (by simp)

theorem shrinkLoop_zero_dist (items : Nat) (c : MapOverlayRadiusConstraint)
    (hd : c.dist = FVal.fin 0) :
    ∀ (fuel : Nat) (s : ShrinkState), c ∈ s.fits → shrinkLoop items fuel s = none := by
  intro fuel
  induction fuel with
  | zero =>
    intro s hc
    obtain ⟨e, rest, her⟩ := List.exists_cons_of_ne_nil (List.ne_nil_of_mem hc)
    rw [shrinkLoop]
    simp only [her]
  | succ n ih =>
    intro s hc
    obtain ⟨e, rest, her⟩ := List.exists_cons_of_ne_nil (List.ne_nil_of_mem hc)
    rw [shrinkLoop]
    simp only [her]
    exact ih _ (shrinkRound_keeps_zero items s c hc hd)

theorem pairSat_mono {items : Nat} {d : Nat → Nat → ℚ} {r1 r2 : Nat → FVal}
    (hle : RadiiLe items r1 r2) {i j : Nat} (hi : i < items) (hj : j < items)
    (h : PairSat d r1 i j) : PairSat d r2 i j := by
  obtain ⟨a, b, ha, hb, hab⟩ := h
  obtain ⟨x, y, hx, hy, _, hxy⟩ := hle i hi
  obtain ⟨u, v, hu, hv, _, huv⟩ := hle j hj
  rw [ha] at hx; rw [hb] at hu
  cases hx; cases hu
  exact ⟨y, v, hy, hv, by linarith⟩

theorem shrinkRound_pairInv (items : Nat) (d : Nat → Nat → ℚ) (s : ShrinkState)
    (hg : GoodState items s) (hp : PairInv items d s) :
    PairInv items d (shrinkRound items s) := by
  obtain ⟨_, hle, _⟩ := shrinkRound_good items s hg
  have hsub := scanFits_sublist s.radius s.fits (FVal.fin 0) (fun _ => false)
  refine ⟨fun c hc => hp.1 c (hsub.subset hc), fun i j hij hj => ?_⟩
  have hi : i < items := lt_trans hij hj
  rcases hp.2 i j hij hj with ⟨c, hc, hci, hcj⟩ | hsat
  · rcases scanFits_mem_or_ge s.radius s.fits (FVal.fin 0) (fun _ => false) c hc with h | h
    · exact Or.inl ⟨c, h, hci, hcj⟩
    · right
      apply pairSat_mono hle hi hj
      obtain ⟨a, b, d2, ha, hb, hd, _, _, _, hiff, _⟩ := fitRatio_ge_iff hg.1 (hg.2 c hc)
      have hdc := hp.1 c hc
      rw [hd] at hdc
      cases hdc
      rw [hci] at ha; rw [hcj] at hb
      refine ⟨a, b, ha, hb, ?_⟩
      have := hiff.mp h
      rw [hci, hcj] at this
      exact this
  · exact Or.inr (pairSat_mono hle hi hj hsat)

theorem shrinkLoop_pairSat (items : Nat) (d : Nat → Nat → ℚ) :
    ∀ (fuel : Nat) (s : ShrinkState) (out : Nat → FVal),
      GoodState items s → PairInv items d s → shrinkLoop items fuel s = some out →
      ∀ i j, i < j → j < items → PairSat d out i j := by
  intro fuel
  induction fuel with
  | zero =>
    intro s out hg hp h i j hij hj
    rw [shrinkLoop] at h
    cases hf : s.fits with
    | nil =>
      simp only [hf] at h; cases h
      rcases hp.2 i j hij hj with ⟨c, hc, _⟩ | hs
      · rw [hf] at hc; simp at hc
      · exact hs
    | cons e rest => simp [hf] at h
  | succ n ih =>
    intro s out hg hp h i j hij hj
    rw [shrinkLoop] at h
    cases hf : s.fits with
    | nil =>
      simp only [hf] at h; cases h
      rcases hp.2 i j hij hj with ⟨c, hc, _⟩ | hs
      · rw [hf] at hc; simp at hc
      · exact hs
    | cons e rest =>
      simp only [hf] at h
      exact ih _ out (shrinkRound_good items s hg).1 (shrinkRound_pairInv items d s hg hp) h
        i j hij hj

theorem mem_initFits (hypot : ℚ → ℚ → ℚ) (ovr_res : ℚ) (pos : Nat → Vector2d)
    (radius : Nat → FVal) (items : Nat) (c : MapOverlayRadiusConstraint) :
    c ∈ initFits hypot ovr_res pos radius items ↔
      ∃ i j, i < j ∧ j < items ∧
        FVal.lt (pairDist hypot ovr_res pos i j) (FVal.add (radius i) (radius j)) = true ∧
        c = { i := i, j := j, dist := pairDist hypot ovr_res pos i j } := by
  unfold initFits fitsOfRow
  simp only [List.mem_flatMap, List.mem_range, List.mem_filterMap, List.mem_range'_1]
  constructor
  · rintro ⟨i, hi, j, ⟨hj1, hj2⟩, hc⟩
    by_cases h : FVal.lt (pairDist hypot ovr_res pos i j) (FVal.add (radius i) (radius j)) = true
    · simp only [h, if_true, Option.some.injEq] at hc
      exact ⟨i, j, by omega, by omega, h, hc.symm⟩
    · simp [h] at hc
  · rintro ⟨i, j, hij, hj, h, rfl⟩
    exact ⟨i, by omega, j, ⟨by omega, by omega⟩, by simp [h]⟩

theorem pairDist_eq (hypot : ℚ → ℚ → ℚ) (ovr_res : ℚ) (pos : Nat → Vector2d)
    (hres : ovr_res ≠ 0) (i j : Nat) :
    pairDist hypot ovr_res pos i j = FVal.fin (itemDist hypot ovr_res pos i j) := by
  simp [pairDist, itemDist, FVal.div, hres]

theorem itemDist_nonneg (hypot : ℚ → ℚ → ℚ) (ovr_res : ℚ) (pos : Nat → Vector2d)
    (hh : ∀ a b, 0 ≤ hypot a b) (hres : 0 < ovr_res) (i j : Nat) :
    0 ≤ itemDist hypot ovr_res pos i j :=
  div_nonneg (hh _ _) hres.le

theorem shrinkInit_radiiOk (hypot : ℚ → ℚ → ℚ) (ovr_res : ℚ) (pos : Nat → Vector2d)
    (radius : Nat → ℚ) (items : Nat) (hrad : ∀ i, i < items → 0 ≤ radius i) :
    RadiiOk items (shrinkInit hypot ovr_res pos radius items).radius :=
  fun i hi => ⟨radius i, rfl, hrad i hi⟩

theorem shrinkInit_pairInv (hypot : ℚ → ℚ → ℚ) (ovr_res : ℚ) (pos : Nat → Vector2d)
    (radius : Nat → ℚ) (items : Nat) (hres : ovr_res ≠ 0) :
    PairInv items (itemDist hypot ovr_res pos) (shrinkInit hypot ovr_res pos radius items) := by
  constructor
  · intro c hc
    obtain ⟨i, j, _, _, _, rfl⟩ := (mem_initFits _ _ _ _ _ _).mp hc
    exact pairDist_eq hypot ovr_res pos hres i j
  · intro i j hij hj
    by_cases h : FVal.lt (pairDist hypot ovr_res pos i j)
        (FVal.add (FVal.fin (radius i)) (FVal.fin (radius j))) = true
    · exact Or.inl ⟨_, (mem_initFits _ _ _ _ _ _).mpr ⟨i, j, hij, hj, h, rfl⟩, rfl, rfl⟩
    · right
      refine ⟨radius i, radius j, rfl, rfl, ?_⟩
      rw [pairDist_eq hypot ovr_res pos hres] at h
      simpa [FVal.add, FVal.lt] using h

theorem shrinkInit_good (hypot : ℚ → ℚ → ℚ) (ovr_res : ℚ) (pos : Nat → Vector2d)
    (radius : Nat → ℚ) (items : Nat) (hres : ovr_res ≠ 0)
    (hrad : ∀ i, i < items → 0 ≤ radius i)
    (hpos : ∀ c ∈ (shrinkInit hypot ovr_res pos radius items).fits,
      0 < itemDist hypot ovr_res pos c.i c.j) :
    GoodState items (shrinkInit hypot ovr_res pos radius items) := by
  refine ⟨shrinkInit_radiiOk hypot ovr_res pos radius items hrad, fun c hc => ?_⟩
  have hp := hpos c hc
  obtain ⟨i, j, hij, hj, _, rfl⟩ := (mem_initFits _ _ _ _ _ _).mp hc
  exact ⟨lt_trans hij hj, hj, _, pairDist_eq hypot ovr_res pos hres i j, hp⟩

theorem hypotAxis_nonneg (a b : ℚ) : 0 ≤ hypotAxis a b :=
  le_trans (abs_nonneg a) (le_max_left _ _)

/-! ## The radius-shrink loop: C1, C3 -/

/-- C1: when the radius-shrink loop has finished, every pair of items `i < j`
has finite radii whose sum is at most the scaled distance
`hypot(pos_i - pos_j) / ovr_res`; and the loop does finish when all scaled
distances are positive. -/
theorem shrinkLoop_no_overlap (hypot : ℚ → ℚ → ℚ) (ovr_res : ℚ) (pos : Nat → Vector2d)
    (radius : Nat → ℚ) (items : Nat)
    (hh : ∀ a b, 0 ≤ hypot a b) (hres : 0 < ovr_res)
    (hrad : ∀ i, i < items → 0 ≤ radius i) :
    (∀ fuel out,
      shrinkLoop items fuel (shrinkInit hypot ovr_res pos radius items) = some out →
      ∀ i j, i < j → j < items →
        ∃ a b, out i = FVal.fin a ∧ out j = FVal.fin b ∧
          a + b ≤ hypot ((pos i).x - (pos j).x) ((pos i).y - (pos j).y) / ovr_res) ∧
    ((∀ i j, i < j → j < items →
        0 < hypot ((pos i).x - (pos j).x) ((pos i).y - (pos j).y)) →
      ∃ fuel out,
        shrinkLoop items fuel (shrinkInit hypot ovr_res pos radius items) = some out) := by
  constructor
  · intro fuel out h i j hij hj
    by_cases hz : ∃ c ∈ (shrinkInit hypot ovr_res pos radius items).fits, c.dist = FVal.fin 0
    · obtain ⟨c, hc, hd⟩ := hz
      rw [shrinkLoop_zero_dist items c hd fuel _ hc] at h
      cases h
    · have hg : GoodState items (shrinkInit hypot ovr_res pos radius items) := by
        apply shrinkInit_good hypot ovr_res pos radius items hres.ne' hrad
        intro c hc
        have h0 := itemDist_nonneg hypot ovr_res pos hh hres c.i c.j
        rcases h0.lt_or_eq with h1 | h1
        · exact h1
        · exfalso
          apply hz
          refine ⟨c, hc, ?_⟩
          rw [(shrinkInit_pairInv hypot ovr_res pos radius items hres.ne').1 c hc, ← h1]
      exact shrinkLoop_pairSat items (itemDist hypot ovr_res pos) fuel _ out hg
        (shrinkInit_pairInv hypot ovr_res pos radius items hres.ne') h i j hij hj
  · intro hpos
    have hg : GoodState items (shrinkInit hypot ovr_res pos radius items) := by
      apply shrinkInit_good hypot ovr_res pos radius items hres.ne' hrad
      intro c hc
      obtain ⟨i, j, hij, hj, _, rfl⟩ := (mem_initFits _ _ _ _ _ _).mp hc
      exact div_pos (hpos i j hij hj) hres
    obtain ⟨out, hout, _⟩ := shrinkLoop_terminates items _ _ hg (le_refl _)
    exact ⟨_, out, hout⟩

/-- The witness of C1: two items at distance 3 with radius 2 each, resolution 1;
the loop finishes and leaves radii whose sum is at most 3. -/
theorem shrinkLoop_no_overlap_witness :
    ∃ fuel out, shrinkLoop 2 fuel (shrinkInit hypotAxis 1 twoPos (fun _ => 2) 2) = some out ∧
      ∃ a b, out 0 = FVal.fin a ∧ out 1 = FVal.fin b ∧ a + b ≤ 3 := by
  have h := shrinkLoop_no_overlap hypotAxis 1 twoPos (fun _ => 2) 2
    hypotAxis_nonneg (by norm_num) (fun _ _ => by norm_num)
  obtain ⟨fuel, out, hout⟩ := h.2 (fun i j hij hj => by
    have hi : i = 0 := by omega
    have hj1 : j = 1 := by omega
    subst hi; subst hj1
    norm_num [twoPos, hypotAxis])
  obtain ⟨a, b, ha, hb, hab⟩ := h.1 fuel out hout 0 1 (by norm_num) (by norm_num)
  refine ⟨fuel, out, hout, a, b, ha, hb, ?_⟩
  norm_num [twoPos, hypotAxis] at hab
  exact hab

/-- C3: when two items `k < l` lie at the same position and their radii have a
positive sum, the conflict list never becomes empty: the radius-shrink loop
does not finish within any number of rounds. -/
theorem shrinkLoop_coincident_diverges (hypot : ℚ → ℚ → ℚ) (ovr_res : ℚ)
    (pos : Nat → Vector2d) (radius : Nat → ℚ) (items k l : Nat)
    (h0 : hypot 0 0 = 0) (hres : ovr_res ≠ 0) (hkl : k < l) (hl : l < items)
    (hsame : pos k = pos l) (hr : 0 < radius k + radius l) :
    ∀ fuel, shrinkLoop items fuel (shrinkInit hypot ovr_res pos radius items) = none := by
  intro fuel
  have hd : pairDist hypot ovr_res pos k l = FVal.fin 0 := by
    rw [pairDist_eq hypot ovr_res pos hres, itemDist, hsame]
    simp [h0]
  apply shrinkLoop_zero_dist items { i := k, j := l, dist := pairDist hypot ovr_res pos k l } hd
  apply (mem_initFits _ _ _ _ _ _).mpr
  refine ⟨k, l, hkl, hl, ?_, rfl⟩
  rw [hd]
  simpa [FVal.add, FVal.lt] using hr

/-- The witness of C3: two planets at (100, 0) with radius 7.5 each; no number
of rounds finishes the loop. -/
theorem shrinkLoop_coincident_diverges_witness :
    ¬ ∃ fuel out, shrinkLoop 2 fuel
      (shrinkInit hypotAxis (1 / 2) (fun _ => { x := 100, y := 0 }) (fun _ => 15 / 2) 2)
        = some out := by
  rintro ⟨fuel, out, h⟩
  rw [shrinkLoop_coincident_diverges hypotAxis (1 / 2) (fun _ => { x := 100, y := 0 })
    (fun _ => 15 / 2) 2 0 1 (by norm_num [hypotAxis]) (by norm_num) (by norm_num)
    (by norm_num) rfl (by norm_num) fuel] at h
  cases h

theorem layoutLabels_radius (ovr_res font_h : ℚ) (items : Nat) (pos : Nat → Vector2d)
    (mo : Nat → MapOverlayPos) (i : Nat) :
    (layoutLabels ovr_res font_h items pos mo i).radius = (mo i).radius := by
  unfold layoutLabels
  by_cases h : i < items <;> simp [h]

theorem limitShrinkage_fin (rad : Nat → FVal) (i : Nat)
    (h : (limitShrinkage rad i).isFin = true) :
    ∃ q, limitShrinkage rad i = FVal.fin q ∧ 4 ≤ q := by
  unfold limitShrinkage FVal.MAX FVal.gt at *
  cases hr : rad i with
  | nan => exact ⟨4, by simp [FVal.lt], le_refl _⟩
  | ninf => exact ⟨4, by simp [FVal.lt], le_refl _⟩
  | pinf => rw [hr] at h; simp [FVal.lt, FVal.isFin] at h
  | fin a =>
    by_cases ha : 4 < a
    · exact ⟨a, by simp [FVal.lt, ha], ha.le⟩
    · exact ⟨4, by simp [FVal.lt, ha], le_refl _⟩

theorem ovr_optimizeLayout_some (hypot : ℚ → ℚ → ℚ) (ovr_res font_h : ℚ) (fuel items : Nat)
    (pos : Nat → Vector2d) (mo out : Nat → MapOverlayPos) (hitems : items ≠ 0)
    (h : ovr_optimizeLayout hypot ovr_res font_h fuel items pos mo = some out) :
    ∃ rad, shrinkLoop items fuel
        (shrinkInit hypot ovr_res pos (fun i => (mo i).radius) items) = some rad ∧
      (∀ i, i < items → (limitShrinkage rad i).isFin = true) ∧
      out = layoutLabels ovr_res font_h items pos (fun i =>
        if i < items then { mo i with radius := (limitShrinkage rad i).toRat } else mo i) := by
  unfold ovr_optimizeLayout at h
  rw [if_neg hitems] at h
  cases hs : shrinkLoop items fuel
      (shrinkInit hypot ovr_res pos (fun i => (mo i).radius) items) with
  | none => rw [hs] at h; simp at h
  | some rad =>
    rw [hs] at h
    by_cases hf : ∀ i, i < items → (limitShrinkage rad i).isFin = true
    · have h2 := h
      simp only [] at h2
      rw [if_pos hf] at h2
      exact ⟨rad, rfl, hf, (Option.some.inj h2).symm⟩
    · have h2 := h
      simp only [] at h2
      rw [if_neg hf] at h2
      cases h2

theorem ovr_optimizeLayout_returns (hypot : ℚ → ℚ → ℚ) (ovr_res font_h : ℚ) (items : Nat)
    (pos : Nat → Vector2d) (mo : Nat → MapOverlayPos)
    (hres : 0 < ovr_res) (hrad : ∀ i, i < items → 0 ≤ (mo i).radius)
    (hpos : ∀ i j, i < j → j < items →
        0 < hypot ((pos i).x - (pos j).x) ((pos i).y - (pos j).y)) :
    ∃ fuel out, ovr_optimizeLayout hypot ovr_res font_h fuel items pos mo = some out := by
  by_cases hitems : items = 0
  · exact ⟨0, mo, by simp [ovr_optimizeLayout, hitems]⟩
  · have hg : GoodState items (shrinkInit hypot ovr_res pos (fun i => (mo i).radius) items) := by
      apply shrinkInit_good hypot ovr_res pos _ items hres.ne' hrad
      intro c hc
      obtain ⟨i, j, hij, hj, _, rfl⟩ := (mem_initFits _ _ _ _ _ _).mp hc
      exact div_pos (hpos i j hij hj) hres
    obtain ⟨rad, hrad2, hok, _⟩ := shrinkLoop_terminates items _ _ hg (le_refl _)
    have hf : ∀ i, i < items → (limitShrinkage rad i).isFin = true := by
      intro i hi
      obtain ⟨q, hq, _⟩ := hok i hi
      unfold limitShrinkage
      rw [hq, FVal.MAX_fin]
      rfl
    refine ⟨shrinkMeasure (shrinkInit hypot ovr_res pos (fun i => (mo i).radius) items),
      layoutLabels ovr_res font_h items pos (fun i =>
        if i < items then { mo i with radius := (limitShrinkage rad i).toRat } else mo i), ?_⟩
    unfold ovr_optimizeLayout
    rw [if_neg hitems, hrad2]
    simp only []
    exact if_pos hf

theorem initFits_two (hypot : ℚ → ℚ → ℚ) (ovr_res : ℚ) (pos : Nat → Vector2d)
    (radius : Nat → FVal)
    (h : FVal.lt (pairDist hypot ovr_res pos 0 1) (FVal.add (radius 0) (radius 1)) = true) :
    initFits hypot ovr_res pos radius 2 =
      [{ i := 0, j := 1, dist := pairDist hypot ovr_res pos 0 1 }] := by
  simp [initFits, fitsOfRow, List.range_succ, List.range', h]

theorem MAX_eq_max (x y : ℚ) : MAX x y = max x y := by
  unfold MAX
  by_cases h : x > y
  · rw [if_pos h, max_eq_left h.le]
  · rw [if_neg h, max_eq_right (not_lt.mp h)]

/-! ## The floor clamp and the radii after the layout: C2, C5 -/

/-- C2: whenever `ovr_optimizeLayout` returns for a non-empty item set, the
radius of every item is `MAX( radius left by the shrink loop, 4 )` and is at
least 4; and it does return when the resolution is positive, the radii are
non-negative and all distances are positive. -/
theorem optimizeLayout_radius_floor (hypot : ℚ → ℚ → ℚ) (ovr_res font_h : ℚ)
    (items : Nat) (pos : Nat → Vector2d) (mo : Nat → MapOverlayPos) (hitems : items ≠ 0) :
    (∀ fuel out, ovr_optimizeLayout hypot ovr_res font_h fuel items pos mo = some out →
      ∃ rad, shrinkLoop items fuel
          (shrinkInit hypot ovr_res pos (fun i => (mo i).radius) items) = some rad ∧
        ∀ i, i < items →
          FVal.fin (out i).radius = FVal.MAX (rad i) (FVal.fin 4) ∧ 4 ≤ (out i).radius) ∧
    (0 < ovr_res → (∀ i, i < items → 0 ≤ (mo i).radius) →
      (∀ i j, i < j → j < items →
        0 < hypot ((pos i).x - (pos j).x) ((pos i).y - (pos j).y)) →
      ∃ fuel out, ovr_optimizeLayout hypot ovr_res font_h fuel items pos mo = some out) := by
  refine ⟨fun fuel out h => ?_, fun hres hrad hpos =>
    ovr_optimizeLayout_returns hypot ovr_res font_h items pos mo hres hrad hpos⟩
  obtain ⟨rad, hrad, hf, hout⟩ :=
    ovr_optimizeLayout_some hypot ovr_res font_h fuel items pos mo out hitems h
  refine ⟨rad, hrad, fun i hi => ?_⟩
  obtain ⟨q, hq, hq4⟩ := limitShrinkage_fin rad i (hf i hi)
  have : (out i).radius = q := by
    rw [hout, layoutLabels_radius]
    simp only [hi, if_true, hq, FVal.toRat]
  rw [this]
  exact ⟨by rw [← hq]; rfl, hq4⟩

/-- The witness of C2: two items at distance 3 with radius 2; the layout returns
and both radii are at least 4. -/
theorem optimizeLayout_radius_floor_witness :
    ∃ fuel out, ovr_optimizeLayout hypotAxis 1 10 fuel 2 twoPos twoMo = some out ∧
      4 ≤ (out 0).radius ∧ 4 ≤ (out 1).radius := by
  have h := optimizeLayout_radius_floor hypotAxis 1 10 2 twoPos twoMo (by norm_num)
  obtain ⟨fuel, out, hout⟩ := h.2 (by norm_num) (fun _ _ => by norm_num [twoMo])
    (fun i j hij hj => by
      have hi : i = 0 := by omega
      have hj1 : j = 1 := by omega
      subst hi; subst hj1
      norm_num [twoPos, hypotAxis])
  obtain ⟨rad, _, hr⟩ := h.1 fuel out hout
  exact ⟨fuel, out, hout, (hr 0 (by norm_num)).2, (hr 1 (by norm_num)).2⟩

theorem refreshMo_radius_ge (width height sw : ℚ) (jumps : List JumpPoint)
    (planets : List Planet) (i : Nat) (hi : i < refreshItems sw jumps planets) :
    5 ≤ (refreshMo width height sw jumps planets i).radius := by
  simp only [refreshMo, scaleRadius, hi, if_true, MAX_eq_max]
  apply le_trans _ (le_max_right _ _)
  split_ifs <;> norm_num

/-- C8: two rectangles with non-negative sizes that are separated on one axis
by a gap larger than the margin 5 exert no push: with zeroed accumulators
`force_collision` returns (0, 0). -/
theorem force_collision_separated (x y w h mx my mw mh : ℚ)
    (hw : 0 ≤ w) (hh : 0 ≤ h) (hmw : 0 ≤ mw) (hmh : 0 ≤ mh)
    (hsep : y + h + 5 < my ∨ my + mh + 5 < y ∨ x + w + 5 < mx ∨ mx + mw + 5 < x) :
    force_collision 0 0 x y w h mx my mw mh = (0, 0) := by
  simp only [force_collision, ovr_text_pixbuf, MIN, MAX, Prod.mk.injEq]
  rcases hsep with h1 | h1 | h1 | h1
  · constructor
    · rw [if_pos (Or.inl (by linarith))]
    · split_ifs <;> first | rfl | linarith
  · constructor
    · rw [if_pos (Or.inr (by linarith))]
    · split_ifs <;> first | rfl | linarith
  · constructor
    · split_ifs <;> first | rfl | linarith
    · rw [if_pos (Or.inl (by linarith))]
  · constructor
    · split_ifs <;> first | rfl | linarith
    · rw [if_pos (Or.inr (by linarith))]

/-- The witness of C8: a 10 x 10 box at the origin and a 10 x 10 box that starts
6 above its top edge. -/
theorem force_collision_separated_witness :
    force_collision 0 0 0 0 10 10 0 16 10 10 = (0, 0) :=
  force_collision_separated 0 0 10 10 0 16 10 10 (by norm_num) (by norm_num) (by norm_num)
    (by norm_num) (Or.inl (by norm_num))

theorem bestOf_step (val tx ty : Nat → ℚ) (k : Nat) (b : Best)
    (hb : k = 0 ∨ BestOf val tx ty k b) :
    BestOf val tx ty (k + 1)
      (if k = 0 ∨ ltBest (val k) b.best = true then
        { bx := tx k, by_ := ty k, best := some (val k) } else b) := by
  by_cases hk : k = 0
  · subst hk
    simp only [true_or, if_true]
    exact ⟨0, by norm_num, rfl, fun j hj => by
      have : j = 0 := by omega
      subst this; exact le_refl _, fun j hj => by omega⟩
  · obtain ⟨m, hm, hbm, hmin, hfirst⟩ := hb.resolve_left hk
    subst hbm
    by_cases hlt : val k < val m
    · have : (k = 0 ∨ ltBest (val k) (some (val m)) = true) := Or.inr (by simp [ltBest, hlt])
      rw [if_pos this]
      refine ⟨k, by omega, rfl, fun j hj => ?_, fun j hj => ?_⟩
      · rcases Nat.lt_succ_iff_lt_or_eq.mp hj with h | h
        · exact le_trans hlt.le (hmin j h)
        · subst h; exact le_refl _
      · exact lt_of_lt_of_le hlt (hmin j hj)
    · have : ¬ (k = 0 ∨ ltBest (val k) (some (val m)) = true) := by
        simp [ltBest, hk, hlt]
      rw [if_neg this]
      refine ⟨m, by omega, rfl, fun j hj => ?_, hfirst⟩
      rcases Nat.lt_succ_iff_lt_or_eq.mp hj with h | h
      · exact hmin j h
      · subst h; exact not_lt.mp hlt

theorem scanCandidatesNoBreak_bestOf (val tx ty : Nat → ℚ) :
    ∀ (n k : Nat) (b : Best), (k = 0 ∨ BestOf val tx ty k b) → 0 < n + k →
      BestOf val tx ty (n + k) (scanCandidatesNoBreak val tx ty n k b) := by
  intro n
  induction n with
  | zero =>
    intro k b hb hpos
    have hk : k ≠ 0 := by omega
    simpa [scanCandidatesNoBreak] using hb.resolve_left hk
  | succ n ih =>
    intro k b hb _
    rw [scanCandidatesNoBreak]
    have := ih (k + 1) _ (Or.inr (bestOf_step val tx ty k b hb)) (by omega)
    rw [show n + 1 + k = n + (k + 1) by omega]
    exact this

theorem scanCandidates_bestOf (val tx ty : Nat → ℚ) (hnn : ∀ k, 0 ≤ val k) :
    ∀ (n k : Nat) (b : Best), (k = 0 ∨ BestOf val tx ty k b) → 0 < n + k →
      BestOf val tx ty (n + k) (scanCandidates val tx ty n k b) := by
  intro n
  induction n with
  | zero =>
    intro k b hb hpos
    have hk : k ≠ 0 := by omega
    simpa [scanCandidates] using hb.resolve_left hk
  | succ n ih =>
    intro k b hb _
    rw [scanCandidates]
    have hstep := bestOf_step val tx ty k b hb
    by_cases hz : val k = 0
    · simp only [hz, if_true]
      rw [hz] at hstep
      obtain ⟨m, hm, hbm, hmin, hfirst⟩ := hstep
      have hm0 : val m = 0 := le_antisymm (by rw [← hz]; exact hmin k (by omega)) (hnn m)
      exact ⟨m, by omega, hbm, fun j _ => by rw [hm0]; exact hnn j, hfirst⟩
    · simp only [if_neg hz]
      have := ih (k + 1) _ (Or.inr hstep) (by omega)
      rw [show n + 1 + k = n + (k + 1) by omega]
      exact this

theorem bestOf_unique (val tx ty : Nat → ℚ) (k : Nat) (b c : Best)
    (hb : BestOf val tx ty k b) (hc : BestOf val tx ty k c) : b = c := by
  obtain ⟨m, hm, hbm, hmin, hfirst⟩ := hb
  obtain ⟨m2, hm2, hcm, hmin2, hfirst2⟩ := hc
  have : m = m2 := by
    rcases Nat.lt_trichotomy m m2 with h | h | h
    · have := hfirst2 m h
      have := hmin m2 hm2
      linarith
    · exact h
    · have := hfirst m2 h
      have := hmin2 m hm
      linarith
  subst this
  rw [hbm, hcm]

theorem ABS_nonneg (x : ℚ) : 0 ≤ ABS x := by
  unfold ABS
  split_ifs with h
  · linarith
  · exact not_lt.mp h

theorem candVal_nonneg (ovr_res font_h : ℚ) (items : Nat) (pos : Nat → Vector2d)
    (mo : Nat → MapOverlayPos) (i k : Nat) :
    0 ≤ candVal ovr_res font_h items pos mo i k := by
  unfold candVal
  simp only
  have : ∀ (l : List Nat) (v : ℚ), 0 ≤ v → 0 ≤ l.foldl (fun val j =>
      val + (ABS (footprintForce ovr_res pos mo
          ((pos i).x / ovr_res - ovr_text_pixbuf + candTx mo i k)
          ((pos i).y / ovr_res - ovr_text_pixbuf + candTy font_h mo i k)
          ((mo i).text_width + 2 * ovr_text_pixbuf) (font_h + 2 * ovr_text_pixbuf) j).1
        + ABS (footprintForce ovr_res pos mo
          ((pos i).x / ovr_res - ovr_text_pixbuf + candTx mo i k)
          ((pos i).y / ovr_res - ovr_text_pixbuf + candTy font_h mo i k)
          ((mo i).text_width + 2 * ovr_text_pixbuf) (font_h + 2 * ovr_text_pixbuf) j).2)) v := by
    intro l
    induction l with
    | nil => intro v hv; simpa using hv
    | cons a l ih =>
      intro v hv
      simp only [List.foldl_cons]
      exact ih _ (add_nonneg hv (add_nonneg (ABS_nonneg _) (ABS_nonneg _)))
  exact this _ 0 (le_refl _)

/-- C6: for a non-zero resolution, the initial placement of an item is one of
the four candidates, namely the candidate `m < 4` of lowest index whose total
push magnitude is the minimum over the four; the scan without the `break` at a
zero total selects the same candidate. -/
theorem selectPlacement_first_min (ovr_res font_h : ℚ) (items : Nat)
    (pos : Nat → Vector2d) (mo : Nat → MapOverlayPos) (i : Nat) (_hres : ovr_res ≠ 0) :
    (∃ m, m < 4 ∧
      off_0x ovr_res font_h items pos mo i = candTx mo i m ∧
      off_0y ovr_res font_h items pos mo i = candTy font_h mo i m ∧
      (selectPlacement ovr_res font_h items pos mo i).best
        = some (candVal ovr_res font_h items pos mo i m) ∧
      (∀ j, j < 4 → candVal ovr_res font_h items pos mo i m
        ≤ candVal ovr_res font_h items pos mo i j) ∧
      (∀ j, j < m → candVal ovr_res font_h items pos mo i m
        < candVal ovr_res font_h items pos mo i j)) ∧
    selectPlacement ovr_res font_h items pos mo i =
      scanCandidatesNoBreak (candVal ovr_res font_h items pos mo i) (candTx mo i)
        (candTy font_h mo i) 4 0 { bx := 0, by_ := 0, best := none } := by
  have h1 := scanCandidates_bestOf (candVal ovr_res font_h items pos mo i) (candTx mo i)
    (candTy font_h mo i) (candVal_nonneg ovr_res font_h items pos mo i) 4 0
    { bx := 0, by_ := 0, best := none } (Or.inl rfl) (by norm_num)
  have h2 := scanCandidatesNoBreak_bestOf (candVal ovr_res font_h items pos mo i) (candTx mo i)
    (candTy font_h mo i) 4 0 { bx := 0, by_ := 0, best := none } (Or.inl rfl) (by norm_num)
  refine ⟨?_, bestOf_unique _ _ _ _ _ _ h1 h2⟩
  obtain ⟨m, hm, hbm, hmin, hfirst⟩ := h1
  refine ⟨m, hm, ?_, ?_, ?_, hmin, hfirst⟩
  · unfold off_0x selectPlacement; rw [hbm]
  · unfold off_0y selectPlacement; rw [hbm]
  · unfold selectPlacement; rw [hbm]

/-- The witness of C6: item 0 of the two-item instance (no clamp applied, radius
2): the right-of candidate collides with the footprint of item 1 (total 29/10),
the left-of candidate is free (total 0) and is selected. -/
theorem selectPlacement_first_min_witness :
    candVal 1 10 2 twoPos twoMo 0 0 = 29 / 10 ∧ candVal 1 10 2 twoPos twoMo 0 1 = 0 ∧
    off_0x 1 10 2 twoPos twoMo 0 = candTx twoMo 0 1 ∧
    off_0y 1 10 2 twoPos twoMo 0 = candTy 10 twoMo 0 1 := by
  have v0 : candVal 1 10 2 twoPos twoMo 0 0 = 29 / 10 := by
    norm_num [candVal, candTx, candTy, footprintForce, force_collision, twoPos, twoMo,
      ovr_text_pixbuf, MIN, MAX, ABS, List.range_succ]
  have v1 : candVal 1 10 2 twoPos twoMo 0 1 = 0 := by
    norm_num [candVal, candTx, candTy, footprintForce, force_collision, twoPos, twoMo,
      ovr_text_pixbuf, MIN, MAX, ABS, List.range_succ]
  obtain ⟨m, hm, hx, hy, _, hmin, hfirst⟩ :=
    (selectPlacement_first_min 1 10 2 twoPos twoMo 0 (by norm_num)).1
  have hm1 : m = 1 := by
    have h1 := hmin 1 (by norm_num)
    rw [v1] at h1
    rcases Nat.lt_trichotomy m 1 with h | h | h
    · have : m = 0 := by omega
      subst this
      rw [v0] at h1
      norm_num at h1
    · exact h
    · have h2 := hfirst 1 h
      rw [v1] at h2
      have h3 := candVal_nonneg 1 10 2 twoPos twoMo 0 m
      linarith
  subst hm1
  exact ⟨v0, v1, hx, hy⟩

/-! ## The relaxation sweep: the visits of one sweep do not interfere -/

section Relax

variable (ovr_res font_h : ℚ) (items : Nat) (pos : Nat → Vector2d)
  (mo : Nat → MapOverlayPos) (o0x o0y : Nat → ℚ)

theorem sweepItem_eq (sv : RelaxState × ℚ) (i : Nat) :
    sweepItem ovr_res font_h items pos mo o0x o0y sv i =
      ({ sv.1 with
          forces_xa := (itemForces ovr_res font_h items pos mo o0x o0y sv.1 i).1,
          forces_ya := (itemForces ovr_res font_h items pos mo o0x o0y sv.1 i).2,
          off_buffx := Function.update sv.1.off_buffx i
            (itemNewX ovr_res font_h items pos mo o0x o0y sv.1 i),
          off_buffy := Function.update sv.1.off_buffy i
            (itemNewY ovr_res font_h items pos mo o0x o0y sv.1 i) },
       MAX sv.2 (itemChange ovr_res font_h items pos mo o0x o0y sv.1 i)) := rfl

theorem rowOf_index (self t : Nat) (ht : t < 2 * items) :
    rowOf items (2 * items * self + t) = self := by
  unfold rowOf
  rw [Nat.mul_add_div (by omega), Nat.div_eq_of_lt ht, Nat.add_zero]

theorem uzawaItem_frame (self : Nat) (x y w h : ℚ) (offx offy offdx offdy : Nat → ℚ)
    (F : (Nat → ℚ) × (Nat → ℚ)) (j : Nat) (hj : j < items) (idx : Nat)
    (hidx : rowOf items idx ≠ self) :
    (uzawaItem ovr_res font_h items pos mo self x y w h offx offy offdx offdy F j).1 idx
        = F.1 idx ∧
    (uzawaItem ovr_res font_h items pos mo self x y w h offx offy offdx offdy F j).2 idx
        = F.2 idx := by
  have ha : idx ≠ 2 * items * self + 2 * j + 1 := by
    intro h; apply hidx; rw [h, Nat.add_assoc]; exact rowOf_index items self _ (by omega)
  have hb : idx ≠ 2 * items * self + 2 * j := by
    intro h; apply hidx; rw [h]; exact rowOf_index items self _ (by omega)
  unfold uzawaItem
  by_cases hs : j = self
  · simp only [hs, if_true]
    rw [hs] at ha
    exact ⟨Function.update_noteq ha _ _, Function.update_noteq ha _ _⟩
  · simp only [if_neg hs]
    constructor
    · rw [Function.update_noteq hb, Function.update_noteq ha]
    · rw [Function.update_noteq hb, Function.update_noteq ha]

theorem uzawa_frame (self : Nat) (x y w h : ℚ) (offx offy offdx offdy : Nat → ℚ)
    (idx : Nat) (hidx : rowOf items idx ≠ self) :
    ∀ (js : List Nat) (F : (Nat → ℚ) × (Nat → ℚ)), (∀ j ∈ js, j < items) →
      (js.foldl (uzawaItem ovr_res font_h items pos mo self x y w h offx offy offdx offdy) F).1 idx
          = F.1 idx ∧
      (js.foldl (uzawaItem ovr_res font_h items pos mo self x y w h offx offy offdx offdy) F).2 idx
          = F.2 idx := by
  intro js
  induction js with
  | nil => intro F _; exact ⟨rfl, rfl⟩
  | cons j js ih =>
    intro F hjs
    simp only [List.foldl_cons]
    have h1 := ih (uzawaItem ovr_res font_h items pos mo self x y w h offx offy offdx offdy F j)
      (fun k hk => hjs k (List.mem_cons_of_mem _ hk))
    have h2 := uzawaItem_frame ovr_res font_h items pos mo self x y w h offx offy offdx offdy
      F j (hjs j (List.mem_cons_self _ _)) idx hidx
    exact ⟨h1.1.trans h2.1, h1.2.trans h2.2⟩

theorem uzawaItem_local (self : Nat) (x y w h : ℚ) (offx offy offdx offdy : Nat → ℚ)
    (F G : (Nat → ℚ) × (Nat → ℚ)) (j : Nat) (hj : j < items)
    (hFG : AgreeRow items self F G) :
    AgreeRow items self
      (uzawaItem ovr_res font_h items pos mo self x y w h offx offy offdx offdy F j)
      (uzawaItem ovr_res font_h items pos mo self x y w h offx offy offdx offdy G j) := by
  have hra : rowOf items (2 * items * self + 2 * j + 1) = self := by
    rw [Nat.add_assoc]; exact rowOf_index items self _ (by omega)
  have hrb : rowOf items (2 * items * self + 2 * j) = self :=
    rowOf_index items self _ (by omega)
  have hab : 2 * items * self + 2 * j ≠ 2 * items * self + 2 * j + 1 := by omega
  intro idx hidx
  unfold uzawaItem
  by_cases hs : j = self
  · simp only [hs, if_true]
    rw [hs] at hra
    by_cases he : idx = 2 * items * self + 2 * self + 1
    · subst he
      simp only [Function.update_same]
      rw [(hFG _ hra).1, (hFG _ hra).2]
      exact ⟨rfl, rfl⟩
    · simp only [Function.update_noteq he]
      exact hFG idx hidx
  · simp only [if_neg hs]
    by_cases hbe : idx = 2 * items * self + 2 * j
    · subst hbe
      simp only [Function.update_same, Function.update_noteq hab]
      rw [(hFG _ hrb).1, (hFG _ hrb).2]
      exact ⟨rfl, rfl⟩
    · simp only [Function.update_noteq hbe]
      by_cases he : idx = 2 * items * self + 2 * j + 1
      · subst he
        simp only [Function.update_same]
        rw [(hFG _ hra).1, (hFG _ hra).2]
        exact ⟨rfl, rfl⟩
      · simp only [Function.update_noteq he]
        exact hFG idx hidx

theorem uzawa_local (self : Nat) (x y w h : ℚ) (offx offy offdx offdy : Nat → ℚ) :
    ∀ (js : List Nat) (F G : (Nat → ℚ) × (Nat → ℚ)), (∀ j ∈ js, j < items) →
      AgreeRow items self F G →
      AgreeRow items self
        (js.foldl (uzawaItem ovr_res font_h items pos mo self x y w h offx offy offdx offdy) F)
        (js.foldl (uzawaItem ovr_res font_h items pos mo self x y w h offx offy offdx offdy) G) := by
  intro js
  induction js with
  | nil => intro F G _ h; exact h
  | cons j js ih =>
    intro F G hjs hFG
    simp only [List.foldl_cons]
    exact ih _ _ (fun k hk => hjs k (List.mem_cons_of_mem _ hk))
      (uzawaItem_local ovr_res font_h items pos mo self x y w h offx offy offdx offdy F G j
        (hjs j (List.mem_cons_self _ _)) hFG)

theorem rowSum_congr (F G : Nat → ℚ) (i : Nat)
    (h : ∀ idx, rowOf items idx = i → F idx = G idx) :
    rowSum items F i = rowSum items G i := by
  unfold rowSum
  have : ∀ (l : List Nat) (a : ℚ), (∀ j ∈ l, j < 2 * items) →
      l.foldl (fun s j => s + F (2 * items * i + j)) a
        = l.foldl (fun s j => s + G (2 * items * i + j)) a := by
    intro l
    induction l with
    | nil => intro a _; rfl
    | cons j l ih =>
      intro a hl
      simp only [List.foldl_cons]
      rw [h _ (rowOf_index items i j (hl j (List.mem_cons_self _ _)))]
      exact ih _ (fun k hk => hl k (List.mem_cons_of_mem _ hk))
  exact this _ 0 (fun j hj => List.mem_range.mp hj)

theorem itemForces_frame (s : RelaxState) (a idx : Nat) (h : rowOf items idx ≠ a) :
    (itemForces ovr_res font_h items pos mo o0x o0y s a).1 idx = s.forces_xa idx ∧
    (itemForces ovr_res font_h items pos mo o0x o0y s a).2 idx = s.forces_ya idx := by
  unfold itemForces ovr_refresh_uzawa_overlap
  exact uzawa_frame ovr_res font_h items pos mo a _ _ _ _ _ _ _ _ idx h _ _
    (fun j hj => List.mem_range.mp hj)

theorem itemForces_local (s t : RelaxState) (k : Nat)
    (hdx : t.off_dx = s.off_dx) (hdy : t.off_dy = s.off_dy)
    (hF : AgreeRow items k (t.forces_xa, t.forces_ya) (s.forces_xa, s.forces_ya)) :
    AgreeRow items k (itemForces ovr_res font_h items pos mo o0x o0y t k)
      (itemForces ovr_res font_h items pos mo o0x o0y s k) := by
  unfold itemForces ovr_refresh_uzawa_overlap
  rw [hdx, hdy]
  exact uzawa_local ovr_res font_h items pos mo k _ _ _ _ _ _ _ _ _ _ _
    (fun j hj => List.mem_range.mp hj) hF

theorem itemNew_local (s t : RelaxState) (k : Nat)
    (hdx : t.off_dx = s.off_dx) (hdy : t.off_dy = s.off_dy)
    (hF : AgreeRow items k (t.forces_xa, t.forces_ya) (s.forces_xa, s.forces_ya)) :
    itemNewX ovr_res font_h items pos mo o0x o0y t k
        = itemNewX ovr_res font_h items pos mo o0x o0y s k ∧
    itemNewY ovr_res font_h items pos mo o0x o0y t k
        = itemNewY ovr_res font_h items pos mo o0x o0y s k := by
  have h := itemForces_local ovr_res font_h items pos mo o0x o0y s t k hdx hdy hF
  unfold itemNewX itemNewY
  rw [rowSum_congr items _ _ k (fun idx hi => (h idx hi).1),
    rowSum_congr items _ _ k (fun idx hi => (h idx hi).2)]
  exact ⟨rfl, rfl⟩

/-- The state after item `a` has been visited agrees with the state before on
everything that the visit of another item `k` reads. -/
theorem sweepItem_other (sv : RelaxState × ℚ) (a k : Nat) (hk : k ≠ a) :
    AgreeRow items k
      (itemForces ovr_res font_h items pos mo o0x o0y
        (sweepItem ovr_res font_h items pos mo o0x o0y sv a).1 k)
      (itemForces ovr_res font_h items pos mo o0x o0y sv.1 k) ∧
    itemNewX ovr_res font_h items pos mo o0x o0y
        (sweepItem ovr_res font_h items pos mo o0x o0y sv a).1 k
      = itemNewX ovr_res font_h items pos mo o0x o0y sv.1 k ∧
    itemNewY ovr_res font_h items pos mo o0x o0y
        (sweepItem ovr_res font_h items pos mo o0x o0y sv a).1 k
      = itemNewY ovr_res font_h items pos mo o0x o0y sv.1 k ∧
    itemChange ovr_res font_h items pos mo o0x o0y
        (sweepItem ovr_res font_h items pos mo o0x o0y sv a).1 k
      = itemChange ovr_res font_h items pos mo o0x o0y sv.1 k := by
  have hF : AgreeRow items k
      ((sweepItem ovr_res font_h items pos mo o0x o0y sv a).1.forces_xa,
       (sweepItem ovr_res font_h items pos mo o0x o0y sv a).1.forces_ya)
      (sv.1.forces_xa, sv.1.forces_ya) := by
    intro idx hidx
    rw [sweepItem_eq]
    exact itemForces_frame ovr_res font_h items pos mo o0x o0y sv.1 a idx (by rw [hidx]; exact hk)
  have hdx : (sweepItem ovr_res font_h items pos mo o0x o0y sv a).1.off_dx = sv.1.off_dx := rfl
  have hdy : (sweepItem ovr_res font_h items pos mo o0x o0y sv a).1.off_dy = sv.1.off_dy := rfl
  have hl := itemForces_local ovr_res font_h items pos mo o0x o0y sv.1 _ k hdx hdy hF
  have hn := itemNew_local ovr_res font_h items pos mo o0x o0y sv.1 _ k hdx hdy hF
  refine ⟨hl, hn.1, hn.2, ?_⟩
  unfold itemChange
  rw [hn.1, hn.2]
  have hbx : (sweepItem ovr_res font_h items pos mo o0x o0y sv a).1.off_buffx k
      = sv.1.off_buffx k := by
    rw [sweepItem_eq]; exact Function.update_noteq hk _ _
  have hby : (sweepItem ovr_res font_h items pos mo o0x o0y sv a).1.off_buffy k
      = sv.1.off_buffy k := by
    rw [sweepItem_eq]; exact Function.update_noteq hk _ _
  rw [hbx, hby]

theorem relaxState_ext (s t : RelaxState)
    (h1 : ∀ i, s.forces_xa i = t.forces_xa i) (h2 : ∀ i, s.forces_ya i = t.forces_ya i)
    (h3 : ∀ i, s.off_buffx i = t.off_buffx i) (h4 : ∀ i, s.off_buffy i = t.off_buffy i)
    (h5 : ∀ i, s.off_dx i = t.off_dx i) (h6 : ∀ i, s.off_dy i = t.off_dy i) : s = t := by
  cases s; cases t
  simp only [RelaxState.mk.injEq]
  exact ⟨funext h1, funext h2, funext h3, funext h4, funext h5, funext h6⟩

theorem sweepPar_cons (s : RelaxState) (v : ℚ) (a : Nat) (L : List Nat) (ha : a ∉ L) :
    sweepPar ovr_res font_h items pos mo o0x o0y L
        (sweepItem ovr_res font_h items pos mo o0x o0y (s, v) a).1
      = sweepPar ovr_res font_h items pos mo o0x o0y (a :: L) s := by
  apply relaxState_ext
  · intro idx
    simp only [sweepPar, List.mem_cons]
    by_cases hL : rowOf items idx ∈ L
    · have hne : rowOf items idx ≠ a := fun h => ha (h ▸ hL)
      rw [if_pos hL, if_pos (Or.inr hL)]
      exact ((sweepItem_other ovr_res font_h items pos mo o0x o0y (s, v) a _ hne).1 idx rfl).1
    · rw [if_neg hL]
      by_cases hra : rowOf items idx = a
      · rw [if_pos (Or.inl hra), hra]; rfl
      · rw [if_neg (by tauto)]
        exact (itemForces_frame ovr_res font_h items pos mo o0x o0y s a idx hra).1
  · intro idx
    simp only [sweepPar, List.mem_cons]
    by_cases hL : rowOf items idx ∈ L
    · have hne : rowOf items idx ≠ a := fun h => ha (h ▸ hL)
      rw [if_pos hL, if_pos (Or.inr hL)]
      exact ((sweepItem_other ovr_res font_h items pos mo o0x o0y (s, v) a _ hne).1 idx rfl).2
    · rw [if_neg hL]
      by_cases hra : rowOf items idx = a
      · rw [if_pos (Or.inl hra), hra]; rfl
      · rw [if_neg (by tauto)]
        exact (itemForces_frame ovr_res font_h items pos mo o0x o0y s a idx hra).2
  · intro k
    simp only [sweepPar, List.mem_cons]
    by_cases hL : k ∈ L
    · have hne : k ≠ a := fun h => ha (h ▸ hL)
      rw [if_pos hL, if_pos (Or.inr hL)]
      exact (sweepItem_other ovr_res font_h items pos mo o0x o0y (s, v) a k hne).2.1
    · rw [if_neg hL]
      by_cases hka : k = a
      · rw [if_pos (Or.inl hka), hka, sweepItem_eq]
        exact Function.update_same _ _ _
      · rw [if_neg (by tauto), sweepItem_eq]
        exact Function.update_noteq hka _ _
  · intro k
    simp only [sweepPar, List.mem_cons]
    by_cases hL : k ∈ L
    · have hne : k ≠ a := fun h => ha (h ▸ hL)
      rw [if_pos hL, if_pos (Or.inr hL)]
      exact (sweepItem_other ovr_res font_h items pos mo o0x o0y (s, v) a k hne).2.2.1
    · rw [if_neg hL]
      by_cases hka : k = a
      · rw [if_pos (Or.inl hka), hka, sweepItem_eq]
        exact Function.update_same _ _ _
      · rw [if_neg (by tauto), sweepItem_eq]
        exact Function.update_noteq hka _ _
  · intro k; rfl
  · intro k; rfl

/-- The visits of a sweep do not interfere: after the items of a
duplicate-free list have been visited, the state is the one that each item
writes from the state in which the sweep started, and `val` is the running
`MAX` of the changes computed from that state. -/
theorem foldl_sweepItem (L : List Nat) (hnd : L.Nodup) :
    ∀ (s : RelaxState) (v : ℚ),
      L.foldl (sweepItem ovr_res font_h items pos mo o0x o0y) (s, v) =
        (sweepPar ovr_res font_h items pos mo o0x o0y L s,
         L.foldl (fun v k => MAX v (itemChange ovr_res font_h items pos mo o0x o0y s k)) v) := by
  induction L with
  | nil =>
    intro s v
    simp only [List.foldl_nil, Prod.mk.injEq, and_true]
    apply relaxState_ext <;> intro i <;> simp [sweepPar]
  | cons a L ih =>
    intro s v
    have ha : a ∉ L := (List.nodup_cons.mp hnd).1
    simp only [List.foldl_cons]
    have e : sweepItem ovr_res font_h items pos mo o0x o0y (s, v) a =
        ((sweepItem ovr_res font_h items pos mo o0x o0y (s, v) a).1,
         MAX v (itemChange ovr_res font_h items pos mo o0x o0y s a)) := rfl
    rw [e, ih (List.nodup_cons.mp hnd).2, sweepPar_cons ovr_res font_h items pos mo o0x o0y s v a L ha]
    congr 1
    apply List.foldl_ext
    intro w k hk
    have hne : k ≠ a := fun h => ha (h ▸ hk)
    rw [(sweepItem_other ovr_res font_h items pos mo o0x o0y (s, v) a k hne).2.2.2]

end Relax

/-! ## The relaxation loop: C10, C9 -/

section Relax

variable (ovr_res font_h : ℚ) (items : Nat) (pos : Nat → Vector2d)
  (mo : Nat → MapOverlayPos) (o0x o0y : Nat → ℚ)

theorem MAX_right_comm (z x y : ℚ) : MAX (MAX z x) y = MAX (MAX z y) x := by
  simp only [MAX_eq_max]
  rw [max_assoc, max_comm x y, ← max_assoc]

theorem sweepPar_perm (L1 L2 : List Nat) (h : L1.Perm L2) (s : RelaxState) :
    sweepPar ovr_res font_h items pos mo o0x o0y L1 s
      = sweepPar ovr_res font_h items pos mo o0x o0y L2 s := by
  apply relaxState_ext <;> intro i <;> simp only [sweepPar, h.mem_iff]

theorem sweepWith_perm (order : List Nat) (h : order.Perm (List.range items))
    (s : RelaxState) :
    sweepWith ovr_res font_h items pos mo o0x o0y order s
      = sweep ovr_res font_h items pos mo o0x o0y s := by
  unfold sweep sweepWith
  rw [foldl_sweepItem ovr_res font_h items pos mo o0x o0y order
      (h.nodup_iff.mpr (List.nodup_range items)),
    foldl_sweepItem ovr_res font_h items pos mo o0x o0y (List.range items)
      (List.nodup_range items),
    sweepPar_perm ovr_res font_h items pos mo o0x o0y order (List.range items) h s]
  simp only
  rw [h.foldl_eq' (fun x _ y _ z => MAX_right_comm z _ _) 0]

theorem uzawaLoopWith_perm (order : Nat → List Nat)
    (h : ∀ t, (order t).Perm (List.range items)) :
    ∀ (n iter : Nat) (s : RelaxState),
      uzawaLoopWith ovr_res font_h items pos mo o0x o0y order n iter s
        = uzawaLoopWith ovr_res font_h items pos mo o0x o0y (fun _ => List.range items) n iter s := by
  intro n
  induction n with
  | zero => intro iter s; rfl
  | succ n ih =>
    intro iter s
    rw [uzawaLoopWith, uzawaLoopWith]
    have e : sweepWith ovr_res font_h items pos mo o0x o0y (order iter) s
        = sweepWith ovr_res font_h items pos mo o0x o0y (List.range items) s :=
      sweepWith_perm ovr_res font_h items pos mo o0x o0y (order iter) (h iter) s
    simp only [e]
    split_ifs
    · rfl
    · exact ih _ _

end Relax

/-- C10: for a non-zero resolution, when every sweep visits the items in an arbitrary permutation of
`0 .. items-1`, each sweep commits the same state and returns the same
stagnation value as the sweep in increasing order, and the main loop ends in
the same state after the same number of sweeps, hence with the same final
label offsets. -/
theorem relaxation_order_independent (ovr_res font_h : ℚ) (items : Nat)
    (pos : Nat → Vector2d) (mo : Nat → MapOverlayPos) (o0x o0y : Nat → ℚ)
    (order : Nat → List Nat) (_hres : ovr_res ≠ 0)
    (hperm : ∀ t, (order t).Perm (List.range items)) :
    (∀ t s, sweepWith ovr_res font_h items pos mo o0x o0y (order t) s
      = sweep ovr_res font_h items pos mo o0x o0y s) ∧
    uzawaLoopWith ovr_res font_h items pos mo o0x o0y order max_iters 0 relaxInit
      = uzawaLoop ovr_res font_h items pos mo o0x o0y ∧
    ∀ i, (uzawaLoopWith ovr_res font_h items pos mo o0x o0y order max_iters 0 relaxInit).1.off_dx i
          + o0x i
        = (uzawaLoop ovr_res font_h items pos mo o0x o0y).1.off_dx i + o0x i ∧
      (uzawaLoopWith ovr_res font_h items pos mo o0x o0y order max_iters 0 relaxInit).1.off_dy i
          + o0y i
        = (uzawaLoop ovr_res font_h items pos mo o0x o0y).1.off_dy i + o0y i := by
  have h2 := uzawaLoopWith_perm ovr_res font_h items pos mo o0x o0y order hperm max_iters 0
    relaxInit
  refine ⟨fun t s => sweepWith_perm ovr_res font_h items pos mo o0x o0y (order t) (hperm t) s,
    h2, fun i => ?_⟩
  rw [h2]
  exact ⟨rfl, rfl⟩

/-- The witness of C10: two items, every sweep visiting item 1 before item 0. -/
theorem relaxation_order_independent_witness :
    uzawaLoopWith 1 10 2 twoPos twoMo (off_0x 1 10 2 twoPos twoMo) (off_0y 1 10 2 twoPos twoMo)
        (fun _ => [1, 0]) max_iters 0 relaxInit
      = uzawaLoop 1 10 2 twoPos twoMo (off_0x 1 10 2 twoPos twoMo) (off_0y 1 10 2 twoPos twoMo) :=
  (relaxation_order_independent 1 10 2 twoPos twoMo (off_0x 1 10 2 twoPos twoMo)
    (off_0y 1 10 2 twoPos twoMo) (fun _ => [1, 0]) (by norm_num)
    (fun _ => (by decide : [1, 0].Perm (List.range 2)))).2.1

section Relax2

variable (ovr_res font_h : ℚ) (items : Nat) (pos : Nat → Vector2d)
  (mo : Nat → MapOverlayPos) (o0x o0y : Nat → ℚ)

theorem uzawaLoopWith_sweeps :
    ∀ (n iter : Nat) (s : RelaxState),
      ∃ m, (uzawaLoopWith ovr_res font_h items pos mo o0x o0y (fun _ => List.range items)
              n iter s).2 = iter + m ∧
        m ≤ n ∧ (0 < n → 1 ≤ m) ∧
        (uzawaLoopWith ovr_res font_h items pos mo o0x o0y (fun _ => List.range items)
              n iter s).1 = sweepsFrom ovr_res font_h items pos mo o0x o0y m s ∧
        (∀ t, t + 1 < m →
          ¬ (sweep ovr_res font_h items pos mo o0x o0y
              (sweepsFrom ovr_res font_h items pos mo o0x o0y t s)).2 ≤ eps_con) ∧
        (m < n →
          (sweep ovr_res font_h items pos mo o0x o0y
              (sweepsFrom ovr_res font_h items pos mo o0x o0y (m - 1) s)).2 ≤ eps_con) := by
  intro n
  induction n with
  | zero =>
    intro iter s
    exact ⟨0, rfl, le_refl _, fun h => absurd h (lt_irrefl _), rfl,
      fun t ht => absurd ht (by omega), fun h => absurd h (lt_irrefl _)⟩
  | succ n ih =>
    intro iter s
    rw [uzawaLoopWith]
    by_cases hv : (sweep ovr_res font_h items pos mo o0x o0y s).2 ≤ eps_con
    · have hv2 : (sweepWith ovr_res font_h items pos mo o0x o0y (List.range items) s).2
          ≤ eps_con := hv
      simp only [hv2, if_true]
      exact ⟨1, rfl, by omega, fun _ => le_refl _, rfl, fun t ht => absurd ht (by omega),
        fun _ => hv⟩
    · have hv2 : ¬ (sweepWith ovr_res font_h items pos mo o0x o0y (List.range items) s).2
          ≤ eps_con := hv
      simp only [if_neg hv2]
      obtain ⟨m, h1, h2, h3, h4, h5, h6⟩ := ih (iter + 1)
        (sweepWith ovr_res font_h items pos mo o0x o0y (List.range items) s).1
      refine ⟨m + 1, by rw [h1]; omega, by omega, fun _ => by omega, h4, ?_, ?_⟩
      · intro t ht
        cases t with
        | zero => exact hv
        | succ t => exact h5 t (by omega)
      · intro hm
        have hm1 : 1 ≤ m := h3 (by omega)
        have := h6 (by omega)
        obtain ⟨m2, rfl⟩ : ∃ m2, m = m2 + 1 := ⟨m - 1, by omega⟩
        simpa [sweepsFrom] using this

theorem foldl_MAX_le (c : Nat → ℚ) (e : ℚ) :
    ∀ (L : List Nat) (v : ℚ),
      L.foldl (fun v k => MAX v (c k)) v ≤ e ↔ v ≤ e ∧ ∀ k ∈ L, c k ≤ e := by
  intro L
  induction L with
  | nil => intro v; simp
  | cons a L ih =>
    intro v
    simp only [List.foldl_cons]
    rw [ih]
    simp only [MAX_eq_max, max_le_iff, List.mem_cons, forall_eq_or_imp]
    tauto

theorem sweep_val_le (s : RelaxState) (hs : Synced items s) (e : ℚ) (he : 0 ≤ e) :
    (sweep ovr_res font_h items pos mo o0x o0y s).2 ≤ e ↔
      ∀ i, i < items →
        offsetChange s (sweep ovr_res font_h items pos mo o0x o0y s).1 i ≤ e := by
  unfold sweep sweepWith
  rw [foldl_sweepItem ovr_res font_h items pos mo o0x o0y (List.range items)
      (List.nodup_range items)]
  simp only [foldl_MAX_le, he, true_and, List.mem_range]
  apply forall_congr'
  intro i
  apply imp_congr_right
  intro hi
  have : offsetChange s (commitOffsets items
      (sweepPar ovr_res font_h items pos mo o0x o0y (List.range items) s)) i
      = itemChange ovr_res font_h items pos mo o0x o0y s i := by
    simp only [offsetChange, commitOffsets, sweepPar, hi, if_true, List.mem_range, itemChange,
      (hs i hi).1, (hs i hi).2]
  rw [this]

theorem sweep_synced (s : RelaxState) :
    Synced items (sweep ovr_res font_h items pos mo o0x o0y s).1 := by
  intro i hi
  refine ⟨?_, ?_⟩ <;> simp [sweep, sweepWith, commitOffsets, hi]

theorem sweepsFrom_synced :
    ∀ (n : Nat) (s : RelaxState), Synced items s →
      Synced items (sweepsFrom ovr_res font_h items pos mo o0x o0y n s) := by
  intro n
  induction n with
  | zero => intro s hs; exact hs
  | succ n ih =>
    intro s _
    exact ih _ (sweep_synced ovr_res font_h items pos mo o0x o0y s)

theorem sweepsFrom_succ (n : Nat) :
    ∀ (s : RelaxState), sweepsFrom ovr_res font_h items pos mo o0x o0y (n + 1) s
      = (sweep ovr_res font_h items pos mo o0x o0y
          (sweepsFrom ovr_res font_h items pos mo o0x o0y n s)).1 := by
  induction n with
  | zero => intro s; rfl
  | succ n ih =>
    intro s
    rw [sweepsFrom, ih]
    rfl

end Relax2

/-- C9: for a non-zero resolution, the relaxation executes `n` sweeps with `1 ≤ n ≤ 15`; no sweep before
the last one had all changes `|change in dx| + |change in dy|` at most 1.3; when
fewer than 15 sweeps were executed the last one had; and the final label
offsets are the offsets committed by sweep `n` plus the initial placement,
whether or not the budget was exhausted. -/
theorem relaxation_sweeps (ovr_res font_h : ℚ) (items : Nat) (pos : Nat → Vector2d)
    (mo : Nat → MapOverlayPos) (_hres : ovr_res ≠ 0) :
    ∃ n, (uzawaLoop ovr_res font_h items pos mo (off_0x ovr_res font_h items pos mo)
            (off_0y ovr_res font_h items pos mo)).2 = n ∧
      1 ≤ n ∧ n ≤ 15 ∧
      (∀ t, t + 1 < n → ¬ ∀ i, i < items →
        offsetChange (layoutSweeps ovr_res font_h items pos mo t)
          (layoutSweeps ovr_res font_h items pos mo (t + 1)) i ≤ 13 / 10) ∧
      (n < 15 → ∀ i, i < items →
        offsetChange (layoutSweeps ovr_res font_h items pos mo (n - 1))
          (layoutSweeps ovr_res font_h items pos mo n) i ≤ 13 / 10) ∧
      ∀ i, i < items →
        (layoutLabels ovr_res font_h items pos mo i).text_offx
          = (layoutSweeps ovr_res font_h items pos mo n).off_dx i
            + off_0x ovr_res font_h items pos mo i ∧
        (layoutLabels ovr_res font_h items pos mo i).text_offy
          = (layoutSweeps ovr_res font_h items pos mo n).off_dy i
            + off_0y ovr_res font_h items pos mo i := by
  obtain ⟨m, h1, h2, h3, h4, h5, h6⟩ := uzawaLoopWith_sweeps ovr_res font_h items pos mo
    (off_0x ovr_res font_h items pos mo) (off_0y ovr_res font_h items pos mo) max_iters 0 relaxInit
  have hsync0 : Synced items relaxInit := fun i _ => ⟨rfl, rfl⟩
  have hsync : ∀ t, Synced items (layoutSweeps ovr_res font_h items pos mo t) :=
    fun t => sweepsFrom_synced ovr_res font_h items pos mo _ _ t relaxInit hsync0
  have heps : eps_con = 13 / 10 := rfl
  have hval : ∀ t, (sweep ovr_res font_h items pos mo (off_0x ovr_res font_h items pos mo)
        (off_0y ovr_res font_h items pos mo) (layoutSweeps ovr_res font_h items pos mo t)).2
          ≤ eps_con ↔
      ∀ i, i < items → offsetChange (layoutSweeps ovr_res font_h items pos mo t)
        (layoutSweeps ovr_res font_h items pos mo (t + 1)) i ≤ 13 / 10 := by
    intro t
    rw [sweep_val_le ovr_res font_h items pos mo _ _ _ (hsync t) eps_con (by norm_num [eps_con]),
      heps]
    unfold layoutSweeps
    rw [sweepsFrom_succ]
  refine ⟨m, ?_, h3 (by norm_num [max_iters]), h2, ?_, ?_, ?_⟩
  · unfold uzawaLoop; rw [h1]; omega
  · intro t ht
    rw [← hval t]
    exact h5 t ht
  · intro hm
    have hm1 : 1 ≤ m := h3 (by norm_num [max_iters])
    have := (hval (m - 1)).mp (h6 hm)
    rw [show m - 1 + 1 = m by omega] at this
    exact this
  · intro i hi
    unfold layoutLabels
    simp only [hi, if_true]
    unfold uzawaLoop
    rw [h4]
    exact ⟨rfl, rfl⟩

/-- The witness of C9: the two-item instance; the sweep count is between 1 and
15 and the final offsets are the committed ones plus the initial placement. -/
theorem relaxation_sweeps_witness :
    ∃ n, (uzawaLoop 1 10 2 twoPos twoMo (off_0x 1 10 2 twoPos twoMo)
            (off_0y 1 10 2 twoPos twoMo)).2 = n ∧ 1 ≤ n ∧ n ≤ 15 ∧
      (layoutLabels 1 10 2 twoPos twoMo 0).text_offx
        = (layoutSweeps 1 10 2 twoPos twoMo n).off_dx 0 + off_0x 1 10 2 twoPos twoMo 0 ∧
      (layoutLabels 1 10 2 twoPos twoMo 1).text_offy
        = (layoutSweeps 1 10 2 twoPos twoMo n).off_dy 1 + off_0y 1 10 2 twoPos twoMo 1 := by
  obtain ⟨n, h1, h2, h3, _, _, h6⟩ := relaxation_sweeps 1 10 2 twoPos twoMo (by norm_num)
  exact ⟨n, h1, h2, h3, (h6 0 (by norm_num)).1, (h6 1 (by norm_num)).2⟩

/-! ## A layout without pushes, and the single item: C7 -/

theorem force_collision_right_of (x y w h mx my mw mh : ℚ)
    (hw : 0 ≤ w) (hmw : 0 ≤ mw) (hx : mx + mw ≤ x) :
    force_collision 0 0 x y w h mx my mw mh = (0, 0) := by
  simp only [force_collision, ovr_text_pixbuf, MIN, MAX, Prod.mk.injEq]
  constructor
  · split_ifs <;> first | rfl | linarith
  · rw [if_pos (Or.inr (by linarith))]

theorem uzawaItem_zero (ovr_res font_h : ℚ) (items : Nat) (pos : Nat → Vector2d)
    (mo : Nat → MapOverlayPos) (self : Nat) (x y w h : ℚ)
    (offx offy offdx offdy : Nat → ℚ) (j : Nat)
    (hfoot : footprintForce ovr_res pos mo x y w h j = (0, 0))
    (hlabel : j ≠ self →
      labelForce ovr_res font_h pos mo offx offy offdx offdy x y w h j = (0, 0)) :
    uzawaItem ovr_res font_h items pos mo self x y w h offx offy offdx offdy
        (fun _ => 0, fun _ => 0) j = (fun _ => 0, fun _ => 0) := by
  have hz : ∀ a : Nat, Function.update (fun _ : Nat => (0 : ℚ)) a 0 = fun _ => 0 := by
    intro a
    funext k
    by_cases hk : k = a
    · rw [hk, Function.update_same]
    · rw [Function.update_noteq hk]
  unfold footprintForce at hfoot
  simp only at hfoot
  unfold uzawaItem
  simp only [hfoot, hz]
  by_cases hs : j = self
  · rw [if_pos hs]
  · rw [if_neg hs]
    have hl := hlabel hs
    unfold labelForce at hl
    simp only [hl, hz]

theorem uzawa_zero (ovr_res font_h : ℚ) (items : Nat) (pos : Nat → Vector2d)
    (mo : Nat → MapOverlayPos) (self : Nat) (x y w h : ℚ)
    (offx offy offdx offdy : Nat → ℚ) :
    ∀ (js : List Nat),
      (∀ j ∈ js, footprintForce ovr_res pos mo x y w h j = (0, 0) ∧
        (j ≠ self →
          labelForce ovr_res font_h pos mo offx offy offdx offdy x y w h j = (0, 0))) →
      js.foldl (uzawaItem ovr_res font_h items pos mo self x y w h offx offy offdx offdy)
        (fun _ => 0, fun _ => 0) = (fun _ => 0, fun _ => 0) := by
  intro js
  induction js with
  | nil => intro _; rfl
  | cons j js ih =>
    intro hjs
    simp only [List.foldl_cons]
    rw [uzawaItem_zero ovr_res font_h items pos mo self x y w h offx offy offdx offdy j
      (hjs j (List.mem_cons_self _ _)).1 (hjs j (List.mem_cons_self _ _)).2]
    exact ih (fun k hk => hjs k (List.mem_cons_of_mem _ hk))

theorem rowSum_zero (items i : Nat) : rowSum items (fun _ => 0) i = 0 := by
  unfold rowSum
  have : ∀ (l : List Nat) , l.foldl (fun (s : ℚ) (_ : Nat) => s + 0) 0 = 0 := by
    intro l
    induction l with
    | nil => rfl
    | cons a l ih => rw [List.foldl_cons, add_zero]; exact ih
  exact this _

theorem ABS_zero : ABS 0 = 0 := by simp [ABS]

/-- When, at the initial placements, the label box of every item is pushed
neither by a footprint nor by another label box, the first sweep leaves the
zeroed buffers as they are and returns the stagnation value 0. -/
theorem sweep_relaxInit_zero (ovr_res font_h : ℚ) (items : Nat) (pos : Nat → Vector2d)
    (mo : Nat → MapOverlayPos) (o0x o0y : Nat → ℚ)
    (hzero : ∀ i, i < items → ∀ j, j < items →
      footprintForce ovr_res pos mo
        ((pos i).x / ovr_res + 0 + o0x i - ovr_text_pixbuf)
        ((pos i).y / ovr_res + 0 + o0y i - ovr_text_pixbuf)
        ((mo i).text_width + 2 * ovr_text_pixbuf) (font_h + 2 * ovr_text_pixbuf) j = (0, 0) ∧
      (j ≠ i → labelForce ovr_res font_h pos mo o0x o0y (fun _ => 0) (fun _ => 0)
        ((pos i).x / ovr_res + 0 + o0x i - ovr_text_pixbuf)
        ((pos i).y / ovr_res + 0 + o0y i - ovr_text_pixbuf)
        ((mo i).text_width + 2 * ovr_text_pixbuf) (font_h + 2 * ovr_text_pixbuf) j = (0, 0))) :
    sweep ovr_res font_h items pos mo o0x o0y relaxInit = (relaxInit, 0) := by
  have hF : ∀ i, i < items →
      itemForces ovr_res font_h items pos mo o0x o0y relaxInit i = (fun _ => 0, fun _ => 0) := by
    intro i hi
    unfold itemForces ovr_refresh_uzawa_overlap
    exact uzawa_zero ovr_res font_h items pos mo i _ _ _ _ _ _ _ _ _
      (fun j hj => hzero i hi j (List.mem_range.mp hj))
  have hX : ∀ i, i < items → itemNewX ovr_res font_h items pos mo o0x o0y relaxInit i = 0 := by
    intro i hi
    unfold itemNewX
    rw [hF i hi]
    simp only [rowSum_zero, mul_zero]
  have hY : ∀ i, i < items → itemNewY ovr_res font_h items pos mo o0x o0y relaxInit i = 0 := by
    intro i hi
    unfold itemNewY
    rw [hF i hi]
    simp only [rowSum_zero, mul_zero]
  have hC : ∀ i ∈ List.range items,
      itemChange ovr_res font_h items pos mo o0x o0y relaxInit i = 0 := by
    intro i hi
    have hi2 := List.mem_range.mp hi
    unfold itemChange
    rw [hX i hi2, hY i hi2]
    simp [relaxInit, ABS_zero]
  unfold sweep sweepWith
  rw [foldl_sweepItem ovr_res font_h items pos mo o0x o0y (List.range items)
    (List.nodup_range items)]
  have hval : ∀ (L : List Nat),
      (∀ i ∈ L, itemChange ovr_res font_h items pos mo o0x o0y relaxInit i = 0) →
      L.foldl (fun v k => MAX v (itemChange ovr_res font_h items pos mo o0x o0y relaxInit k)) 0
        = 0 := by
    intro L
    induction L with
    | nil => intro _; rfl
    | cons a L ih =>
      intro hL
      simp only [List.foldl_cons, hL a (List.mem_cons_self _ _)]
      have : MAX 0 0 = 0 := by simp [MAX]
      rw [this]
      exact ih (fun i hi => hL i (List.mem_cons_of_mem _ hi))
  simp only [hval _ hC, Prod.mk.injEq, and_true]
  apply relaxState_ext
  · intro idx
    simp only [commitOffsets, sweepPar, List.mem_range]
    by_cases h : rowOf items idx < items
    · rw [if_pos h, hF _ h]; rfl
    · rw [if_neg h]
  · intro idx
    simp only [commitOffsets, sweepPar, List.mem_range]
    by_cases h : rowOf items idx < items
    · rw [if_pos h, hF _ h]; rfl
    · rw [if_neg h]
  · intro k
    simp only [commitOffsets, sweepPar, List.mem_range]
    by_cases h : k < items
    · rw [if_pos h, hX k h]; rfl
    · rw [if_neg h]
  · intro k
    simp only [commitOffsets, sweepPar, List.mem_range]
    by_cases h : k < items
    · rw [if_pos h, hY k h]; rfl
    · rw [if_neg h]
  · intro k
    simp only [commitOffsets, sweepPar, List.mem_range]
    by_cases h : k < items
    · rw [if_pos h, if_pos h, hX k h]; rfl
    · rw [if_neg h]
  · intro k
    simp only [commitOffsets, sweepPar, List.mem_range]
    by_cases h : k < items
    · rw [if_pos h, if_pos h, hY k h]; rfl
    · rw [if_neg h]

theorem uzawaLoop_of_sweep_zero (ovr_res font_h : ℚ) (items : Nat) (pos : Nat → Vector2d)
    (mo : Nat → MapOverlayPos) (o0x o0y : Nat → ℚ)
    (h : sweep ovr_res font_h items pos mo o0x o0y relaxInit = (relaxInit, 0)) :
    uzawaLoop ovr_res font_h items pos mo o0x o0y = (relaxInit, 1) := by
  have h2 : sweepWith ovr_res font_h items pos mo o0x o0y (List.range items) relaxInit
      = (relaxInit, 0) := h
  unfold uzawaLoop max_iters
  rw [uzawaLoopWith]
  simp only [h2]
  rw [if_pos (by norm_num [eps_con])]

/-- The placement and relaxation phases for a single record with non-negative
radius and text width: the scan selects the right-of candidate with total push
0, the relaxation stops after its first sweep with relaxation offset (0, 0),
and the label offset written is `(radius + 5 + 0.1, -font_h / 2)`, `radius`
being the radius of the record these phases are given. -/
theorem layoutLabels_single (ovr_res font_h : ℚ) (pos : Nat → Vector2d)
    (mo : Nat → MapOverlayPos) (_hres : ovr_res ≠ 0) (hr : 0 ≤ (mo 0).radius)
    (htw : 0 ≤ (mo 0).text_width) (_hfh : 0 ≤ font_h) :
    selectPlacement ovr_res font_h 1 pos mo 0
      = { bx := (mo 0).radius + 5 + 1 / 10, by_ := -font_h / 2, best := some 0 } ∧
    (uzawaLoop ovr_res font_h 1 pos mo (off_0x ovr_res font_h 1 pos mo)
      (off_0y ovr_res font_h 1 pos mo)).2 = 1 ∧
    (uzawaLoop ovr_res font_h 1 pos mo (off_0x ovr_res font_h 1 pos mo)
      (off_0y ovr_res font_h 1 pos mo)).1.off_dx 0 = 0 ∧
    (uzawaLoop ovr_res font_h 1 pos mo (off_0x ovr_res font_h 1 pos mo)
      (off_0y ovr_res font_h 1 pos mo)).1.off_dy 0 = 0 ∧
    (layoutLabels ovr_res font_h 1 pos mo 0).text_offx = (mo 0).radius + 5 + 1 / 10 ∧
    (layoutLabels ovr_res font_h 1 pos mo 0).text_offy = -font_h / 2 := by
  have hval : candVal ovr_res font_h 1 pos mo 0 0 = 0 := by
    unfold candVal
    simp only [List.range_succ, List.range_zero, List.nil_append, List.foldl_cons,
      List.foldl_nil]
    have : footprintForce ovr_res pos mo
        ((pos 0).x / ovr_res - ovr_text_pixbuf + candTx mo 0 0)
        ((pos 0).y / ovr_res - ovr_text_pixbuf + candTy font_h mo 0 0)
        ((mo 0).text_width + 2 * ovr_text_pixbuf) (font_h + 2 * ovr_text_pixbuf) 0 = (0, 0) := by
      unfold footprintForce
      apply force_collision_right_of
      · simp only [ovr_text_pixbuf]; linarith
      · linarith
      · simp only [candTx, ovr_text_pixbuf]; linarith
    rw [this]
    simp [ABS_zero]
  have hsel : selectPlacement ovr_res font_h 1 pos mo 0
      = { bx := (mo 0).radius + 5 + 1 / 10, by_ := -font_h / 2, best := some 0 } := by
    unfold selectPlacement
    rw [scanCandidates]
    simp only [hval, true_or, if_true]
    simp only [candTx, candTy, ovr_text_pixbuf]
  have hx : off_0x ovr_res font_h 1 pos mo 0 = (mo 0).radius + 5 + 1 / 10 := by
    unfold off_0x; rw [hsel]
  have hy : off_0y ovr_res font_h 1 pos mo 0 = -font_h / 2 := by
    unfold off_0y; rw [hsel]
  have hsweep := sweep_relaxInit_zero ovr_res font_h 1 pos mo (off_0x ovr_res font_h 1 pos mo)
    (off_0y ovr_res font_h 1 pos mo) (by
      intro i hi j hj
      have hi0 : i = 0 := by omega
      have hj0 : j = 0 := by omega
      subst hi0; subst hj0
      refine ⟨?_, fun h => absurd rfl h⟩
      unfold footprintForce
      apply force_collision_right_of
      · simp only [ovr_text_pixbuf]; linarith
      · linarith
      · rw [hx]; simp only [ovr_text_pixbuf]; linarith)
  have hloop := uzawaLoop_of_sweep_zero ovr_res font_h 1 pos mo _ _ hsweep
  refine ⟨hsel, by rw [hloop], by rw [hloop]; rfl, by rw [hloop]; rfl, ?_, ?_⟩
  · unfold layoutLabels
    simp only [Nat.lt_one_iff, if_true, hloop, hx]
    simp [relaxInit]
  · unfold layoutLabels
    simp only [Nat.lt_one_iff, if_true, hloop, hy]
    simp [relaxInit]

theorem initFits_one (hypot : ℚ → ℚ → ℚ) (ovr_res : ℚ) (pos : Nat → Vector2d)
    (radius : Nat → FVal) : initFits hypot ovr_res pos radius 1 = [] := by
  simp [initFits, fitsOfRow, List.range_succ]

theorem ovr_optimizeLayout_single (hypot : ℚ → ℚ → ℚ) (ovr_res font_h : ℚ) (fuel : Nat)
    (pos : Nat → Vector2d) (mo : Nat → MapOverlayPos) :
    ovr_optimizeLayout hypot ovr_res font_h fuel 1 pos mo
      = some (layoutLabels ovr_res font_h 1 pos (fun i =>
          if i < 1 then { mo i with radius := max (mo i).radius 4 } else mo i)) := by
  unfold ovr_optimizeLayout
  rw [if_neg (by norm_num)]
  have hloop : shrinkLoop 1 fuel (shrinkInit hypot ovr_res pos (fun i => (mo i).radius) 1)
      = some (fun i => FVal.fin (mo i).radius) := by
    cases fuel <;> simp [shrinkLoop, shrinkInit, initFits_one]
  rw [hloop]
  have hlim : ∀ i, limitShrinkage (fun i => FVal.fin (mo i).radius) i
      = FVal.fin (max (mo i).radius 4) := fun i => by
    simp only [limitShrinkage, FVal.MAX_fin]
  simp only [hlim, FVal.isFin, FVal.toRat, implies_true, if_true]

/-- C7, counterexample: one item at (0, 0) with radius 2 and text width 30,
font height 10, resolution 1.  `ovr_optimizeLayout` returns the label offset
`91/10 = 4 + 5 + 0.1`, computed from the radius after the floor clamp, and not
`radius + 5 + 0.1 = 71/10`. -/
theorem single_item_clamp_counterexample :
    (twoMo 0).radius = 2 ∧
    ∃ out, ovr_optimizeLayout hypotAxis 1 10 0 1 twoPos twoMo = some out ∧
      (out 0).radius = 4 ∧ (out 0).text_offx = 91 / 10 ∧
      (out 0).text_offx ≠ (twoMo 0).radius + 5 + 1 / 10 := by
  refine ⟨rfl, _, ovr_optimizeLayout_single hypotAxis 1 10 0 twoPos twoMo, ?_⟩
  have h := layoutLabels_single 1 10 twoPos
    (fun i => if i < 1 then { twoMo i with radius := max (twoMo i).radius 4 } else twoMo i)
    (by norm_num) (by norm_num [twoMo]) (by norm_num [twoMo]) (by norm_num)
  have hx := h.2.2.2.2.1
  norm_num [twoMo] at hx
  refine ⟨?_, ?_, ?_⟩
  · rw [layoutLabels_radius]; norm_num [twoMo]
  · norm_num [twoMo]; exact hx
  · norm_num [twoMo] at hx ⊢
    rw [hx]; norm_num

/-- C7, amended: for a single item (`items = 1`) with non-negative radius, text
width and font height (and a non-zero resolution), `ovr_optimizeLayout` returns
for every fuel; with `R = max radius 4`, the radius after the floor clamp, the
scan over the clamped record selects the right-of candidate with total push 0,
the relaxation stops after its first sweep with relaxation offset (0, 0), the
record returned has radius `R` and label offset `(R + 5 + 0.1, -font_h / 2)`,
which is `(radius + 5 + 0.1, -font_h / 2)` when `radius >= 4`. -/
theorem single_item_layout (hypot : ℚ → ℚ → ℚ) (ovr_res font_h : ℚ) (fuel : Nat)
    (pos : Nat → Vector2d) (mo : Nat → MapOverlayPos) (hres : ovr_res ≠ 0)
    (_hr : 0 ≤ (mo 0).radius) (htw : 0 ≤ (mo 0).text_width) (hfh : 0 ≤ font_h) :
    ∃ out mo1, ovr_optimizeLayout hypot ovr_res font_h fuel 1 pos mo = some out ∧
      (mo1 = fun i => if i < 1 then { mo i with radius := max (mo i).radius 4 } else mo i) ∧
      out = layoutLabels ovr_res font_h 1 pos mo1 ∧
      selectPlacement ovr_res font_h 1 pos mo1 0
        = { bx := max (mo 0).radius 4 + 5 + 1 / 10, by_ := -font_h / 2, best := some 0 } ∧
      (uzawaLoop ovr_res font_h 1 pos mo1 (off_0x ovr_res font_h 1 pos mo1)
        (off_0y ovr_res font_h 1 pos mo1)).2 = 1 ∧
      (uzawaLoop ovr_res font_h 1 pos mo1 (off_0x ovr_res font_h 1 pos mo1)
        (off_0y ovr_res font_h 1 pos mo1)).1.off_dx 0 = 0 ∧
      (uzawaLoop ovr_res font_h 1 pos mo1 (off_0x ovr_res font_h 1 pos mo1)
        (off_0y ovr_res font_h 1 pos mo1)).1.off_dy 0 = 0 ∧
      (out 0).radius = max (mo 0).radius 4 ∧
      (out 0).text_offx = max (mo 0).radius 4 + 5 + 1 / 10 ∧
      (out 0).text_offy = -font_h / 2 ∧
      (4 ≤ (mo 0).radius → (out 0).text_offx = (mo 0).radius + 5 + 1 / 10) := by
  have hm0 : (if (0 : Nat) < 1 then { mo 0 with radius := max (mo 0).radius 4 } else mo 0)
      = { mo 0 with radius := max (mo 0).radius 4 } := by simp
  have h := layoutLabels_single ovr_res font_h pos
    (fun i => if i < 1 then { mo i with radius := max (mo i).radius 4 } else mo i) hres
    (by simp only [hm0]; exact le_trans (by norm_num) (le_max_right _ _))
    (by simp only [hm0]; exact htw) hfh
  simp only [hm0] at h
  obtain ⟨h1, h2, h3, h4, h5, h6⟩ := h
  refine ⟨_, _, ovr_optimizeLayout_single hypot ovr_res font_h fuel pos mo, rfl, rfl,
    h1, h2, h3, h4, ?_, h5, h6, fun h4r => ?_⟩
  · rw [layoutLabels_radius]
    simp
  · rw [h5, max_eq_left h4r]

/-- The witness of C7: one item at (0, 0) with radius 4 and text width 30, font
height 10, resolution 1: `ovr_optimizeLayout` returns the radius 4 and the
label offset `(4 + 5 + 0.1, -5)`. -/
theorem single_item_layout_witness :
    ∃ out, ovr_optimizeLayout hypotAxis 1 10 0 1 stackPos stackMo = some out ∧
      (out 0).radius = 4 ∧ (out 0).text_offx = 91 / 10 ∧ (out 0).text_offy = -5 := by
  obtain ⟨out, mo1, h1, _, _, _, _, _, _, h8, _, h10, h11⟩ :=
    single_item_layout hypotAxis 1 10 0 stackPos stackMo (by norm_num) (by norm_num [stackMo])
      (by norm_num [stackMo]) (by norm_num)
  have hx := h11 (by norm_num [stackMo])
  refine ⟨out, h1, ?_, ?_, ?_⟩
  · rw [h8]; norm_num [stackMo]
  · rw [hx]; norm_num [stackMo]
  · rw [h10]; norm_num

/-! ## The marker registry: C11, C12, C13, C14, C15 -/

theorem ovr_mrkAddPoint_eq (text : Option String) (x y : ℚ) (r : MarkerRegistry) :
    ovr_mrkAddPoint text x y r =
      ({ mrk_idgen := (r.mrk_idgen + 1) % UINT_RANGE,
         ovr_markers := r.ovr_markers ++
           [{ id := (r.mrk_idgen + 1) % UINT_RANGE, text := text, type := 0,
              pt_x := x, pt_y := y }] },
       (r.mrk_idgen + 1) % UINT_RANGE) := by
  unfold ovr_mrkAddPoint ovr_mrkNew
  simp only [List.modifyLast_append_one]
  cases text <;> rfl

theorem ovr_mrkClear_eq (r : MarkerRegistry) :
    ovr_mrkClear r = { mrk_idgen := r.mrk_idgen, ovr_markers := [] } := by
  unfold ovr_mrkClear array_erase
  simp

theorem mrkRun_append (l1 l2 : List MrkCall) (r : MarkerRegistry) :
    mrkRun (l1 ++ l2) r =
      l2.foldl (fun acc c => ((mrkCall acc.1 c).1, acc.2 ++ (mrkCall acc.1 c).2.toList))
        (mrkRun l1 r) := by
  unfold mrkRun
  rw [List.foldl_append]

theorem mrkRun_concat (l : List MrkCall) (c : MrkCall) (r : MarkerRegistry) :
    mrkRun (l ++ [c]) r =
      ((mrkCall (mrkRun l r).1 c).1, (mrkRun l r).2 ++ (mrkCall (mrkRun l r).1 c).2.toList) := by
  rw [mrkRun_append]
  rfl

theorem rmLoop_sublist (id : Nat) (l : List ovr_marker_t) : (rmLoop id l).Sublist l := by
  induction l with
  | nil => exact List.Sublist.refl _
  | cons m rest ih =>
    unfold rmLoop
    split_ifs with h
    · exact ih.cons₂ m
    · exact List.sublist_cons_self m rest

/-- As long as fewer than 2^32 ids have been handed out, `mrk_idgen` is the
number of calls of `ovr_mrkAddPoint`, the ids returned are 1, 2, .. in this
order, and the stored ids are a sublist of them. -/
theorem mrkRun_invariant (calls : List MrkCall) :
    calls.countP isAdd < UINT_RANGE →
      (mrkRun calls mrkInit).1.mrk_idgen = calls.countP isAdd ∧
      (mrkRun calls mrkInit).2 = List.range' 1 (calls.countP isAdd) ∧
      (storedIds (mrkRun calls mrkInit).1).Sublist (List.range' 1 (calls.countP isAdd)) := by
  induction calls using List.reverseRecOn with
  | nil =>
    intro _
    exact ⟨rfl, rfl, List.Sublist.refl _⟩
  | append_singleton l c ih =>
    intro h
    rw [List.countP_append] at h ⊢
    have hl : l.countP isAdd < UINT_RANGE := by omega
    obtain ⟨h1, h2, h3⟩ := ih hl
    rw [mrkRun_concat]
    cases c with
    | addPoint text x y =>
      have hc : [MrkCall.addPoint text x y].countP isAdd = 1 := rfl
      rw [hc] at h ⊢
      have hmod : (l.countP isAdd + 1) % UINT_RANGE = l.countP isAdd + 1 :=
        Nat.mod_eq_of_lt h
      simp only [mrkCall, ovr_mrkAddPoint_eq, h1, hmod, h2, Option.toList]
      refine ⟨trivial, ?_, ?_⟩
      · rw [List.range'_1_concat, Nat.add_comm 1]
      · unfold storedIds at h3 ⊢
        simp only [List.map_append, List.map_cons, List.map_nil]
        rw [List.range'_1_concat, Nat.add_comm 1]
        exact h3.append (List.Sublist.refl _)
    | rm id =>
      have hc : [MrkCall.rm id].countP isAdd = 0 := rfl
      rw [hc, Nat.add_zero]
      simp only [mrkCall, Option.toList, List.append_nil]
      refine ⟨h1, h2, ?_⟩
      unfold storedIds ovr_mrkRm
      exact ((rmLoop_sublist id _).map _).trans h3
    | clear =>
      have hc : [MrkCall.clear].countP isAdd = 0 := rfl
      rw [hc, Nat.add_zero]
      simp only [mrkCall, Option.toList, List.append_nil, ovr_mrkClear_eq]
      refine ⟨h1, h2, ?_⟩
      unfold storedIds
      exact List.nil_sublist _

theorem rmLoop_markerOne (id : Nat) (hid : id ≠ 1) :
    rmLoop id [markerOne, { id := id, text := none, type := 0, pt_x := 0, pt_y := 0 }]
      = [markerOne] := by
  have h1 : id ≠ markerOne.id := hid
  simp [rmLoop, h1]

/-- After the kept marker and `n` add-and-remove pairs, `n ≤ 2^32 - 1`, the
registry holds the kept marker alone and `mrk_idgen` is `(n + 1) mod 2^32`. -/
theorem mrkRun_addRemove (n : Nat) (hn : n ≤ 4294967295) :
    mrkRun (MrkCall.addPoint none 0 0 :: (List.range n).flatMap addRemove) mrkInit =
      ({ mrk_idgen := (n + 1) % UINT_RANGE, ovr_markers := [markerOne] },
       1 :: (List.range n).map fun k => (k + 2) % UINT_RANGE) := by
  induction n with
  | zero =>
    simp [mrkRun, mrkCall, ovr_mrkAddPoint_eq, mrkInit, UINT_RANGE, markerOne]
  | succ n ih =>
    have ih2 := ih (by omega)
    rw [List.range_succ, List.flatMap_append, ← List.cons_append, mrkRun_append, ih2]
    have hid : (n + 2) % UINT_RANGE ≠ 1 := by unfold UINT_RANGE; omega
    have hg : ((n + 1) % UINT_RANGE + 1) % UINT_RANGE = (n + 2) % UINT_RANGE := by
      unfold UINT_RANGE; omega
    simp only [List.flatMap_cons, List.flatMap_nil, List.append_nil, addRemove, List.foldl_cons,
      List.foldl_nil, mrkCall, ovr_mrkAddPoint_eq, hg, Option.toList, List.append_nil,
      List.map_append, List.map_cons, List.map_nil, List.cons_append, List.nil_append,
      ovr_mrkRm, rmLoop_markerOne _ hid]

theorem mrkRun_wrapCalls :
    mrkRun wrapCalls mrkInit =
      (dupRegistry,
       (1 :: (List.range 4294967295).map fun k => (k + 2) % UINT_RANGE) ++ [1]) := by
  unfold wrapCalls
  rw [mrkRun_concat, mrkRun_addRemove 4294967295 (le_refl _)]
  have hg : ((4294967295 + 1) % UINT_RANGE + 1) % UINT_RANGE = 1 := by
    unfold UINT_RANGE; rfl
  simp only [mrkCall, ovr_mrkAddPoint_eq, hg, Option.toList]
  rfl

/-- C11, as stated, fails: in the call sequence `wrapCalls` the last call of
`ovr_mrkAddPoint` returns the id 1 that the first call returned, so the ids
returned are not strictly increasing. -/
theorem mrk_ids_wrap_counterexample :
    (mrkRun wrapCalls mrkInit).2.head? = some 1 ∧
    (mrkRun wrapCalls mrkInit).2.getLast? = some 1 ∧
    ¬ List.Pairwise (fun a b => a < b) (mrkRun wrapCalls mrkInit).2 := by
  rw [mrkRun_wrapCalls]
  refine ⟨rfl, ?_, ?_⟩
  · rw [List.getLast?_append]
    rfl
  · intro h
    rw [List.cons_append, List.pairwise_cons] at h
    exact absurd (h.1 1 (List.mem_append_right _ (List.mem_singleton.mpr rfl))) (lt_irrefl 1)

/-- C11, amended: for every call sequence with fewer than 2^32 calls of
`ovr_mrkAddPoint`, from the initial registry, the ids returned are
1, 2, 3, .. in the order of the calls: the first one is 1 and every id is
strictly greater than every id returned earlier, whatever removals and clears
lie between. -/
theorem mrk_ids_increasing (calls : List MrkCall)
    (h : calls.countP isAdd < UINT_RANGE) :
    (mrkRun calls mrkInit).2 = List.range' 1 (calls.countP isAdd) ∧
    (∀ id rest, (mrkRun calls mrkInit).2 = id :: rest → id = 1) ∧
    List.Pairwise (fun a b => a < b) (mrkRun calls mrkInit).2 := by
  obtain ⟨_, h2, _⟩ := mrkRun_invariant calls h
  refine ⟨h2, ?_, ?_⟩
  · intro id rest he
    rw [h2] at he
    cases hn : calls.countP isAdd with
    | zero => rw [hn] at he; simp at he
    | succ n =>
      rw [hn, List.range'_succ] at he
      exact (List.cons.inj he).1.symm
  · rw [h2]
    exact List.pairwise_lt_range' 1 _

/-- The witness of C11: add, remove, clear, add, add returns the ids 1, 2, 3. -/
theorem mrk_ids_increasing_witness :
    (mrkRun [MrkCall.addPoint (some "a") 1 2, MrkCall.rm 1, MrkCall.clear,
        MrkCall.addPoint none 0 0, MrkCall.addPoint none 3 4] mrkInit).2 = [1, 2, 3] :=
  (mrk_ids_increasing [MrkCall.addPoint (some "a") 1 2, MrkCall.rm 1, MrkCall.clear,
    MrkCall.addPoint none 0 0, MrkCall.addPoint none 3 4]
    (by simp [isAdd, UINT_RANGE])).1

/-- C12, as stated, fails: the call sequence `wrapCalls` leaves the registry
with two stored markers of id 1. -/
theorem mrk_unique_wrap_counterexample :
    (mrkRun wrapCalls mrkInit).1.ovr_markers = [markerOne, markerOne] ∧
    ¬ (storedIds (mrkRun wrapCalls mrkInit).1).Nodup := by
  rw [mrkRun_wrapCalls]
  refine ⟨rfl, ?_⟩
  simp [storedIds, dupRegistry]

/-- C12, amended: in every registry state reached from the initial registry
by a call sequence with fewer than 2^32 calls of `ovr_mrkAddPoint`, no two
stored markers have the same id. -/
theorem mrk_ids_unique (calls : List MrkCall)
    (h : calls.countP isAdd < UINT_RANGE) :
    (storedIds (mrkRun calls mrkInit).1).Nodup :=
  (List.nodup_range' 1 _).sublist (mrkRun_invariant calls h).2.2

/-- The witness of C12: after add, add, remove 1, add the stored ids are 2, 3. -/
theorem mrk_ids_unique_witness :
    (storedIds (mrkRun [MrkCall.addPoint none 0 0, MrkCall.addPoint none 0 0, MrkCall.rm 1,
      MrkCall.addPoint none 0 0] mrkInit).1).Nodup :=
  mrk_ids_unique [MrkCall.addPoint none 0 0, MrkCall.addPoint none 0 0, MrkCall.rm 1,
      MrkCall.addPoint none 0 0] (by simp [isAdd, UINT_RANGE])

theorem rmLoop_absent (id : Nat) (l : List ovr_marker_t) (h : ∀ mrk ∈ l, mrk.id ≠ id) :
    rmLoop id l = l := by
  induction l with
  | nil => rfl
  | cons m rest ih =>
    unfold rmLoop
    have hm : id ≠ m.id := fun e => h m (List.mem_cons_self _ _) e.symm
    rw [if_pos hm, ih (fun x hx => h x (List.mem_cons_of_mem _ hx))]

theorem rmLoop_present (id : Nat) (l : List ovr_marker_t) (h : ∃ mrk ∈ l, mrk.id = id) :
    ∃ pre mrk post, l = pre ++ mrk :: post ∧ mrk.id = id ∧ (∀ x ∈ pre, x.id ≠ id) ∧
      rmLoop id l = pre ++ post := by
  induction l with
  | nil => obtain ⟨m, hm, _⟩ := h; simp at hm
  | cons m rest ih =>
    by_cases hm : id ≠ m.id
    · have hrest : ∃ mrk ∈ rest, mrk.id = id := by
        obtain ⟨x, hx, hxid⟩ := h
        rcases List.mem_cons.mp hx with rfl | hx
        · exact absurd hxid.symm hm
        · exact ⟨x, hx, hxid⟩
      obtain ⟨pre, x, post, h1, h2, h3, h4⟩ := ih hrest
      refine ⟨m :: pre, x, post, by rw [h1]; rfl, h2, ?_, ?_⟩
      · intro y hy
        rcases List.mem_cons.mp hy with rfl | hy
        · exact fun e => hm e.symm
        · exact h3 y hy
      · unfold rmLoop
        rw [if_pos hm, h4]
        rfl
    · have hm2 : id = m.id := not_not.mp hm
      refine ⟨[], m, rest, rfl, hm2.symm, fun x hx => by simp at hx, ?_⟩
      unfold rmLoop
      rw [if_neg hm]
      rfl

/-- C13, as stated, fails: the registry that `wrapCalls` leaves holds two
markers with id 1, and after `ovr_mrkRm( 1 )` a marker with id 1 is still
stored. -/
theorem mrkRm_duplicate_counterexample :
    (mrkRun wrapCalls mrkInit).1 = dupRegistry ∧
    ∃ mrk ∈ (ovr_mrkRm 1 dupRegistry).ovr_markers, mrk.id = 1 := by
  rw [mrkRun_wrapCalls]
  refine ⟨rfl, markerOne, ?_, rfl⟩
  simp [ovr_mrkRm, dupRegistry, rmLoop, markerOne]

/-- C13, amended: `ovr_mrkRm( id )` leaves the registry unchanged when no stored
marker has the id; otherwise it removes exactly the first stored marker with
the id and keeps all other markers, with their contents and in their order;
when the stored ids are pairwise distinct, no stored marker has the id
afterwards.  `mrk_idgen` is never changed. -/
theorem mrkRm_spec (id : Nat) (r : MarkerRegistry) :
    (ovr_mrkRm id r).mrk_idgen = r.mrk_idgen ∧
    ((∀ mrk ∈ r.ovr_markers, mrk.id ≠ id) → ovr_mrkRm id r = r) ∧
    ((∃ mrk ∈ r.ovr_markers, mrk.id = id) →
      ∃ pre mrk post, r.ovr_markers = pre ++ mrk :: post ∧ mrk.id = id ∧
        (∀ x ∈ pre, x.id ≠ id) ∧ (ovr_mrkRm id r).ovr_markers = pre ++ post) ∧
    ((storedIds r).Nodup → ∀ mrk ∈ (ovr_mrkRm id r).ovr_markers, mrk.id ≠ id) := by
  refine ⟨rfl, fun h => ?_, fun h => rmLoop_present id r.ovr_markers h, fun hnd => ?_⟩
  · unfold ovr_mrkRm
    rw [rmLoop_absent id r.ovr_markers h]
  · by_cases hex : ∃ mrk ∈ r.ovr_markers, mrk.id = id
    · obtain ⟨pre, x, post, h1, h2, h3, h4⟩ := rmLoop_present id r.ovr_markers hex
      intro y hy
      have hy2 : y ∈ pre ++ post := by
        have : (ovr_mrkRm id r).ovr_markers = pre ++ post := h4
        rw [this] at hy
        exact hy
      rcases List.mem_append.mp hy2 with hp | hp
      · exact h3 y hp
      · intro hyid
        unfold storedIds at hnd
        rw [h1, List.map_append, List.map_cons] at hnd
        have hnd2 := (List.nodup_append.mp hnd).2.1
        have := (List.nodup_cons.mp hnd2).1
        apply this
        rw [h2, ← hyid]
        exact List.mem_map_of_mem _ hp
    · intro y hy
      have hall : ∀ mrk ∈ r.ovr_markers, mrk.id ≠ id := fun m hm e => hex ⟨m, hm, e⟩
      have : (ovr_mrkRm id r).ovr_markers = r.ovr_markers := by
        unfold ovr_mrkRm
        exact rmLoop_absent id r.ovr_markers hall
      rw [this] at hy
      exact hall y hy

/-- The witness of C13: removing id 2 from the markers 1, 2, 3 leaves the
markers 1, 3. -/
theorem mrkRm_spec_witness :
    (ovr_mrkRm 2 { mrk_idgen := 3, ovr_markers :=
        [{ id := 1, text := none, type := 0, pt_x := 0, pt_y := 0 },
         { id := 2, text := some "b", type := 0, pt_x := 5, pt_y := 6 },
         { id := 3, text := none, type := 0, pt_x := 7, pt_y := 8 }] }).ovr_markers
      = [{ id := 1, text := none, type := 0, pt_x := 0, pt_y := 0 },
         { id := 3, text := none, type := 0, pt_x := 7, pt_y := 8 }] ∧
    ∀ mrk ∈ (ovr_mrkRm 2 { mrk_idgen := 3, ovr_markers :=
        [{ id := 1, text := none, type := 0, pt_x := 0, pt_y := 0 },
         { id := 2, text := some "b", type := 0, pt_x := 5, pt_y := 6 },
         { id := 3, text := none, type := 0, pt_x := 7, pt_y := 8 }] }).ovr_markers,
      mrk.id ≠ 2 :=
  ⟨by simp [ovr_mrkRm, rmLoop],
   (mrkRm_spec 2 _).2.2.2 (by simp [storedIds])⟩

/-- C14: after `ovr_mrkClear` the registry holds no marker; `mrk_idgen` keeps
its value. -/
theorem mrkClear_empty (r : MarkerRegistry) :
    (ovr_mrkClear r).ovr_markers = [] ∧ (ovr_mrkClear r).mrk_idgen = r.mrk_idgen := by
  rw [ovr_mrkClear_eq]
  exact ⟨rfl, rfl⟩

/-- C15: `ovr_mrkAddPoint( text, x, y )` appends exactly one marker at the end
of the array; its id is the returned id `mrk_idgen + 1` (as an
`unsigned int`), its position is `(x, y)`, its text is the given text, or none
when none is given; the markers stored before are unchanged and in order. -/
theorem mrkAddPoint_appends (text : Option String) (x y : ℚ) (r : MarkerRegistry) :
    (ovr_mrkAddPoint text x y r).1.ovr_markers =
      r.ovr_markers ++ [{ id := (ovr_mrkAddPoint text x y r).2, text := text, type := 0,
                          pt_x := x, pt_y := y }] ∧
    (ovr_mrkAddPoint text x y r).2 = (r.mrk_idgen + 1) % UINT_RANGE ∧
    (ovr_mrkAddPoint text x y r).1.mrk_idgen = (ovr_mrkAddPoint text x y r).2 := by
  rw [ovr_mrkAddPoint_eq]
  exact ⟨rfl, rfl, rfl⟩

/-! ## Coordinate mapping and resolution: C16, C17, C18 -/

/-- C16: for a positive resolution, the space coordinates that `ovr_input`
computes from the screen position `map_overlayToScreenPos( x, y )` are
`(x, y)` again. -/
theorem screen_roundtrip (center_x center_y ovr_res x y : ℚ) (hres : 0 < ovr_res) :
    inputToSpace center_x center_y ovr_res
      (map_overlayToScreenPos center_x center_y ovr_res x y).1
      (map_overlayToScreenPos center_x center_y ovr_res x y).2 = (x, y) := by
  simp only [inputToSpace, map_overlayToScreenPos, Prod.mk.injEq]
  constructor
  · rw [add_sub_cancel_left, div_mul_cancel₀ x hres.ne']
  · rw [add_sub_cancel_left, div_mul_cancel₀ y hres.ne']

/-- The witness of C16: centre (400, 300), resolution 1/2, world point (10, -7):
the screen position is (420, 286) and maps back to (10, -7). -/
theorem screen_roundtrip_witness :
    map_overlayToScreenPos 400 300 (1 / 2) 10 (-7) = (420, 286) ∧
    inputToSpace 400 300 (1 / 2) (map_overlayToScreenPos 400 300 (1 / 2) 10 (-7)).1
      (map_overlayToScreenPos 400 300 (1 / 2) 10 (-7)).2 = (10, -7) :=
  ⟨by norm_num [map_overlayToScreenPos],
   screen_roundtrip 400 300 (1 / 2) 10 (-7) (by norm_num)⟩

theorem ovr_refresh_open (hypot : ℚ → ℚ → ℚ) (width height sw font_h : ℚ) (fuel : Nat)
    (o o2 : Overlay) (hopen : o.ovr_open = true)
    (h : ovr_refresh hypot width height sw font_h fuel o = some o2) :
    o2.ovr_res = refreshRes width height sw o.jumps o.planets ∧
    ∃ mo, refreshLayout hypot width height sw font_h fuel o.jumps o.planets = some mo := by
  unfold ovr_refresh at h
  rw [if_neg (by rw [hopen]; simp)] at h
  cases hl : refreshLayout hypot width height sw font_h fuel o.jumps o.planets with
  | none => rw [hl] at h; simp at h
  | some mo =>
    rw [hl] at h
    simp only [Option.some.injEq] at h
    rw [← h]
    exact ⟨rfl, mo, rfl⟩

/-- C17: the overlay over a system whose only object is a known planet at the
origin, 800 x 600 viewport: `ovr_refresh` returns and leaves `ovr_res = 0`. -/
theorem refresh_resolution_zero :
    originOverlay.ovr_open = true ∧ 0 < originOverlay.ovr_res ∧
    ∃ o2, ovr_refresh hypotAxis 800 600 32 10 0 originOverlay = some o2 ∧ o2.ovr_res = 0 := by
  refine ⟨rfl, by norm_num [originOverlay], ?_⟩
  have hres : refreshRes 800 600 32 [] [originPlanet] = 0 := by
    norm_num [refreshRes, refreshResolution, refreshMaxX, refreshMaxY, jumpEntries,
      planetEntries, originPlanet, MAX, ABS]
  have hitems : refreshItems 32 [] [originPlanet] = 1 := by
    simp [refreshItems, jumpEntries, planetEntries, originPlanet]
  have hfits : (shrinkInit hypotAxis 0 (refreshPos 32 [] [originPlanet])
      (fun i => (refreshMo 800 600 32 [] [originPlanet] i).radius) 1).fits = [] := by
    simp [shrinkInit, initFits, fitsOfRow, List.range_succ, List.range']
  have hlay : ∃ mo, refreshLayout hypotAxis 800 600 32 10 0 [] [originPlanet] = some mo := by
    unfold refreshLayout ovr_optimizeLayout
    rw [hres, hitems, if_neg (by norm_num)]
    rw [shrinkLoop, hfits]
    simp only
    have hf : ∀ i, i < 1 → (limitShrinkage (shrinkInit hypotAxis 0 (refreshPos 32 [] [originPlanet])
        (fun i => (refreshMo 800 600 32 [] [originPlanet] i).radius) 1).radius i).isFin = true := by
      intro i _
      simp only [limitShrinkage, shrinkInit, FVal.MAX_fin]
      rfl
    rw [if_pos hf]
    exact ⟨_, rfl⟩
  obtain ⟨mo, hmo⟩ := hlay
  unfold ovr_refresh
  rw [if_neg (by simp [originOverlay])]
  simp only [originOverlay, hmo, hres]
  exact ⟨_, rfl, rfl⟩

theorem ABS_eq_abs (x : ℚ) : ABS x = |x| := by
  unfold ABS
  split_ifs with h
  · exact (abs_of_neg h).symm
  · exact (abs_of_nonneg (not_lt.mp h)).symm

theorem foldl_MAX_isMax {α : Type} (f : α → ℚ) :
    ∀ (l : List α) (m0 : ℚ),
      m0 ≤ l.foldl (fun m a => MAX m (f a)) m0 ∧
      (∀ a ∈ l, f a ≤ l.foldl (fun m a => MAX m (f a)) m0) ∧
      (l.foldl (fun m a => MAX m (f a)) m0 = m0 ∨
        ∃ a ∈ l, l.foldl (fun m a => MAX m (f a)) m0 = f a) := by
  intro l
  induction l with
  | nil => intro m0; exact ⟨le_refl _, fun a ha => by simp at ha, Or.inl rfl⟩
  | cons x xs ih =>
    intro m0
    simp only [List.foldl_cons]
    obtain ⟨h1, h2, h3⟩ := ih (MAX m0 (f x))
    rw [MAX_eq_max] at h1 h2 h3 ⊢
    refine ⟨le_trans (le_max_left _ _) h1, ?_, ?_⟩
    · intro a ha
      rcases List.mem_cons.mp ha with rfl | ha
      · exact le_trans (le_max_right _ _) h1
      · exact h2 a ha
    · rcases h3 with h3 | ⟨a, ha, h3⟩
      · rcases le_total m0 (f x) with hle | hle
        · right
          exact ⟨x, List.mem_cons_self _ _, by rw [h3, max_eq_right hle]⟩
        · left
          rw [h3, max_eq_left hle]
      · exact Or.inr ⟨a, List.mem_cons_of_mem _ ha, h3⟩

theorem isMaxAbs_of_folds (xs ys : List ℚ) :
    IsMaxAbs (ys.foldl (fun m a => MAX m (ABS a)) (xs.foldl (fun m a => MAX m (ABS a)) 0))
      (xs ++ ys) := by
  obtain ⟨a1, a2, a3⟩ := foldl_MAX_isMax (fun a : ℚ => ABS a) xs 0
  obtain ⟨b1, b2, b3⟩ := foldl_MAX_isMax (fun a : ℚ => ABS a) ys
    (xs.foldl (fun m a => MAX m (ABS a)) 0)
  have hbound : ∀ v ∈ xs ++ ys,
      |v| ≤ ys.foldl (fun m a => MAX m (ABS a)) (xs.foldl (fun m a => MAX m (ABS a)) 0) := by
    intro v hv
    rw [← ABS_eq_abs]
    rcases List.mem_append.mp hv with h | h
    · exact le_trans (a2 v h) b1
    · exact b2 v h
  refine ⟨hbound, ?_, ?_⟩
  · intro he
    obtain ⟨hx, hy⟩ := List.append_eq_nil.mp he
    rw [hx, hy]
    rfl
  · intro hne
    rcases b3 with hb | ⟨v, hv, hb⟩
    · rcases a3 with ha | ⟨v, hv, ha⟩
      · obtain ⟨v, hv⟩ := List.exists_mem_of_ne_nil _ hne
        refine ⟨v, hv, ?_⟩
        have h1 := hbound v hv
        rw [hb, ha] at h1 ⊢
        exact le_antisymm (abs_nonneg v) h1
      · exact ⟨v, List.mem_append_left _ hv, by rw [hb, ha, ABS_eq_abs]⟩
    · exact ⟨v, List.mem_append_right _ hv, by rw [hb, ABS_eq_abs]⟩

theorem refreshMaxX_isMax (jumps : List JumpPoint) (planets : List Planet) :
    IsMaxAbs (refreshMaxX jumps planets)
      (jumps.map (fun jp => jp.pos.x) ++ planets.map (fun p => p.pos.x)) := by
  have h := isMaxAbs_of_folds (jumps.map fun jp => jp.pos.x) (planets.map fun p => p.pos.x)
  simp only [List.foldl_map] at h
  exact h

theorem refreshMaxY_isMax (jumps : List JumpPoint) (planets : List Planet) :
    IsMaxAbs (refreshMaxY jumps planets)
      (jumps.map (fun jp => jp.pos.y) ++ planets.map (fun p => p.pos.y)) := by
  have h := isMaxAbs_of_folds (jumps.map fun jp => jp.pos.y) (planets.map fun p => p.pos.y)
  simp only [List.foldl_map] at h
  exact h

/-- C18 (the code departs from the claim when the system has objects but none
of them is collected): for the open overlay over a system whose only object is
a planet at (100, 0) that is not known, the object set is not empty and the
formula gives `2.4 * MAX( 100/800, 0/600 ) = 0.3`, but `items` is 0 and
`ovr_refresh` leaves the fallback `ovr_res = 50`, which the comment on the
guard reserves for the case of nothing in the system. -/
theorem refresh_resolution_unknown :
    unknownOverlay.ovr_open = true ∧ unknownOverlay.planets ≠ [] ∧
    2 * (12 / 10) * MAX (refreshMaxX unknownOverlay.jumps unknownOverlay.planets / 800)
      (refreshMaxY unknownOverlay.jumps unknownOverlay.planets / 600) = 3 / 10 ∧
    ∃ o2, ovr_refresh hypotAxis 800 600 32 10 0 unknownOverlay = some o2 ∧ o2.ovr_res = 50 := by
  refine ⟨rfl, by simp [unknownOverlay], ?_, ?_⟩
  · norm_num [refreshMaxX, refreshMaxY, unknownOverlay, unknownPlanet, MAX, ABS]
  · have hres : refreshRes 800 600 32 [] [unknownPlanet] = 50 := by
      simp [refreshRes, jumpEntries, planetEntries, unknownPlanet]
    have hitems : refreshItems 32 [] [unknownPlanet] = 0 := by
      simp [refreshItems, jumpEntries, planetEntries, unknownPlanet]
    have hlay : refreshLayout hypotAxis 800 600 32 10 0 [] [unknownPlanet]
        = some (refreshMo 800 600 32 [] [unknownPlanet]) := by
      unfold refreshLayout ovr_optimizeLayout
      rw [hitems, if_pos rfl]
    unfold ovr_refresh
    rw [if_neg (by simp [unknownOverlay])]
    simp only [unknownOverlay, hlay, hres]
    exact ⟨_, rfl, rfl⟩

/-- What the guard `items == 0` does: after `ovr_refresh` on an open overlay the
resolution is `2.4 * max (Mx / width) (My / height)`, where `Mx`, `My` are the largest `|x|`,
`|y|` over all jump points and planets, known or not, whenever at least one
object has been collected for the layout (a usable and known jump point or a
known planet), and it is 50 whenever none has been collected; and
`ovr_refresh` does return when this resolution is positive and the collected
objects lie at pairwise positive distances. -/
theorem refresh_resolution (hypot : ℚ → ℚ → ℚ) (width height sw font_h : ℚ)
    (o : Overlay) (hopen : o.ovr_open = true) :
    (∀ fuel o2, ovr_refresh hypot width height sw font_h fuel o = some o2 →
      (refreshItems sw o.jumps o.planets ≠ 0 →
        o2.ovr_res = 12 / 5 * max (refreshMaxX o.jumps o.planets / width)
          (refreshMaxY o.jumps o.planets / height)) ∧
      (refreshItems sw o.jumps o.planets = 0 → o2.ovr_res = 50)) ∧
    IsMaxAbs (refreshMaxX o.jumps o.planets)
      (o.jumps.map (fun jp => jp.pos.x) ++ o.planets.map (fun p => p.pos.x)) ∧
    IsMaxAbs (refreshMaxY o.jumps o.planets)
      (o.jumps.map (fun jp => jp.pos.y) ++ o.planets.map (fun p => p.pos.y)) ∧
    (refreshItems sw o.jumps o.planets = 0 ↔
      (∀ jp ∈ o.jumps, (jp.usable && jp.known) = false) ∧ ∀ p ∈ o.planets, p.known = false) ∧
    (0 < refreshRes width height sw o.jumps o.planets →
      (∀ i j, i < j → j < refreshItems sw o.jumps o.planets →
        0 < hypot ((refreshPos sw o.jumps o.planets i).x - (refreshPos sw o.jumps o.planets j).x)
              ((refreshPos sw o.jumps o.planets i).y - (refreshPos sw o.jumps o.planets j).y)) →
      ∃ fuel o2, ovr_refresh hypot width height sw font_h fuel o = some o2) := by
  refine ⟨fun fuel o2 h => ?_, refreshMaxX_isMax _ _, refreshMaxY_isMax _ _, ?_, ?_⟩
  · obtain ⟨hr, _⟩ := ovr_refresh_open hypot width height sw font_h fuel o o2 hopen h
    rw [hr]
    constructor
    · intro hne
      have hne2 : ¬ (jumpEntries sw o.jumps ++ planetEntries o.planets).length = 0 := hne
      unfold refreshRes
      rw [if_neg hne2]
      unfold refreshResolution
      rw [MAX_eq_max]
      norm_num
    · intro he
      have he2 : (jumpEntries sw o.jumps ++ planetEntries o.planets).length = 0 := he
      unfold refreshRes
      rw [if_pos he2]
  · unfold refreshItems jumpEntries planetEntries
    simp only [List.length_append, List.length_map, Nat.add_eq_zero, List.length_eq_zero,
      List.filter_eq_nil_iff, Bool.not_eq_true]
  · intro hres hpos
    obtain ⟨fuel, mo, hmo⟩ := ovr_optimizeLayout_returns hypot
      (refreshRes width height sw o.jumps o.planets) font_h
      (refreshItems sw o.jumps o.planets) (refreshPos sw o.jumps o.planets)
      (refreshMo width height sw o.jumps o.planets) hres
      (fun i hi => le_trans (by norm_num)
        (refreshMo_radius_ge width height sw o.jumps o.planets i hi)) hpos
    have hl : refreshLayout hypot width height sw font_h fuel o.jumps o.planets = some mo := hmo
    refine ⟨fuel, { o with ovr_res := refreshRes width height sw o.jumps o.planets,
                           jumps := (storeJumps mo o.jumps 0).1,
                           planets := storePlanets mo o.planets (storeJumps mo o.jumps 0).2 }, ?_⟩
    unfold ovr_refresh
    rw [if_neg (by rw [hopen]; simp), hl]

/-- An instance of `refresh_resolution`: an open overlay over a known planet at
(100, 0), 800 x 600 viewport: `ovr_refresh` returns with `ovr_res = 2.4 * (100/800) = 3/10`. -/
theorem refresh_resolution_witness :
    ∃ fuel o2, ovr_refresh hypotAxis 800 600 32 10 fuel
        { ovr_open := true, ovr_res := 10, jumps := [], planets := [lonePlanet], ovr_dt := 0 }
          = some o2 ∧ o2.ovr_res = 3 / 10 := by
  have h := refresh_resolution hypotAxis 800 600 32 10
    { ovr_open := true, ovr_res := 10, jumps := [], planets := [lonePlanet], ovr_dt := 0 } rfl
  have hres : refreshRes 800 600 32 [] [lonePlanet] = 3 / 10 := by
    norm_num [refreshRes, refreshResolution, refreshMaxX, refreshMaxY, jumpEntries,
      planetEntries, lonePlanet, MAX, ABS]
  have hitems : refreshItems 32 [] [lonePlanet] = 1 := by
    simp [refreshItems, jumpEntries, planetEntries, lonePlanet]
  obtain ⟨fuel, o2, ho2⟩ := h.2.2.2.2 (by simp only []; rw [hres]; norm_num)
    (fun i j hij hj => by simp only [] at hj; rw [hitems] at hj; omega)
  refine ⟨fuel, o2, ho2, ?_⟩
  have h1 := ((h.1 fuel o2 ho2).1 (by simp only []; rw [hitems]; norm_num))
  rw [h1]
  norm_num [refreshMaxX, refreshMaxY, lonePlanet, MAX, ABS]

/-! ## Opening and fading: C19, C20 -/

/-- C19: when `ovr_setOpen` is called with a non-zero argument on a closed
overlay, the overlay is open afterwards, every planet has alpha 1 if it is
known and 0 otherwise, every jump point has alpha 1 if it is usable and known
and 0 otherwise, all their other fields are unchanged, and `ovr_dt` is 0. -/
theorem setOpen_resets_alpha (open_ : Int) (o : Overlay)
    (hopen : open_ ≠ 0) (hclosed : o.ovr_open = false) :
    (ovr_setOpen open_ o).ovr_open = true ∧
    (ovr_setOpen open_ o).planets =
      o.planets.map (fun pnt => { pnt with map_alpha := if pnt.known = true then 1 else 0 }) ∧
    (ovr_setOpen open_ o).jumps =
      o.jumps.map (fun jp =>
        { jp with map_alpha := if jp.usable = true ∧ jp.known = true then 1 else 0 }) ∧
    (ovr_setOpen open_ o).ovr_dt = 0 ∧
    (ovr_setOpen open_ o).ovr_res = o.ovr_res := by
  unfold ovr_setOpen
  rw [if_pos ⟨hopen, hclosed⟩]
  unfold ovr_initAlpha
  refine ⟨rfl, ?_, ?_, rfl, rfl⟩
  · apply List.map_congr_left
    intro pnt _
    cases hk : pnt.known <;> simp [hk]
  · apply List.map_congr_left
    intro jp _
    cases hu : jp.usable <;> cases hk : jp.known <;> simp [hu, hk]

/-- The witness of C19: opening the closed overlay over `fadePlanets` and
`fadeJumps` gives the planets the alphas 1, 0 and the jump point the alpha
1. -/
theorem setOpen_resets_alpha_witness :
    (ovr_setOpen 1 closedOverlay).planets.map (fun pnt => pnt.map_alpha) = [1, 0] ∧
    (ovr_setOpen 1 closedOverlay).jumps.map (fun jp => jp.map_alpha) = [1] ∧
    (ovr_setOpen 1 closedOverlay).ovr_dt = 0 := by
  have h := setOpen_resets_alpha 1 closedOverlay (by norm_num) rfl
  refine ⟨?_, ?_, h.2.2.2.1⟩
  · rw [h.2.1]; simp [closedOverlay, fadePlanets]
  · rw [h.2.2.1]; simp [closedOverlay, fadeJumps]

theorem fadeAlpha_eq (dt a : ℚ) :
    fadeAlpha dt a = if a < 1 then min (a + dt / 3) 1 else a := by
  unfold fadeAlpha MIN OVERLAY_FADEIN
  by_cases h : a < 1
  · rw [if_pos h, if_pos h]
    have e : 1 / 3 * dt = dt / 3 := by ring
    rw [e]
    by_cases h2 : a + dt / 3 > 1
    · rw [if_pos h2, min_eq_right h2.le]
    · rw [if_neg h2, min_eq_left (not_lt.mp h2)]
  · rw [if_neg h, if_neg h]

/-- C20: in a frame that is rendered (overlay open, player present) with elapsed
time `dt ≥ 0`, every planet and every jump point receives the alpha
`min (alpha + dt/3) 1` if its alpha is below 1 and keeps its alpha otherwise,
nothing else of it changes, and an alpha in [0, 1] stays in [0, 1] and does
not decrease. -/
theorem render_fades_alpha (dt : ℚ) (o : Overlay) (hdt : 0 ≤ dt)
    (hopen : o.ovr_open = true) :
    (ovr_render dt true o).planets = o.planets.map (fun pnt =>
      { pnt with map_alpha :=
          if pnt.map_alpha < 1 then min (pnt.map_alpha + dt / 3) 1 else pnt.map_alpha }) ∧
    (ovr_render dt true o).jumps = o.jumps.map (fun jp =>
      { jp with map_alpha :=
          if jp.map_alpha < 1 then min (jp.map_alpha + dt / 3) 1 else jp.map_alpha }) ∧
    ∀ a : ℚ, 0 ≤ a → a ≤ 1 →
      0 ≤ (if a < 1 then min (a + dt / 3) 1 else a) ∧
      (if a < 1 then min (a + dt / 3) 1 else a) ≤ 1 ∧
      a ≤ (if a < 1 then min (a + dt / 3) 1 else a) := by
  refine ⟨?_, ?_, ?_⟩
  · unfold ovr_render
    rw [if_neg (by rw [hopen]; simp), if_neg (by simp)]
    simp only [fadeAlpha_eq]
  · unfold ovr_render
    rw [if_neg (by rw [hopen]; simp), if_neg (by simp)]
    simp only [fadeAlpha_eq]
  · intro a h0 h1
    have h3 : 0 ≤ dt / 3 := div_nonneg hdt (by norm_num)
    split_ifs with h
    · refine ⟨le_min (by linarith) (by norm_num), min_le_right _ _, le_min (by linarith) h1⟩
    · exact ⟨h0, h1, le_refl _⟩

/-- The witness of C20: a frame with `dt = 3/4` on the open overlay over
`fadePlanets` and `fadeJumps`: the planet alphas 0.9, 0.5 become 1, 0.75 and
the jump point alpha 0.25 becomes 0.5. -/
theorem render_fades_alpha_witness :
    (ovr_render (3 / 4) true openOverlay).planets.map (fun pnt => pnt.map_alpha)
      = [1, 3 / 4] ∧
    (ovr_render (3 / 4) true openOverlay).jumps.map (fun jp => jp.map_alpha)
      = [1 / 2] := by
  have h := render_fades_alpha (3 / 4) openOverlay (by norm_num) rfl
  refine ⟨?_, ?_⟩
  · rw [h.1]; norm_num [openOverlay, fadePlanets]
  · rw [h.2.1]; norm_num [openOverlay, fadeJumps]

/-! ## Opening on an open overlay: C21 -/

/-- C21 (the claim fails when the overlay is already open and the argument is
non-zero): after `ovr_setOpen(open)` the overlay is open exactly when `open` is
non-zero and the overlay was closed before; `ovr_setOpen(1)` on the open
overlay `openOverlay` closes it, so that `ovr_isOpen()` returns 0. -/
theorem setOpen_on_open_closes (open_ : Int) (o : Overlay) :
    ovr_isOpen (ovr_setOpen open_ o)
      = (if open_ ≠ 0 ∧ o.ovr_open = false then 1 else 0) ∧
    openOverlay.ovr_open = true ∧
    (ovr_setOpen 1 openOverlay).ovr_open = false ∧
    ovr_isOpen (ovr_setOpen 1 openOverlay) = 0 := by
  refine ⟨?_, rfl, by simp [ovr_setOpen, openOverlay], by simp [ovr_setOpen, ovr_isOpen, openOverlay]⟩
  unfold ovr_isOpen ovr_setOpen
  by_cases h : open_ ≠ 0 ∧ o.ovr_open = false
  · simp [h, ovr_initAlpha]
  · rw [if_neg h, if_neg h]
    by_cases h2 : o.ovr_open = true
    · simp [h2]
    · simp [h2]

/-! ## The refresh reads the objects only: C22 -/

theorem candTx_clear (mo : Nat → MapOverlayPos) :
    candTx (fun i => clearOffset (mo i)) = candTx mo := rfl

theorem candTy_clear (font_h : ℚ) (mo : Nat → MapOverlayPos) :
    candTy font_h (fun i => clearOffset (mo i)) = candTy font_h mo := rfl

theorem candVal_clear (ovr_res font_h : ℚ) (items : Nat) (pos : Nat → Vector2d)
    (mo : Nat → MapOverlayPos) :
    candVal ovr_res font_h items pos (fun i => clearOffset (mo i))
      = candVal ovr_res font_h items pos mo := rfl

theorem off_0x_clear (ovr_res font_h : ℚ) (items : Nat) (pos : Nat → Vector2d)
    (mo : Nat → MapOverlayPos) :
    off_0x ovr_res font_h items pos (fun i => clearOffset (mo i))
      = off_0x ovr_res font_h items pos mo := rfl

theorem off_0y_clear (ovr_res font_h : ℚ) (items : Nat) (pos : Nat → Vector2d)
    (mo : Nat → MapOverlayPos) :
    off_0y ovr_res font_h items pos (fun i => clearOffset (mo i))
      = off_0y ovr_res font_h items pos mo := rfl

theorem uzawaItem_clear (ovr_res font_h : ℚ) (items : Nat) (pos : Nat → Vector2d)
    (mo : Nat → MapOverlayPos) :
    uzawaItem ovr_res font_h items pos (fun i => clearOffset (mo i))
      = uzawaItem ovr_res font_h items pos mo := rfl

theorem sweepItem_clear (ovr_res font_h : ℚ) (items : Nat) (pos : Nat → Vector2d)
    (mo : Nat → MapOverlayPos) :
    sweepItem ovr_res font_h items pos (fun i => clearOffset (mo i))
      = sweepItem ovr_res font_h items pos mo := by
  funext o0x o0y sv i
  unfold sweepItem ovr_refresh_uzawa_overlap
  rw [uzawaItem_clear]
  rfl

theorem uzawaLoopWith_clear (ovr_res font_h : ℚ) (items : Nat) (pos : Nat → Vector2d)
    (mo : Nat → MapOverlayPos) (o0x o0y : Nat → ℚ) (order : Nat → List Nat) :
    ∀ (n iter : Nat) (s : RelaxState),
      uzawaLoopWith ovr_res font_h items pos (fun i => clearOffset (mo i)) o0x o0y order n iter s
        = uzawaLoopWith ovr_res font_h items pos mo o0x o0y order n iter s := by
  intro n
  induction n with
  | zero => intro iter s; rfl
  | succ n ih =>
    intro iter s
    simp only [uzawaLoopWith, sweepWith, sweepItem_clear, ih]

theorem uzawaLoop_clear (ovr_res font_h : ℚ) (items : Nat) (pos : Nat → Vector2d)
    (mo : Nat → MapOverlayPos) (o0x o0y : Nat → ℚ) :
    uzawaLoop ovr_res font_h items pos (fun i => clearOffset (mo i)) o0x o0y
      = uzawaLoop ovr_res font_h items pos mo o0x o0y := by
  unfold uzawaLoop
  exact uzawaLoopWith_clear ovr_res font_h items pos mo o0x o0y _ _ _ _

theorem layoutLabels_clear (ovr_res font_h : ℚ) (items : Nat) (pos : Nat → Vector2d)
    (mo : Nat → MapOverlayPos) (i : Nat) (hi : i < items) :
    layoutLabels ovr_res font_h items pos (fun i => clearOffset (mo i)) i
      = layoutLabels ovr_res font_h items pos mo i := by
  unfold layoutLabels
  simp only [hi, if_true, off_0x_clear, off_0y_clear, uzawaLoop_clear]
  rfl

theorem layoutLabels_congr (ovr_res font_h : ℚ) (items : Nat) (pos : Nat → Vector2d)
    (m m2 : Nat → MapOverlayPos)
    (h : ∀ i, (m i).radius = (m2 i).radius ∧ (m i).text_width = (m2 i).text_width)
    (i : Nat) (hi : i < items) :
    layoutLabels ovr_res font_h items pos m i = layoutLabels ovr_res font_h items pos m2 i := by
  have hc : (fun i => clearOffset (m i)) = fun i => clearOffset (m2 i) := by
    funext k
    simp only [clearOffset, (h k).1, (h k).2]
  rw [← layoutLabels_clear ovr_res font_h items pos m i hi, hc,
    layoutLabels_clear ovr_res font_h items pos m2 i hi]

theorem ovr_optimizeLayout_congr (hypot : ℚ → ℚ → ℚ) (ovr_res font_h : ℚ) (fuel items : Nat)
    (pos : Nat → Vector2d) (m m2 : Nat → MapOverlayPos)
    (h : ∀ i, (m i).radius = (m2 i).radius ∧ (m i).text_width = (m2 i).text_width)
    (hout : ∀ i, items ≤ i → m i = m2 i) :
    ovr_optimizeLayout hypot ovr_res font_h fuel items pos m
      = ovr_optimizeLayout hypot ovr_res font_h fuel items pos m2 := by
  unfold ovr_optimizeLayout
  by_cases h0 : items = 0
  · rw [if_pos h0, if_pos h0]
    congr 1
    funext i
    exact hout i (by omega)
  · rw [if_neg h0, if_neg h0]
    have hrad : (fun i => (m i).radius) = fun i => (m2 i).radius := funext fun i => (h i).1
    rw [hrad]
    cases shrinkLoop items fuel (shrinkInit hypot ovr_res pos (fun i => (m2 i).radius) items) with
    | none => rfl
    | some rad =>
      simp only []
      by_cases hf : ∀ i, i < items → (limitShrinkage rad i).isFin = true
      · rw [if_pos hf, if_pos hf]
        congr 1
        funext i
        by_cases hi : i < items
        · apply layoutLabels_congr
          · intro k
            by_cases hk : k < items
            · simp only [hk, if_true]
              exact ⟨trivial, (h k).2⟩
            · simp only [hk, if_false]
              exact h k
          · exact hi
        · simp only [layoutLabels, hi, if_false]
          exact hout i (by omega)
      · rw [if_neg hf, if_neg hf]

theorem jumpEntries_clear (sw : ℚ) (l : List JumpPoint) :
    jumpEntries sw (l.map clearJumpMo)
      = (jumpEntries sw l).map fun e => (e.1, clearOffset e.2) := by
  induction l with
  | nil => rfl
  | cons jp rest ih =>
    unfold jumpEntries at ih ⊢
    by_cases hc : (jp.usable && jp.known) = true
    · have hc2 : ((clearJumpMo jp).usable && (clearJumpMo jp).known) = true := hc
      rw [List.map_cons, List.filter_cons_of_pos (p := fun jp : JumpPoint => jp.usable && jp.known) hc2,
        List.filter_cons_of_pos (p := fun jp : JumpPoint => jp.usable && jp.known) hc,
        List.map_cons, List.map_cons, List.map_cons, ih]
      rfl
    · have hc2 : ¬ ((clearJumpMo jp).usable && (clearJumpMo jp).known) = true := hc
      rw [List.map_cons, List.filter_cons_of_neg (p := fun jp : JumpPoint => jp.usable && jp.known) hc2,
        List.filter_cons_of_neg (p := fun jp : JumpPoint => jp.usable && jp.known) hc, ih]

theorem planetEntries_clear (l : List Planet) :
    planetEntries (l.map clearPlanetMo)
      = (planetEntries l).map fun e => (e.1, clearOffset e.2) := by
  induction l with
  | nil => rfl
  | cons p rest ih =>
    unfold planetEntries at ih ⊢
    by_cases hc : p.known = true
    · have hc2 : (clearPlanetMo p).known = true := hc
      rw [List.map_cons, List.filter_cons_of_pos (p := fun p : Planet => p.known) hc2,
        List.filter_cons_of_pos (p := fun p : Planet => p.known) hc,
        List.map_cons, List.map_cons, List.map_cons, ih]
      rfl
    · have hc2 : ¬ (clearPlanetMo p).known = true := hc
      rw [List.map_cons, List.filter_cons_of_neg (p := fun p : Planet => p.known) hc2,
        List.filter_cons_of_neg (p := fun p : Planet => p.known) hc, ih]

theorem entries_clear (sw : ℚ) (js : List JumpPoint) (ps : List Planet) :
    jumpEntries sw (js.map clearJumpMo) ++ planetEntries (ps.map clearPlanetMo)
      = (jumpEntries sw js ++ planetEntries ps).map fun e => (e.1, clearOffset e.2) := by
  rw [jumpEntries_clear, planetEntries_clear, List.map_append]

theorem entryAt_clear (l : List (Vector2d × MapOverlayPos)) :
    ∀ i, entryAt (l.map fun e => (e.1, clearOffset e.2)) i
      = ((entryAt l i).1, clearOffset (entryAt l i).2) := by
  induction l with
  | nil => intro i; rfl
  | cons e rest ih =>
    intro i
    cases i with
    | zero => rfl
    | succ i => exact ih i

theorem entryAt_beyond (l : List (Vector2d × MapOverlayPos)) (i : Nat) (hi : l.length ≤ i) :
    entryAt l i = (⟨0, 0⟩, ⟨0, 0, 0, 0⟩) := by
  unfold entryAt
  rw [List.getD_eq_default _ _ hi]

theorem refreshMaxX_clear (js : List JumpPoint) (ps : List Planet) :
    refreshMaxX (js.map clearJumpMo) (ps.map clearPlanetMo) = refreshMaxX js ps := by
  unfold refreshMaxX
  rw [List.foldl_map, List.foldl_map]
  rfl

theorem refreshMaxY_clear (js : List JumpPoint) (ps : List Planet) :
    refreshMaxY (js.map clearJumpMo) (ps.map clearPlanetMo) = refreshMaxY js ps := by
  unfold refreshMaxY
  rw [List.foldl_map, List.foldl_map]
  rfl

theorem refreshResolution_clear (width height : ℚ) (js : List JumpPoint) (ps : List Planet) :
    refreshResolution width height (js.map clearJumpMo) (ps.map clearPlanetMo)
      = refreshResolution width height js ps := by
  unfold refreshResolution
  rw [refreshMaxX_clear, refreshMaxY_clear]

theorem refreshItems_clear (sw : ℚ) (js : List JumpPoint) (ps : List Planet) :
    refreshItems sw (js.map clearJumpMo) (ps.map clearPlanetMo) = refreshItems sw js ps := by
  unfold refreshItems
  rw [entries_clear, List.length_map]

theorem refreshRes_clear (width height sw : ℚ) (js : List JumpPoint) (ps : List Planet) :
    refreshRes width height sw (js.map clearJumpMo) (ps.map clearPlanetMo)
      = refreshRes width height sw js ps := by
  unfold refreshRes
  rw [entries_clear, List.length_map, refreshResolution_clear]

theorem refreshPos_clear (sw : ℚ) (js : List JumpPoint) (ps : List Planet) :
    refreshPos sw (js.map clearJumpMo) (ps.map clearPlanetMo) = refreshPos sw js ps := by
  funext i
  unfold refreshPos
  rw [entries_clear, entryAt_clear]

theorem jumpEntries_length_clear (sw : ℚ) (js : List JumpPoint) :
    (jumpEntries sw (js.map clearJumpMo)).length = (jumpEntries sw js).length := by
  rw [jumpEntries_clear, List.length_map]

theorem refreshMo_clear (width height sw : ℚ) (js : List JumpPoint) (ps : List Planet)
    (i : Nat) :
    refreshMo width height sw (js.map clearJumpMo) (ps.map clearPlanetMo) i
      = clearOffset (refreshMo width height sw js ps i) := by
  unfold refreshMo
  rw [refreshResolution_clear, refreshItems_clear, jumpEntries_length_clear, entries_clear]
  unfold scaleRadius
  simp only [entryAt_clear]
  by_cases hi : i < refreshItems sw js ps
  · simp only [hi, if_true]
    rfl
  · simp only [hi, if_false]

theorem refreshMo_beyond (width height sw : ℚ) (js : List JumpPoint) (ps : List Planet)
    (i : Nat) (hi : refreshItems sw js ps ≤ i) :
    refreshMo width height sw js ps i = ⟨0, 0, 0, 0⟩ := by
  unfold refreshMo scaleRadius
  rw [if_neg (by omega)]
  simp only []
  rw [entryAt_beyond _ _ hi]

theorem refreshLayout_clear (hypot : ℚ → ℚ → ℚ) (width height sw font_h : ℚ) (fuel : Nat)
    (js : List JumpPoint) (ps : List Planet) :
    refreshLayout hypot width height sw font_h fuel (js.map clearJumpMo) (ps.map clearPlanetMo)
      = refreshLayout hypot width height sw font_h fuel js ps := by
  unfold refreshLayout
  rw [refreshRes_clear, refreshItems_clear, refreshPos_clear]
  apply ovr_optimizeLayout_congr
  · intro i
    rw [refreshMo_clear]
    exact ⟨rfl, rfl⟩
  · intro i hi
    rw [refreshMo_clear, refreshMo_beyond _ _ _ _ _ i hi]
    rfl

theorem storeJumps_clear (mo : Nat → MapOverlayPos) (l : List JumpPoint) :
    ∀ n, ((storeJumps mo (l.map clearJumpMo) n).1.filter fun jp => jp.usable && jp.known)
        = ((storeJumps mo l n).1.filter fun jp => jp.usable && jp.known) ∧
      (storeJumps mo (l.map clearJumpMo) n).2 = (storeJumps mo l n).2 ∧
      (storeJumps mo l n).1.map clearJumpMo = l.map clearJumpMo ∧
      storeJumps mo (storeJumps mo l n).1 n = storeJumps mo l n := by
  induction l with
  | nil => intro n; exact ⟨rfl, rfl, rfl, rfl⟩
  | cons jp rest ih =>
    intro n
    by_cases hc : (jp.usable && jp.known) = true
    · have hc2 : ((clearJumpMo jp).usable && (clearJumpMo jp).known) = true := hc
      obtain ⟨i1, i2, i3, i4⟩ := ih (n + 1)
      have e1 : storeJumps mo (jp :: rest) n
          = ({ jp with mo := mo n } :: (storeJumps mo rest (n + 1)).1,
             (storeJumps mo rest (n + 1)).2) := by
        simp [storeJumps, hc]
      have e2 : storeJumps mo (clearJumpMo jp :: rest.map clearJumpMo) n
          = ({ clearJumpMo jp with mo := mo n }
              :: (storeJumps mo (rest.map clearJumpMo) (n + 1)).1,
             (storeJumps mo (rest.map clearJumpMo) (n + 1)).2) := by
        simp [storeJumps, hc2]
      have hc3 : (({ jp with mo := mo n } : JumpPoint).usable
          && ({ jp with mo := mo n } : JumpPoint).known) = true := hc
      have e3 : storeJumps mo ({ jp with mo := mo n } :: (storeJumps mo rest (n + 1)).1) n
          = ({ jp with mo := mo n } :: (storeJumps mo (storeJumps mo rest (n + 1)).1 (n + 1)).1,
             (storeJumps mo (storeJumps mo rest (n + 1)).1 (n + 1)).2) := by
        simp [storeJumps, hc3]
      rw [List.map_cons, e1, e2]
      refine ⟨?_, i2, ?_, ?_⟩
      · simp only []
        rw [List.filter_cons_of_pos (p := fun jp : JumpPoint => jp.usable && jp.known) hc3,
          List.filter_cons_of_pos (p := fun jp : JumpPoint => jp.usable && jp.known)
            (a := { clearJumpMo jp with mo := mo n }) hc, i1]
        rfl
      · simp only [List.map_cons, i3]
        rfl
      · simp only []
        rw [e3, i4]
    · have hc2 : ¬ ((clearJumpMo jp).usable && (clearJumpMo jp).known) = true := hc
      obtain ⟨i1, i2, i3, i4⟩ := ih n
      have e1 : storeJumps mo (jp :: rest) n
          = (jp :: (storeJumps mo rest n).1, (storeJumps mo rest n).2) := by
        simp [storeJumps, hc]
      have e2 : storeJumps mo (clearJumpMo jp :: rest.map clearJumpMo) n
          = (clearJumpMo jp :: (storeJumps mo (rest.map clearJumpMo) n).1,
             (storeJumps mo (rest.map clearJumpMo) n).2) := by
        simp [storeJumps, hc2]
      have e3 : storeJumps mo (jp :: (storeJumps mo rest n).1) n
          = (jp :: (storeJumps mo (storeJumps mo rest n).1 n).1,
             (storeJumps mo (storeJumps mo rest n).1 n).2) := by
        simp [storeJumps, hc]
      rw [List.map_cons, e1, e2]
      refine ⟨?_, i2, ?_, ?_⟩
      · simp only []
        rw [List.filter_cons_of_neg (p := fun jp : JumpPoint => jp.usable && jp.known) hc,
          List.filter_cons_of_neg (p := fun jp : JumpPoint => jp.usable && jp.known) hc2, i1]
      · simp only [List.map_cons, i3]
      · simp only []
        rw [e3, i4]

theorem storePlanets_clear (mo : Nat → MapOverlayPos) (l : List Planet) :
    ∀ n, ((storePlanets mo (l.map clearPlanetMo) n).filter fun p => p.known)
        = ((storePlanets mo l n).filter fun p => p.known) ∧
      (storePlanets mo l n).map clearPlanetMo = l.map clearPlanetMo ∧
      storePlanets mo (storePlanets mo l n) n = storePlanets mo l n := by
  induction l with
  | nil => intro n; exact ⟨rfl, rfl, rfl⟩
  | cons p rest ih =>
    intro n
    by_cases hc : p.known = true
    · have hc2 : (clearPlanetMo p).known = true := hc
      obtain ⟨i1, i3, i4⟩ := ih (n + 1)
      have hc3 : ({ p with mo := mo n } : Planet).known = true := hc
      have e1 : storePlanets mo (p :: rest) n
          = { p with mo := mo n } :: storePlanets mo rest (n + 1) := by
        simp [storePlanets, hc]
      have e2 : storePlanets mo (clearPlanetMo p :: rest.map clearPlanetMo) n
          = { clearPlanetMo p with mo := mo n }
              :: storePlanets mo (rest.map clearPlanetMo) (n + 1) := by
        simp [storePlanets, hc2]
      have e3 : storePlanets mo ({ p with mo := mo n } :: storePlanets mo rest (n + 1)) n
          = { p with mo := mo n } :: storePlanets mo (storePlanets mo rest (n + 1)) (n + 1) := by
        simp [storePlanets, hc]
      rw [List.map_cons, e1, e2]
      refine ⟨?_, ?_, ?_⟩
      · rw [List.filter_cons_of_pos (p := fun p : Planet => p.known) hc3,
          List.filter_cons_of_pos (p := fun p : Planet => p.known)
            (a := { clearPlanetMo p with mo := mo n }) hc, i1]
        rfl
      · simp only [List.map_cons, i3]
        rfl
      · rw [e3, i4]
    · have hc2 : ¬ (clearPlanetMo p).known = true := hc
      obtain ⟨i1, i3, i4⟩ := ih n
      have e1 : storePlanets mo (p :: rest) n = p :: storePlanets mo rest n := by
        simp [storePlanets, hc]
      have e2 : storePlanets mo (clearPlanetMo p :: rest.map clearPlanetMo) n
          = clearPlanetMo p :: storePlanets mo (rest.map clearPlanetMo) n := by
        simp [storePlanets, hc2]
      have e3 : storePlanets mo (p :: storePlanets mo rest n) n
          = p :: storePlanets mo (storePlanets mo rest n) n := by
        simp [storePlanets, hc]
      rw [List.map_cons, e1, e2]
      refine ⟨?_, ?_, ?_⟩
      · rw [List.filter_cons_of_neg (p := fun p : Planet => p.known) hc,
          List.filter_cons_of_neg (p := fun p : Planet => p.known) hc2, i1]
      · simp only [List.map_cons, i3]
      · rw [e3, i4]

theorem refreshLayout_same (hypot : ℚ → ℚ → ℚ) (width height sw font_h : ℚ) (fuel : Nat)
    (o1 o2 : Overlay)
    (hj : o1.jumps.map clearJumpMo = o2.jumps.map clearJumpMo)
    (hp : o1.planets.map clearPlanetMo = o2.planets.map clearPlanetMo) :
    refreshLayout hypot width height sw font_h fuel o1.jumps o1.planets
      = refreshLayout hypot width height sw font_h fuel o2.jumps o2.planets ∧
    refreshRes width height sw o1.jumps o1.planets
      = refreshRes width height sw o2.jumps o2.planets := by
  constructor
  · rw [← refreshLayout_clear hypot width height sw font_h fuel o1.jumps o1.planets, hj, hp,
      refreshLayout_clear]
  · rw [← refreshRes_clear width height sw o1.jumps o1.planets, hj, hp, refreshRes_clear]

theorem ovr_refresh_some (hypot : ℚ → ℚ → ℚ) (width height sw font_h : ℚ) (fuel : Nat)
    (o r : Overlay) (hopen : o.ovr_open = true)
    (h : ovr_refresh hypot width height sw font_h fuel o = some r) :
    ∃ mo, refreshLayout hypot width height sw font_h fuel o.jumps o.planets = some mo ∧
      r = { o with ovr_res := refreshRes width height sw o.jumps o.planets,
                   jumps := (storeJumps mo o.jumps 0).1,
                   planets := storePlanets mo o.planets (storeJumps mo o.jumps 0).2 } := by
  unfold ovr_refresh at h
  rw [if_neg (by rw [hopen]; simp)] at h
  cases hl : refreshLayout hypot width height sw font_h fuel o.jumps o.planets with
  | none => rw [hl] at h; cases h
  | some mo =>
    rw [hl] at h
    simp only [Option.some.injEq] at h
    exact ⟨mo, rfl, h.symm⟩

/-- C22: for two open overlays over the same objects (equal up to the layout
records of the objects, the resolution and `ovr_dt`), `ovr_refresh` returns for
both or for neither, and when it returns, the resolution and every collected
object (a usable and known jump point or a known planet), with the radius,
label offset and text width written into its layout record, are the same in
both results.  A second `ovr_refresh` on the result of a first one leaves it
unchanged.  `ovr_refresh` returns when the computed resolution is positive and
the collected objects have pairwise distinct positions. -/
theorem refresh_depends_on_objects (hypot : ℚ → ℚ → ℚ) (width height sw font_h : ℚ)
    (o1 o2 : Overlay) (h1 : o1.ovr_open = true) (h2 : o2.ovr_open = true)
    (hj : o1.jumps.map clearJumpMo = o2.jumps.map clearJumpMo)
    (hp : o1.planets.map clearPlanetMo = o2.planets.map clearPlanetMo) :
    (∀ fuel,
      (ovr_refresh hypot width height sw font_h fuel o1 = none ↔
        ovr_refresh hypot width height sw font_h fuel o2 = none) ∧
      ∀ r1 r2, ovr_refresh hypot width height sw font_h fuel o1 = some r1 →
        ovr_refresh hypot width height sw font_h fuel o2 = some r2 →
        r1.ovr_res = r2.ovr_res ∧
        (r1.jumps.filter fun jp => jp.usable && jp.known)
          = (r2.jumps.filter fun jp => jp.usable && jp.known) ∧
        (r1.planets.filter fun p => p.known) = (r2.planets.filter fun p => p.known)) ∧
    (∀ fuel r1, ovr_refresh hypot width height sw font_h fuel o1 = some r1 →
      ovr_refresh hypot width height sw font_h fuel r1 = some r1) ∧
    (0 < refreshRes width height sw o1.jumps o1.planets →
      (∀ i j, i < j → j < refreshItems sw o1.jumps o1.planets →
        0 < hypot ((refreshPos sw o1.jumps o1.planets i).x - (refreshPos sw o1.jumps o1.planets j).x)
              ((refreshPos sw o1.jumps o1.planets i).y - (refreshPos sw o1.jumps o1.planets j).y)) →
      ∃ fuel r1, ovr_refresh hypot width height sw font_h fuel o1 = some r1) := by
  refine ⟨fun fuel => ?_, fun fuel r1 hr => ?_, fun hres hpos => ?_⟩
  · obtain ⟨hl, hr⟩ := refreshLayout_same hypot width height sw font_h fuel o1 o2 hj hp
    constructor
    · unfold ovr_refresh
      rw [if_neg (by rw [h1]; simp), if_neg (by rw [h2]; simp), hl]
      cases refreshLayout hypot width height sw font_h fuel o2.jumps o2.planets with
      | none => simp
      | some mo => simp
    · intro r1 r2 e1 e2
      obtain ⟨m1, hm1, rfl⟩ := ovr_refresh_some hypot width height sw font_h fuel o1 r1 h1 e1
      obtain ⟨m2, hm2, rfl⟩ := ovr_refresh_some hypot width height sw font_h fuel o2 r2 h2 e2
      rw [hl, hm2] at hm1
      have hmm : m2 = m1 := Option.some.inj hm1
      subst hmm
      refine ⟨hr, ?_, ?_⟩
      · simp only []
        rw [← (storeJumps_clear m2 o1.jumps 0).1, hj, (storeJumps_clear m2 o2.jumps 0).1]
      · simp only []
        rw [← (storeJumps_clear m2 o1.jumps 0).2.1, ← (storeJumps_clear m2 o2.jumps 0).2.1, hj,
          ← (storePlanets_clear m2 o1.planets _).1, hp, (storePlanets_clear m2 o2.planets _).1]
  · obtain ⟨mo, hmo, rfl⟩ := ovr_refresh_some hypot width height sw font_h fuel o1 r1 h1 hr
    obtain ⟨_, hj2, hj3⟩ := (storeJumps_clear mo o1.jumps 0).2
    obtain ⟨_, hp2, hp3⟩ := storePlanets_clear mo o1.planets (storeJumps mo o1.jumps 0).2
    obtain ⟨hl, hres⟩ := refreshLayout_same hypot width height sw font_h fuel
      { o1 with ovr_res := refreshRes width height sw o1.jumps o1.planets,
                jumps := (storeJumps mo o1.jumps 0).1,
                planets := storePlanets mo o1.planets (storeJumps mo o1.jumps 0).2 } o1 hj2 hp2
    simp only [] at hl hres
    unfold ovr_refresh
    simp only []
    rw [if_neg (by rw [h1]; simp), hl, hmo]
    simp only []
    rw [hres, hj3, hp3]
  · obtain ⟨fuel, mo, hmo⟩ := ovr_optimizeLayout_returns hypot
      (refreshRes width height sw o1.jumps o1.planets) font_h
      (refreshItems sw o1.jumps o1.planets) (refreshPos sw o1.jumps o1.planets)
      (refreshMo width height sw o1.jumps o1.planets) hres
      (fun i hi => le_trans (by norm_num)
        (refreshMo_radius_ge width height sw o1.jumps o1.planets i hi)) hpos
    have hl : refreshLayout hypot width height sw font_h fuel o1.jumps o1.planets = some mo := hmo
    refine ⟨fuel, { o1 with ovr_res := refreshRes width height sw o1.jumps o1.planets,
                            jumps := (storeJumps mo o1.jumps 0).1,
                            planets := storePlanets mo o1.planets (storeJumps mo o1.jumps 0).2 }, ?_⟩
    unfold ovr_refresh
    rw [if_neg (by rw [h1]; simp), hl]

/-- The witness of C22: `openOverlay` and `staleOverlay` hold the same objects
with different layout records and resolutions; `ovr_refresh` returns for both
with the same resolution and the same known planets, and a second
`ovr_refresh` leaves the result of the first unchanged. -/
theorem refresh_depends_on_objects_witness :
    ∃ fuel r1 r2, ovr_refresh hypotAxis 800 600 32 10 fuel openOverlay = some r1 ∧
      ovr_refresh hypotAxis 800 600 32 10 fuel staleOverlay = some r2 ∧
      r1.ovr_res = r2.ovr_res ∧
      (r1.planets.filter fun p => p.known) = (r2.planets.filter fun p => p.known) ∧
      ovr_refresh hypotAxis 800 600 32 10 fuel r1 = some r1 := by
  have h := refresh_depends_on_objects hypotAxis 800 600 32 10 openOverlay staleOverlay rfl rfl
    (by simp [openOverlay, staleOverlay, fadeJumps, clearJumpMo])
    (by simp [openOverlay, staleOverlay, fadePlanets, clearPlanetMo])
  have hitems : refreshItems 32 openOverlay.jumps openOverlay.planets = 2 := by
    simp [refreshItems, jumpEntries, planetEntries, openOverlay, fadeJumps, fadePlanets]
  have hres : refreshRes 800 600 32 openOverlay.jumps openOverlay.planets = 3 / 5 := by
    norm_num [refreshRes, refreshResolution, refreshMaxX, refreshMaxY, jumpEntries,
      planetEntries, openOverlay, fadeJumps, fadePlanets, MAX, ABS]
  obtain ⟨fuel, r1, hr1⟩ := h.2.2 (by rw [hres]; norm_num) (fun i j hij hj => by
    rw [hitems] at hj
    have hi0 : i = 0 := by omega
    have hj1 : j = 1 := by omega
    subst hi0; subst hj1
    norm_num [refreshPos, entryAt, jumpEntries, planetEntries, openOverlay, fadeJumps,
      fadePlanets, hypotAxis])
  cases hr2 : ovr_refresh hypotAxis 800 600 32 10 fuel staleOverlay with
  | none =>
    rw [((h.1 fuel).1).mpr hr2] at hr1
    cases hr1
  | some r2 =>
    obtain ⟨e1, _, e3⟩ := (h.1 fuel).2 r1 r2 hr1 hr2
    exact ⟨fuel, r1, r2, hr1, hr2, e1, e3, h.2.1 fuel r1 hr1⟩

/-! ## The shrink factor and the scan of the conflict list: C23, C24 -/

theorem fourInit_fits :
    fourInit.fits
      = [{ i := 0, j := 1, dist := FVal.fin 3 }, { i := 2, j := 3, dist := FVal.fin 3 }] := by
  norm_num [fourInit, shrinkInit, initFits, fitsOfRow, List.range_succ, List.range', pairDist,
    FVal.div, FVal.lt, FVal.add, fourPos, hypotAxis, List.filterMap_cons]

theorem fourInit_radius (i : Nat) : fourInit.radius i = FVal.fin 2 := rfl

theorem scanFits_skip (radius : Nat → FVal) (c d : MapOverlayRadiusConstraint)
    (rest : List MapOverlayRadiusConstraint) (sf : FVal) (ms : Nat → Bool)
    (h : FVal.ge (fitRatio radius c) (FVal.fin 1) = true) :
    (scanFits radius (c :: d :: rest) sf ms).fits = d :: (scanFits radius rest sf ms).fits := by
  simp [scanFits, h]

/-- C24 (the claim fails when an entry of the conflict list is erased): four
items at x = 0, 3, 100, 103 with radius 2 and resolution 1.  The first round
keeps both pairs (0, 1) and (2, 3) and multiplies all four radii by
`3/4 - FLT_EPSILON`.  At the start of the second round both pairs have a ratio
`>= 1`; the round erases the pair (0, 1), steps over the pair (2, 3) without
examining it, and ends with the pair (2, 3) still in the list. -/
theorem scan_skips_after_erase :
    (shrinkRound 4 fourInit).fits
      = [{ i := 0, j := 1, dist := FVal.fin 3 }, { i := 2, j := 3, dist := FVal.fin 3 }] ∧
    FVal.ge (fitRatio (shrinkRound 4 fourInit).radius { i := 0, j := 1, dist := FVal.fin 3 })
      (FVal.fin 1) = true ∧
    FVal.ge (fitRatio (shrinkRound 4 fourInit).radius { i := 2, j := 3, dist := FVal.fin 3 })
      (FVal.fin 1) = true ∧
    (shrinkRound 4 (shrinkRound 4 fourInit)).fits
      = [{ i := 2, j := 3, dist := FVal.fin 3 }] := by
  have hr1 : fitRatio fourInit.radius { i := 0, j := 1, dist := FVal.fin 3 }
      = FVal.fin (3 / 4) := by
    norm_num [fitRatio, fourInit_radius, FVal.add, FVal.div]
  have hr2 : fitRatio fourInit.radius { i := 2, j := 3, dist := FVal.fin 3 }
      = FVal.fin (3 / 4) := by
    norm_num [fitRatio, fourInit_radius, FVal.add, FVal.div]
  have hsf : (scanFits fourInit.radius fourInit.fits (FVal.fin 0)
      (fun _ => false)).shrink_factor = FVal.fin (3 / 4 - FLT_EPSILON) := by
    rw [fourInit_fits]
    norm_num [scanFits, hr1, hr2, FVal.ge, FVal.le, FVal.MAX, FVal.gt, FVal.lt, FVal.sub,
      FVal.neg, FVal.add, FLT_EPSILON]
  have hms : ∀ k, k < 4 → (scanFits fourInit.radius fourInit.fits (FVal.fin 0)
      (fun _ => false)).must_shrink k = true := by
    intro k hk
    rw [fourInit_fits]
    have hk4 : k = 0 ∨ k = 1 ∨ k = 2 ∨ k = 3 := by omega
    rcases hk4 with rfl | rfl | rfl | rfl <;>
      norm_num [scanFits, hr1, hr2, FVal.ge, FVal.le]
  have hrad : ∀ k, k < 4 →
      (shrinkRound 4 fourInit).radius k = FVal.fin (2 * (3 / 4 - FLT_EPSILON)) := by
    intro k hk
    simp only [shrinkRound, hk, hms k hk, and_self, if_true, hsf, fourInit_radius, FVal.mul]
  have hfits : (shrinkRound 4 fourInit).fits
      = [{ i := 0, j := 1, dist := FVal.fin 3 }, { i := 2, j := 3, dist := FVal.fin 3 }] := by
    simp only [shrinkRound]
    rw [fourInit_fits]
    norm_num [scanFits, hr1, hr2, FVal.ge, FVal.le]
  have hge1 : FVal.ge (fitRatio (shrinkRound 4 fourInit).radius
      { i := 0, j := 1, dist := FVal.fin 3 }) (FVal.fin 1) = true := by
    simp only [fitRatio, hrad 0 (by norm_num), hrad 1 (by norm_num), FVal.add]
    rw [FVal.ratio_ge_iff (by norm_num) (by norm_num [FLT_EPSILON])]
    norm_num [FLT_EPSILON]
  have hge2 : FVal.ge (fitRatio (shrinkRound 4 fourInit).radius
      { i := 2, j := 3, dist := FVal.fin 3 }) (FVal.fin 1) = true := by
    simp only [fitRatio, hrad 2 (by norm_num), hrad 3 (by norm_num), FVal.add]
    rw [FVal.ratio_ge_iff (by norm_num) (by norm_num [FLT_EPSILON])]
    norm_num [FLT_EPSILON]
  refine ⟨hfits, hge1, hge2, ?_⟩
  have h2 : (shrinkRound 4 (shrinkRound 4 fourInit)).fits
      = (scanFits (shrinkRound 4 fourInit).radius (shrinkRound 4 fourInit).fits (FVal.fin 0)
          (fun _ => false)).fits := rfl
  rw [h2, hfits, scanFits_skip _ _ _ _ _ _ hge1]
  simp [scanFits]

/-! ## The axes of `force_collision`: C25, C26 -/

/-- C25, counterexample: the box A = (0, 0, 10, 10) and the box B = (8, 0, 10, 10)
do not overlap on the x axis beyond the margin (`x+w < mx+5`), yet the x
component of the push is -2. -/
theorem force_collision_axis_counterexample :
    ((0 : ℚ) + 10 < 8 + ovr_text_pixbuf) ∧
    (force_collision 0 0 0 0 10 10 8 0 10 10).1 = -2 := by
  norm_num [force_collision, ovr_text_pixbuf, MIN, MAX]

/-- C25, amended: whatever the accumulators hold, the x component of the result
of `force_collision` is 0 when the boxes are not in contact on the y axis
(`y+h < my+5` or `y+5 > my+mh`), and the y component is 0 when they are not in
contact on the x axis (`x+w < mx+5` or `x+5 > mx+mw`). -/
theorem force_collision_no_contact (ox oy x y w h mx my mw mh : ℚ) :
    ((y + h < my + 5 ∨ y + 5 > my + mh) →
      (force_collision ox oy x y w h mx my mw mh).1 = 0) ∧
    ((x + w < mx + 5 ∨ x + 5 > mx + mw) →
      (force_collision ox oy x y w h mx my mw mh).2 = 0) := by
  constructor
  · intro hc
    simp only [force_collision, ovr_text_pixbuf]
    rw [if_pos hc]
  · intro hc
    simp only [force_collision, ovr_text_pixbuf]
    rw [if_pos hc]

/-- The witness of C25: the boxes (0, 0, 10, 10) and (8, 0, 10, 10) are not in
contact on the x axis, and the y component of the push is 0. -/
theorem force_collision_no_contact_witness :
    ((0 : ℚ) + 10 < 8 + 5) ∧ (force_collision 0 0 0 0 10 10 8 0 10 10).2 = 0 :=
  ⟨by norm_num,
   (force_collision_no_contact 0 0 0 0 10 10 8 0 10 10).2 (Or.inl (by norm_num))⟩

theorem MIN_eq_min (x y : ℚ) : MIN x y = min x y := by
  unfold MIN
  split_ifs with h
  · exact (min_eq_right (le_of_lt h)).symm
  · exact (min_eq_left (not_lt.mp h)).symm

/-- The component that `force_collision` computes along one axis from a zeroed
accumulator, for the extent `[a, a+l]` of A and the extent `[b, b+m]` of B. -/
theorem axis_push_spec (a l b m : ℚ) (hl : 0 ≤ l) (hm : 0 ≤ m) (c : ℚ)
    (hc : c = if a + (1 / 2) * l < b + (1 / 2) * m then MIN 0 (0 + (b - (a + l)))
              else MAX 0 (0 + ((b + m) - a))) :
    (a + l / 2 < b + m / 2 → c = min 0 (b - (a + l)) ∧ c ≤ 0) ∧
    (¬ a + l / 2 < b + m / 2 → c = max 0 ((b + m) - a) ∧ 0 ≤ c) ∧
    (b < a + l → a < b + m → a + l / 2 < b + m / 2 → c = b - (a + l)) ∧
    (b < a + l → a < b + m → ¬ a + l / 2 < b + m / 2 → c = (b + m) - a) ∧
    ((a + l ≤ b ∨ b + m ≤ a) → c = 0) ∧
    (a + c + l ≤ b ∨ b + m ≤ a + c) ∧
    (∀ t, (a + t + l ≤ b ∨ b + m ≤ a + t) → |c| ≤ |t|) := by
  rw [MIN_eq_min, MAX_eq_max, zero_add, zero_add] at hc
  have e1 : a + (1 / 2) * l = a + l / 2 := by ring
  have e2 : b + (1 / 2) * m = b + m / 2 := by ring
  rw [e1, e2] at hc
  by_cases hcen : a + l / 2 < b + m / 2
  · rw [if_pos hcen] at hc
    have hc0 : c ≤ 0 := by rw [hc]; exact min_le_left _ _
    refine ⟨fun _ => ⟨hc, hc0⟩, fun h => absurd hcen h, ?_, fun _ _ h => absurd hcen h, ?_, ?_, ?_⟩
    · intro h1 _ _
      rw [hc]; exact min_eq_right (by linarith)
    · rintro (h | h)
      · rw [hc]; exact min_eq_left (by linarith)
      · exfalso; linarith
    · left
      rcases le_total 0 (b - (a + l)) with h | h
      · rw [hc, min_eq_left h]; linarith
      · rw [hc, min_eq_right h]; linarith
    · intro t ht
      rcases le_total 0 (b - (a + l)) with h | h
      · rw [hc, min_eq_left h, abs_zero]; exact abs_nonneg t
      · rw [hc, min_eq_right h, abs_of_nonpos h]
        rcases ht with ht | ht
        · have : t ≤ 0 := by linarith
          rw [abs_of_nonpos this]; linarith
        · have : 0 ≤ t := by linarith
          rw [abs_of_nonneg this]; linarith
  · rw [if_neg hcen] at hc
    have hc0 : 0 ≤ c := by rw [hc]; exact le_max_left _ _
    have hcen2 := not_lt.mp hcen
    refine ⟨fun h => absurd h hcen, fun _ => ⟨hc, hc0⟩, fun _ _ h => absurd h hcen, ?_, ?_, ?_, ?_⟩
    · intro _ h2 _
      rw [hc]; exact max_eq_right (by linarith)
    · rintro (h | h)
      · rw [hc]; exact max_eq_left (by linarith)
      · rw [hc]; exact max_eq_left (by linarith)
    · right
      rcases le_total (b + m - a) 0 with h | h
      · rw [hc, max_eq_left h]; linarith
      · rw [hc, max_eq_right h]; linarith
    · intro t ht
      rcases le_total (b + m - a) 0 with h | h
      · rw [hc, max_eq_left h, abs_zero]; exact abs_nonneg t
      · rw [hc, max_eq_right h, abs_of_nonneg h]
        rcases ht with ht | ht
        · have : t ≤ 0 := by linarith
          rw [abs_of_nonpos this]; linarith
        · have : 0 ≤ t := by linarith
          rw [abs_of_nonneg this]; linarith

/-- C26: for boxes A = (x, y, w, h) and B = (mx, my, mw, mh) with non-negative
sizes and zeroed accumulators, when the boxes are in contact on the y axis the
x component `c` of `force_collision` is `min 0 (mx-(x+w))`, hence not positive,
when the centre of A is left of the centre of B, and `max 0 ((mx+mw)-x)`, hence
not negative, otherwise; it is `mx-(x+w)` resp. `(mx+mw)-x` when the x extents
overlap and 0 when they are disjoint; the x extents of A moved by `c` and of B
are disjoint, and every translation `t` with that property has `|c| ≤ |t|`.
The same holds for the y component when the boxes are in contact on the x
axis. -/
theorem force_collision_min_translation (x y w h mx my mw mh : ℚ)
    (hw : 0 ≤ w) (hh : 0 ≤ h) (hmw : 0 ≤ mw) (hmh : 0 ≤ mh) :
    (¬ (y + h < my + 5 ∨ y + 5 > my + mh) →
      (x + w / 2 < mx + mw / 2 →
        (force_collision 0 0 x y w h mx my mw mh).1 = min 0 (mx - (x + w)) ∧
        (force_collision 0 0 x y w h mx my mw mh).1 ≤ 0) ∧
      (¬ x + w / 2 < mx + mw / 2 →
        (force_collision 0 0 x y w h mx my mw mh).1 = max 0 ((mx + mw) - x) ∧
        0 ≤ (force_collision 0 0 x y w h mx my mw mh).1) ∧
      (mx < x + w → x < mx + mw → x + w / 2 < mx + mw / 2 →
        (force_collision 0 0 x y w h mx my mw mh).1 = mx - (x + w)) ∧
      (mx < x + w → x < mx + mw → ¬ x + w / 2 < mx + mw / 2 →
        (force_collision 0 0 x y w h mx my mw mh).1 = (mx + mw) - x) ∧
      ((x + w ≤ mx ∨ mx + mw ≤ x) → (force_collision 0 0 x y w h mx my mw mh).1 = 0) ∧
      (x + (force_collision 0 0 x y w h mx my mw mh).1 + w ≤ mx ∨
        mx + mw ≤ x + (force_collision 0 0 x y w h mx my mw mh).1) ∧
      (∀ t, (x + t + w ≤ mx ∨ mx + mw ≤ x + t) →
        |(force_collision 0 0 x y w h mx my mw mh).1| ≤ |t|)) ∧
    (¬ (x + w < mx + 5 ∨ x + 5 > mx + mw) →
      (y + h / 2 < my + mh / 2 →
        (force_collision 0 0 x y w h mx my mw mh).2 = min 0 (my - (y + h)) ∧
        (force_collision 0 0 x y w h mx my mw mh).2 ≤ 0) ∧
      (¬ y + h / 2 < my + mh / 2 →
        (force_collision 0 0 x y w h mx my mw mh).2 = max 0 ((my + mh) - y) ∧
        0 ≤ (force_collision 0 0 x y w h mx my mw mh).2) ∧
      (my < y + h → y < my + mh → y + h / 2 < my + mh / 2 →
        (force_collision 0 0 x y w h mx my mw mh).2 = my - (y + h)) ∧
      (my < y + h → y < my + mh → ¬ y + h / 2 < my + mh / 2 →
        (force_collision 0 0 x y w h mx my mw mh).2 = (my + mh) - y) ∧
      ((y + h ≤ my ∨ my + mh ≤ y) → (force_collision 0 0 x y w h mx my mw mh).2 = 0) ∧
      (y + (force_collision 0 0 x y w h mx my mw mh).2 + h ≤ my ∨
        my + mh ≤ y + (force_collision 0 0 x y w h mx my mw mh).2) ∧
      (∀ t, (y + t + h ≤ my ∨ my + mh ≤ y + t) →
        |(force_collision 0 0 x y w h mx my mw mh).2| ≤ |t|)) := by
  constructor
  · intro hc
    apply axis_push_spec x w mx mw hw hmw
    simp only [force_collision, ovr_text_pixbuf]
    rw [if_neg hc]
  · intro hc
    apply axis_push_spec y h my mh hh hmh
    simp only [force_collision, ovr_text_pixbuf]
    rw [if_neg hc]

/-- The witness of C26: the boxes (0, 0, 10, 10) and (8, 0, 10, 10) are in contact
on the y axis and the centre of the first is left of the centre of the second;
the x component is `min 0 (8 - 10)`. -/
theorem force_collision_min_translation_witness :
    (force_collision 0 0 0 0 10 10 8 0 10 10).1 = min 0 (8 - (0 + 10)) ∧
    (force_collision 0 0 0 0 10 10 8 0 10 10).1 ≤ 0 :=
  ((force_collision_min_translation 0 0 10 10 8 0 10 10 (by norm_num) (by norm_num)
    (by norm_num) (by norm_num)).1 (by norm_num)).1 (by norm_num)

/-! ## The force accumulators of the relaxation: C27 -/

theorem foldl_pairs (G : Nat → ℚ) (n : Nat) :
    (List.range (2 * n)).foldl (fun s t => s + G t) 0
      = ((List.range n).map fun j => G (2 * j) + G (2 * j + 1)).sum := by
  induction n with
  | zero => simp
  | succ n ih =>
    have h2 : 2 * (n + 1) = (2 * n + 1) + 1 := by ring
    rw [h2, List.range_succ, List.range_succ, List.foldl_append, List.foldl_append, ih]
    simp only [List.foldl_cons, List.foldl_nil]
    rw [List.range_succ, List.map_append, List.sum_append]
    simp only [List.map_cons, List.map_nil, List.sum_cons, List.sum_nil, add_zero]
    ring

theorem rowSum_pairs (items : Nat) (F : Nat → ℚ) (i : Nat) :
    rowSum items F i
      = ((List.range items).map fun j =>
          F (2 * items * i + 2 * j) + F (2 * items * i + (2 * j + 1))).sum := by
  unfold rowSum
  exact foldl_pairs (fun t => F (2 * items * i + t)) items

section Entries

variable (ovr_res font_h : ℚ) (items : Nat) (pos : Nat → Vector2d)
  (mo : Nat → MapOverlayPos) (self : Nat) (x y w h : ℚ) (offx offy offdx offdy : Nat → ℚ)

theorem uzawaItem_entry_other (F : (Nat → ℚ) × (Nat → ℚ)) (j idx : Nat)
    (h1 : idx ≠ 2 * items * self + 2 * j + 1) (h2 : idx ≠ 2 * items * self + 2 * j) :
    (uzawaItem ovr_res font_h items pos mo self x y w h offx offy offdx offdy F j).1 idx
        = F.1 idx ∧
    (uzawaItem ovr_res font_h items pos mo self x y w h offx offy offdx offdy F j).2 idx
        = F.2 idx := by
  unfold uzawaItem
  by_cases hj : j = self
  · simp only [hj, if_true]
    rw [hj] at h1
    exact ⟨Function.update_noteq h1 _ _, Function.update_noteq h1 _ _⟩
  · simp only [hj, if_false]
    exact ⟨by rw [Function.update_noteq h2, Function.update_noteq h1],
      by rw [Function.update_noteq h2, Function.update_noteq h1]⟩

theorem uzawaItem_entry_foot (F : (Nat → ℚ) × (Nat → ℚ)) (j : Nat) :
    ((uzawaItem ovr_res font_h items pos mo self x y w h offx offy offdx offdy F j).1
        (2 * items * self + 2 * j + 1),
     (uzawaItem ovr_res font_h items pos mo self x y w h offx offy offdx offdy F j).2
        (2 * items * self + 2 * j + 1))
      = footprintAcc ovr_res pos mo (F.1 (2 * items * self + 2 * j + 1))
          (F.2 (2 * items * self + 2 * j + 1)) x y w h j := by
  have hne : 2 * items * self + 2 * j + 1 ≠ 2 * items * self + 2 * j := by omega
  unfold uzawaItem footprintAcc
  by_cases hj : j = self
  · simp only [hj, if_true, Function.update_same]
  · simp only [hj, if_false]
    rw [Function.update_noteq hne, Function.update_noteq hne, Function.update_same,
      Function.update_same]

theorem uzawaItem_entry_label (F : (Nat → ℚ) × (Nat → ℚ)) (j : Nat) (hj : j ≠ self) :
    ((uzawaItem ovr_res font_h items pos mo self x y w h offx offy offdx offdy F j).1
        (2 * items * self + 2 * j),
     (uzawaItem ovr_res font_h items pos mo self x y w h offx offy offdx offdy F j).2
        (2 * items * self + 2 * j))
      = labelAcc ovr_res font_h pos mo offx offy offdx offdy (F.1 (2 * items * self + 2 * j))
          (F.2 (2 * items * self + 2 * j)) x y w h j := by
  have hne : 2 * items * self + 2 * j ≠ 2 * items * self + 2 * j + 1 := by omega
  unfold uzawaItem labelAcc
  simp only [hj, if_false, Function.update_same]
  rw [Function.update_noteq hne, Function.update_noteq hne]

theorem uzawaItem_entry_self (F : (Nat → ℚ) × (Nat → ℚ)) :
    (uzawaItem ovr_res font_h items pos mo self x y w h offx offy offdx offdy F self).1
        (2 * items * self + 2 * self) = F.1 (2 * items * self + 2 * self) ∧
    (uzawaItem ovr_res font_h items pos mo self x y w h offx offy offdx offdy F self).2
        (2 * items * self + 2 * self) = F.2 (2 * items * self + 2 * self) := by
  have hne : 2 * items * self + 2 * self ≠ 2 * items * self + 2 * self + 1 := by omega
  unfold uzawaItem
  simp only [if_true]
  exact ⟨Function.update_noteq hne _ _, Function.update_noteq hne _ _⟩

theorem uzawa_entries_skip (j : Nat) :
    ∀ (js : List Nat) (F : (Nat → ℚ) × (Nat → ℚ)), j ∉ js →
      ∀ idx, (idx = 2 * items * self + 2 * j + 1 ∨ idx = 2 * items * self + 2 * j) →
      (js.foldl (uzawaItem ovr_res font_h items pos mo self x y w h offx offy offdx offdy) F).1
          idx = F.1 idx ∧
      (js.foldl (uzawaItem ovr_res font_h items pos mo self x y w h offx offy offdx offdy) F).2
          idx = F.2 idx := by
  intro js
  induction js with
  | nil => intro F _ idx _; exact ⟨rfl, rfl⟩
  | cons a rest ih =>
    intro F hj idx hidx
    have ha : j ≠ a := fun e => hj (e ▸ List.mem_cons_self _ _)
    have hrest : j ∉ rest := fun e => hj (List.mem_cons_of_mem _ e)
    rw [List.foldl_cons]
    obtain ⟨e1, e2⟩ := ih (uzawaItem ovr_res font_h items pos mo self x y w h offx offy offdx
      offdy F a) hrest idx hidx
    have hs := uzawaItem_entry_other ovr_res font_h items pos mo self x y w h offx offy offdx
      offdy F a idx (by rcases hidx with e | e <;> omega) (by rcases hidx with e | e <;> omega)
    exact ⟨e1.trans hs.1, e2.trans hs.2⟩

theorem uzawa_entries (j : Nat) :
    ∀ (js : List Nat) (F : (Nat → ℚ) × (Nat → ℚ)), js.Nodup → j ∈ js →
      ((js.foldl (uzawaItem ovr_res font_h items pos mo self x y w h offx offy offdx offdy) F).1
          (2 * items * self + 2 * j + 1),
       (js.foldl (uzawaItem ovr_res font_h items pos mo self x y w h offx offy offdx offdy) F).2
          (2 * items * self + 2 * j + 1))
        = footprintAcc ovr_res pos mo (F.1 (2 * items * self + 2 * j + 1))
            (F.2 (2 * items * self + 2 * j + 1)) x y w h j ∧
      (j ≠ self →
        ((js.foldl (uzawaItem ovr_res font_h items pos mo self x y w h offx offy offdx offdy)
            F).1 (2 * items * self + 2 * j),
         (js.foldl (uzawaItem ovr_res font_h items pos mo self x y w h offx offy offdx offdy)
            F).2 (2 * items * self + 2 * j))
          = labelAcc ovr_res font_h pos mo offx offy offdx offdy
              (F.1 (2 * items * self + 2 * j)) (F.2 (2 * items * self + 2 * j)) x y w h j) ∧
      (j = self →
        (js.foldl (uzawaItem ovr_res font_h items pos mo self x y w h offx offy offdx offdy)
            F).1 (2 * items * self + 2 * j) = F.1 (2 * items * self + 2 * j) ∧
        (js.foldl (uzawaItem ovr_res font_h items pos mo self x y w h offx offy offdx offdy)
            F).2 (2 * items * self + 2 * j) = F.2 (2 * items * self + 2 * j)) := by
  intro js
  induction js with
  | nil => intro F _ hj; simp at hj
  | cons a rest ih =>
    intro F hnd hj
    have hnd2 := List.nodup_cons.mp hnd
    rw [List.foldl_cons]
    rcases List.mem_cons.mp hj with rfl | hjr
    · have hk := uzawa_entries_skip ovr_res font_h items pos mo self x y w h offx offy offdx
        offdy j rest (uzawaItem ovr_res font_h items pos mo self x y w h offx offy offdx
          offdy F j) hnd2.1
      obtain ⟨a1, a2⟩ := hk (2 * items * self + 2 * j + 1) (Or.inl rfl)
      obtain ⟨b1, b2⟩ := hk (2 * items * self + 2 * j) (Or.inr rfl)
      refine ⟨?_, fun hne => ?_, fun he => ?_⟩
      · rw [a1, a2]
        exact uzawaItem_entry_foot ovr_res font_h items pos mo self x y w h offx offy offdx
          offdy F j
      · rw [b1, b2]
        exact uzawaItem_entry_label ovr_res font_h items pos mo self x y w h offx offy offdx
          offdy F j hne
      · rw [b1, b2]
        subst he
        exact uzawaItem_entry_self ovr_res font_h items pos mo j x y w h offx offy offdx
          offdy F
    · have hja : j ≠ a := fun e => hnd2.1 (e ▸ hjr)
      obtain ⟨i1, i2, i3⟩ := ih (uzawaItem ovr_res font_h items pos mo self x y w h offx offy
        offdx offdy F a) hnd2.2 hjr
      have ha := uzawaItem_entry_other ovr_res font_h items pos mo self x y w h offx offy offdx
        offdy F a (2 * items * self + 2 * j + 1) (by omega) (by omega)
      have hb := uzawaItem_entry_other ovr_res font_h items pos mo self x y w h offx offy offdx
        offdy F a (2 * items * self + 2 * j) (by omega) (by omega)
      refine ⟨?_, fun hne => ?_, fun he => ?_⟩
      · rw [i1, ha.1, ha.2]
      · rw [i2 hne, hb.1, hb.2]
      · rw [(i3 he).1, (i3 he).2, hb.1, hb.2]
        exact ⟨rfl, rfl⟩

end Entries

theorem stack_off0 (i : Nat) :
    off_0x 1 10 2 stackPos stackMo i = 91 / 10 ∧ off_0y 1 10 2 stackPos stackMo i = -5 := by
  have hval : candVal 1 10 2 stackPos stackMo i 0 = 0 := by
    by_cases hi : i = 0
    · subst hi
      norm_num [candVal, footprintForce, force_collision, candTx, candTy, stackPos, stackMo,
        ovr_text_pixbuf, List.range_succ, MIN, MAX, ABS]
    · norm_num [candVal, footprintForce, force_collision, candTx, candTy, stackPos, stackMo,
        ovr_text_pixbuf, List.range_succ, MIN, MAX, ABS, hi]
  have hsel : selectPlacement 1 10 2 stackPos stackMo i
      = { bx := 91 / 10, by_ := -5, best := some 0 } := by
    unfold selectPlacement
    rw [scanCandidates]
    simp only [hval, true_or, if_true]
    norm_num [candTx, candTy, ovr_text_pixbuf, stackMo]
  constructor
  · unfold off_0x; rw [hsel]
  · unfold off_0y; rw [hsel]

theorem stack_o0x : off_0x 1 10 2 stackPos stackMo = fun _ => 91 / 10 :=
  funext fun i => (stack_off0 i).1

theorem stack_o0y : off_0y 1 10 2 stackPos stackMo = fun _ => -5 :=
  funext fun i => (stack_off0 i).2

set_option maxHeartbeats 4000000 in
theorem stack_sweep_val :
    (sweep 1 10 2 stackPos stackMo (fun _ => 91 / 10) (fun _ => -5) relaxInit).2
      = 273 / 200 := by
  norm_num [sweep, sweepWith, sweepItem, commitOffsets, itemNewX, itemForces,
    ovr_refresh_uzawa_overlap, uzawaItem, rowSum, relaxInit,
    force_collision, stackPos, stackMo, ovr_text_pixbuf, List.range_succ, MIN, MAX, kx, ky,
    Function.update, ABS]

set_option maxHeartbeats 4000000 in
theorem stack_sweep_spec :
    (specPushSum 1 10 2 stackPos stackMo (fun _ => 91 / 10) (fun _ => -5)
      (sweep 1 10 2 stackPos stackMo (fun _ => 91 / 10) (fun _ => -5) relaxInit).1 0).1
      = 40 := by
  norm_num [specPushSum, footprintForce, labelForce, sweep, sweepWith, sweepItem,
    commitOffsets, itemNewX, itemForces,
    ovr_refresh_uzawa_overlap, uzawaItem, rowSum, relaxInit,
    force_collision, stackPos, stackMo, ovr_text_pixbuf, List.range_succ, MIN, MAX, kx, ky,
    Function.update]

set_option maxHeartbeats 4000000 in
theorem stack_sweep_code :
    (sweepItem 1 10 2 stackPos stackMo (fun _ => 91 / 10) (fun _ => -5)
      ((sweep 1 10 2 stackPos stackMo (fun _ => 91 / 10) (fun _ => -5) relaxInit).1, 0)
      0).1.off_buffx 0 = 6 / 5 := by
  norm_num [sweep, sweepWith, sweepItem, commitOffsets, itemNewX, itemForces,
    ovr_refresh_uzawa_overlap, uzawaItem, rowSum, relaxInit,
    force_collision, stackPos, stackMo, ovr_text_pixbuf, List.range_succ, MIN, MAX, kx, ky,
    Function.update]

/-- C27, counterexample: two items at (0, 0) and (0, 3) with radius 4, text
width 30, font height 10 and resolution 1.  The first sweep ends with
`val = 273/200 > eps_con`, so a second sweep runs.  In it the pushes of the
rectangles on the label box of item 0 sum to 40 on x, which by the claim gives
the candidate x offset `0.015 * 40 = 3/5`; the code stores `6/5`, because the
push of 40 is added to the 40 that the first sweep left in the accumulator. -/
theorem relaxation_accumulates_counterexample :
    eps_con < (sweep 1 10 2 stackPos stackMo (off_0x 1 10 2 stackPos stackMo)
      (off_0y 1 10 2 stackPos stackMo) relaxInit).2 ∧
    kx * (specPushSum 1 10 2 stackPos stackMo (off_0x 1 10 2 stackPos stackMo)
      (off_0y 1 10 2 stackPos stackMo) (layoutSweeps 1 10 2 stackPos stackMo 1) 0).1 = 3 / 5 ∧
    (sweepItem 1 10 2 stackPos stackMo (off_0x 1 10 2 stackPos stackMo)
      (off_0y 1 10 2 stackPos stackMo) (layoutSweeps 1 10 2 stackPos stackMo 1, 0) 0).1.off_buffx 0
      = 6 / 5 := by
  have hs : layoutSweeps 1 10 2 stackPos stackMo 1
      = (sweep 1 10 2 stackPos stackMo (off_0x 1 10 2 stackPos stackMo)
          (off_0y 1 10 2 stackPos stackMo) relaxInit).1 := rfl
  rw [hs, stack_o0x, stack_o0y, stack_sweep_val, stack_sweep_spec, stack_sweep_code]
  norm_num [eps_con, kx]

/-- C27, amended: in every sweep of the relaxation the candidate new offset of
item `i` is `(0.015 * Sx, 0.045 * Sy)`, where `(Sx, Sy)` is the sum of row `i`
of the force accumulators after the visit of item `i`, that is the sum over
all items `j` of the accumulator of the label box of `j` and the accumulator of
the footprint of `j`.  The visit replaces the accumulator of every footprint,
and of the label box of every other item placed with the committed (pre-sweep)
offsets, by the result of `force_collision` on the value that the accumulator
held before (`footprintAcc`, `labelAcc`), and leaves the accumulator of the
item's own label box as it was.  When all accumulators hold zero, as in the
first sweep, every contribution is the push determined by the two rectangles
alone and the candidate is `(0.015, 0.045)` times the sum of these pushes. -/
theorem relaxation_candidate (ovr_res font_h : ℚ) (items : Nat) (pos : Nat → Vector2d)
    (mo : Nat → MapOverlayPos) (o0x o0y : Nat → ℚ) (s : RelaxState) (v : ℚ) (i : Nat)
    (_hres : ovr_res ≠ 0) (hi : i < items) :
    (sweepItem ovr_res font_h items pos mo o0x o0y (s, v) i).1.off_buffx i
      = kx * ((List.range items).map fun j =>
          (itemForces ovr_res font_h items pos mo o0x o0y s i).1 (2 * items * i + 2 * j)
          + (itemForces ovr_res font_h items pos mo o0x o0y s i).1
              (2 * items * i + (2 * j + 1))).sum ∧
    (sweepItem ovr_res font_h items pos mo o0x o0y (s, v) i).1.off_buffy i
      = ky * ((List.range items).map fun j =>
          (itemForces ovr_res font_h items pos mo o0x o0y s i).2 (2 * items * i + 2 * j)
          + (itemForces ovr_res font_h items pos mo o0x o0y s i).2
              (2 * items * i + (2 * j + 1))).sum ∧
    (∀ j, j < items →
      ((itemForces ovr_res font_h items pos mo o0x o0y s i).1 (2 * items * i + 2 * j + 1),
       (itemForces ovr_res font_h items pos mo o0x o0y s i).2 (2 * items * i + 2 * j + 1))
        = footprintAcc ovr_res pos mo (s.forces_xa (2 * items * i + 2 * j + 1))
            (s.forces_ya (2 * items * i + 2 * j + 1))
            ((pos i).x / ovr_res + s.off_dx i + o0x i - ovr_text_pixbuf)
            ((pos i).y / ovr_res + s.off_dy i + o0y i - ovr_text_pixbuf)
            ((mo i).text_width + 2 * ovr_text_pixbuf) (font_h + 2 * ovr_text_pixbuf) j ∧
      (j ≠ i →
        ((itemForces ovr_res font_h items pos mo o0x o0y s i).1 (2 * items * i + 2 * j),
         (itemForces ovr_res font_h items pos mo o0x o0y s i).2 (2 * items * i + 2 * j))
          = labelAcc ovr_res font_h pos mo o0x o0y s.off_dx s.off_dy
              (s.forces_xa (2 * items * i + 2 * j)) (s.forces_ya (2 * items * i + 2 * j))
              ((pos i).x / ovr_res + s.off_dx i + o0x i - ovr_text_pixbuf)
              ((pos i).y / ovr_res + s.off_dy i + o0y i - ovr_text_pixbuf)
              ((mo i).text_width + 2 * ovr_text_pixbuf) (font_h + 2 * ovr_text_pixbuf) j)) ∧
    ((itemForces ovr_res font_h items pos mo o0x o0y s i).1 (2 * items * i + 2 * i)
        = s.forces_xa (2 * items * i + 2 * i) ∧
      (itemForces ovr_res font_h items pos mo o0x o0y s i).2 (2 * items * i + 2 * i)
        = s.forces_ya (2 * items * i + 2 * i)) ∧
    ((∀ idx, s.forces_xa idx = 0 ∧ s.forces_ya idx = 0) →
      (sweepItem ovr_res font_h items pos mo o0x o0y (s, v) i).1.off_buffx i
        = kx * (specPushSum ovr_res font_h items pos mo o0x o0y s i).1 ∧
      (sweepItem ovr_res font_h items pos mo o0x o0y (s, v) i).1.off_buffy i
        = ky * (specPushSum ovr_res font_h items pos mo o0x o0y s i).2) := by
  have hbx : (sweepItem ovr_res font_h items pos mo o0x o0y (s, v) i).1.off_buffx i
      = kx * rowSum items (itemForces ovr_res font_h items pos mo o0x o0y s i).1 i := by
    rw [sweepItem_eq]
    simp only [Function.update_same, itemNewX]
  have hby : (sweepItem ovr_res font_h items pos mo o0x o0y (s, v) i).1.off_buffy i
      = ky * rowSum items (itemForces ovr_res font_h items pos mo o0x o0y s i).2 i := by
    rw [sweepItem_eq]
    simp only [Function.update_same, itemNewY]
  have hraw := fun j (hj : j < items) =>
    uzawa_entries ovr_res font_h items pos mo i
      ((pos i).x / ovr_res + s.off_dx i + o0x i - ovr_text_pixbuf)
      ((pos i).y / ovr_res + s.off_dy i + o0y i - ovr_text_pixbuf)
      ((mo i).text_width + 2 * ovr_text_pixbuf) (font_h + 2 * ovr_text_pixbuf)
      o0x o0y s.off_dx s.off_dy j (List.range items) (s.forces_xa, s.forces_ya)
      (List.nodup_range items) (List.mem_range.mpr hj)
  have hent : ∀ j, j < items →
      ((itemForces ovr_res font_h items pos mo o0x o0y s i).1 (2 * items * i + 2 * j + 1),
       (itemForces ovr_res font_h items pos mo o0x o0y s i).2 (2 * items * i + 2 * j + 1))
        = footprintAcc ovr_res pos mo (s.forces_xa (2 * items * i + 2 * j + 1))
            (s.forces_ya (2 * items * i + 2 * j + 1))
            ((pos i).x / ovr_res + s.off_dx i + o0x i - ovr_text_pixbuf)
            ((pos i).y / ovr_res + s.off_dy i + o0y i - ovr_text_pixbuf)
            ((mo i).text_width + 2 * ovr_text_pixbuf) (font_h + 2 * ovr_text_pixbuf) j ∧
      (j ≠ i →
        ((itemForces ovr_res font_h items pos mo o0x o0y s i).1 (2 * items * i + 2 * j),
         (itemForces ovr_res font_h items pos mo o0x o0y s i).2 (2 * items * i + 2 * j))
          = labelAcc ovr_res font_h pos mo o0x o0y s.off_dx s.off_dy
              (s.forces_xa (2 * items * i + 2 * j)) (s.forces_ya (2 * items * i + 2 * j))
              ((pos i).x / ovr_res + s.off_dx i + o0x i - ovr_text_pixbuf)
              ((pos i).y / ovr_res + s.off_dy i + o0y i - ovr_text_pixbuf)
              ((mo i).text_width + 2 * ovr_text_pixbuf) (font_h + 2 * ovr_text_pixbuf) j) :=
    fun j hj => ⟨(hraw j hj).1, (hraw j hj).2.1⟩
  have hself : (itemForces ovr_res font_h items pos mo o0x o0y s i).1 (2 * items * i + 2 * i)
        = s.forces_xa (2 * items * i + 2 * i) ∧
      (itemForces ovr_res font_h items pos mo o0x o0y s i).2 (2 * items * i + 2 * i)
        = s.forces_ya (2 * items * i + 2 * i) := (hraw i hi).2.2 rfl
  rw [rowSum_pairs] at hbx hby
  refine ⟨hbx, hby, hent, hself, fun hz => ?_⟩
  have hfoot : ∀ j, j < items →
      ((itemForces ovr_res font_h items pos mo o0x o0y s i).1 (2 * items * i + (2 * j + 1)),
       (itemForces ovr_res font_h items pos mo o0x o0y s i).2 (2 * items * i + (2 * j + 1)))
        = footprintForce ovr_res pos mo
            ((pos i).x / ovr_res + s.off_dx i + o0x i - ovr_text_pixbuf)
            ((pos i).y / ovr_res + s.off_dy i + o0y i - ovr_text_pixbuf)
            ((mo i).text_width + 2 * ovr_text_pixbuf) (font_h + 2 * ovr_text_pixbuf) j := by
    intro j hj
    have h1 := (hent j hj).1
    rw [(hz _).1, (hz _).2] at h1
    rw [← add_assoc]
    exact h1
  have hlab : ∀ j, j < items →
      ((itemForces ovr_res font_h items pos mo o0x o0y s i).1 (2 * items * i + 2 * j),
       (itemForces ovr_res font_h items pos mo o0x o0y s i).2 (2 * items * i + 2 * j))
        = if j = i then (0, 0)
          else labelForce ovr_res font_h pos mo o0x o0y s.off_dx s.off_dy
            ((pos i).x / ovr_res + s.off_dx i + o0x i - ovr_text_pixbuf)
            ((pos i).y / ovr_res + s.off_dy i + o0y i - ovr_text_pixbuf)
            ((mo i).text_width + 2 * ovr_text_pixbuf) (font_h + 2 * ovr_text_pixbuf) j := by
    intro j hj
    by_cases hji : j = i
    · subst hji
      rw [if_pos rfl, hself.1, hself.2, (hz _).1, (hz _).2]
    · rw [if_neg hji]
      have h1 := (hent j hj).2 hji
      rw [(hz _).1, (hz _).2] at h1
      exact h1
  constructor
  · rw [hbx]
    congr 1
    unfold specPushSum
    simp only
    apply congrArg
    apply List.map_congr_left
    intro j hj
    have hj2 := List.mem_range.mp hj
    have e1 := congrArg Prod.fst (hfoot j hj2)
    have e2 := congrArg Prod.fst (hlab j hj2)
    simp only at e1 e2
    rw [e1, e2]
    by_cases hji : j = i
    · simp [hji]
    · simp [hji]
  · rw [hby]
    congr 1
    unfold specPushSum
    simp only
    apply congrArg
    apply List.map_congr_left
    intro j hj
    have hj2 := List.mem_range.mp hj
    have e1 := congrArg Prod.snd (hfoot j hj2)
    have e2 := congrArg Prod.snd (hlab j hj2)
    simp only at e1 e2
    rw [e1, e2]
    by_cases hji : j = i
    · simp [hji]
    · simp [hji]

/-- The witness of C27: in the first sweep over the two items of `stackPos` the
candidate x offset of item 0 is `0.015` times the sum of the pushes. -/
theorem relaxation_candidate_witness :
    (sweepItem 1 10 2 stackPos stackMo (off_0x 1 10 2 stackPos stackMo)
      (off_0y 1 10 2 stackPos stackMo) (relaxInit, 0) 0).1.off_buffx 0
      = kx * (specPushSum 1 10 2 stackPos stackMo (off_0x 1 10 2 stackPos stackMo)
          (off_0y 1 10 2 stackPos stackMo) relaxInit 0).1 :=
  ((relaxation_candidate 1 10 2 stackPos stackMo (off_0x 1 10 2 stackPos stackMo)
    (off_0y 1 10 2 stackPos stackMo) relaxInit 0 0 (by norm_num) (by norm_num)).2.2.2.2
      (fun _ => ⟨rfl, rfl⟩)).1

/-! ## Progress of the radius-shrink loop: C28 -/

/-- C29: for an item with non-negative radius, text width and font height,
each of the four candidate label boxes (right-of, left-of, above, below) has
the push (0, 0) against the footprint square of the item itself, so that the
term of the item itself in the total `val` of each candidate is 0. -/
theorem own_footprint_no_push (ovr_res font_h : ℚ) (pos : Nat → Vector2d)
    (mo : Nat → MapOverlayPos) (i k : Nat) (_hres : ovr_res ≠ 0)
    (hr : 0 ≤ (mo i).radius) (htw : 0 ≤ (mo i).text_width) (hfh : 0 ≤ font_h)
    (hk : k < 4) :
    footprintForce ovr_res pos mo
      ((pos i).x / ovr_res - ovr_text_pixbuf + candTx mo i k)
      ((pos i).y / ovr_res - ovr_text_pixbuf + candTy font_h mo i k)
      ((mo i).text_width + 2 * ovr_text_pixbuf) (font_h + 2 * ovr_text_pixbuf) i = (0, 0) ∧
    ABS (footprintForce ovr_res pos mo
      ((pos i).x / ovr_res - ovr_text_pixbuf + candTx mo i k)
      ((pos i).y / ovr_res - ovr_text_pixbuf + candTy font_h mo i k)
      ((mo i).text_width + 2 * ovr_text_pixbuf) (font_h + 2 * ovr_text_pixbuf) i).1
    + ABS (footprintForce ovr_res pos mo
      ((pos i).x / ovr_res - ovr_text_pixbuf + candTx mo i k)
      ((pos i).y / ovr_res - ovr_text_pixbuf + candTy font_h mo i k)
      ((mo i).text_width + 2 * ovr_text_pixbuf) (font_h + 2 * ovr_text_pixbuf) i).2 = 0 := by
  have key : footprintForce ovr_res pos mo
      ((pos i).x / ovr_res - ovr_text_pixbuf + candTx mo i k)
      ((pos i).y / ovr_res - ovr_text_pixbuf + candTy font_h mo i k)
      ((mo i).text_width + 2 * ovr_text_pixbuf) (font_h + 2 * ovr_text_pixbuf) i = (0, 0) := by
    have h4 : k = 0 ∨ k = 1 ∨ k = 2 ∨ k = 3 := by omega
    rcases h4 with rfl | rfl | rfl | rfl
    · simp only [footprintForce, force_collision, candTx, candTy, ovr_text_pixbuf]
      rw [if_neg (by intro hc; rcases hc with hc | hc <;> linarith),
        if_neg (by linarith), if_pos (Or.inr (by linarith)), MAX_eq_max]
      rw [max_eq_left (by linarith)]
    · simp only [footprintForce, force_collision, candTx, candTy, ovr_text_pixbuf]
      rw [if_neg (by intro hc; rcases hc with hc | hc <;> linarith),
        if_pos (by linarith), if_pos (Or.inl (by linarith)), MIN_eq_min]
      rw [min_eq_left (by linarith)]
    · simp only [footprintForce, force_collision, candTx, candTy, ovr_text_pixbuf]
      rw [if_pos (Or.inr (by linarith)),
        if_neg (by intro hc; rcases hc with hc | hc <;> linarith),
        if_neg (by linarith), MAX_eq_max]
      rw [max_eq_left (by linarith)]
    · simp only [footprintForce, force_collision, candTx, candTy, ovr_text_pixbuf]
      rw [if_pos (Or.inl (by linarith)),
        if_neg (by intro hc; rcases hc with hc | hc <;> linarith),
        if_pos (by linarith), MIN_eq_min]
      rw [min_eq_left (by linarith)]
  rw [key]
  exact ⟨rfl, by simp [ABS]⟩

/-- The witness of C29: the candidate above the item at (0, 0) with radius 2 and
text width 30 has the push (0, 0) against the footprint of the item. -/
theorem own_footprint_no_push_witness :
    footprintForce 1 twoPos twoMo
      ((twoPos 0).x / 1 - ovr_text_pixbuf + candTx twoMo 0 2)
      ((twoPos 0).y / 1 - ovr_text_pixbuf + candTy 10 twoMo 0 2)
      ((twoMo 0).text_width + 2 * ovr_text_pixbuf) (10 + 2 * ovr_text_pixbuf) 0 = (0, 0) :=
  (own_footprint_no_push 1 10 twoPos twoMo 0 2 (by norm_num) (by norm_num [twoMo])
    (by norm_num [twoMo]) (by norm_num) (by norm_num)).1

/-- C30: for a non-empty item set in which, at the initial placements, every
label box has the push (0, 0) against every footprint and against the label
box of every other item, the relaxation makes exactly one sweep, all
relaxation offsets are (0, 0), and the final label offset of every item is its
initial-placement offset. -/
theorem relaxation_no_push (ovr_res font_h : ℚ) (items : Nat) (pos : Nat → Vector2d)
    (mo : Nat → MapOverlayPos) (_hres : ovr_res ≠ 0) (_hitems : 0 < items)
    (hzero : ∀ i, i < items → ∀ j, j < items →
      footprintForce ovr_res pos mo
        ((pos i).x / ovr_res + off_0x ovr_res font_h items pos mo i - ovr_text_pixbuf)
        ((pos i).y / ovr_res + off_0y ovr_res font_h items pos mo i - ovr_text_pixbuf)
        ((mo i).text_width + 2 * ovr_text_pixbuf) (font_h + 2 * ovr_text_pixbuf) j = (0, 0) ∧
      (j ≠ i → labelForce ovr_res font_h pos mo (off_0x ovr_res font_h items pos mo)
        (off_0y ovr_res font_h items pos mo) (fun _ => 0) (fun _ => 0)
        ((pos i).x / ovr_res + off_0x ovr_res font_h items pos mo i - ovr_text_pixbuf)
        ((pos i).y / ovr_res + off_0y ovr_res font_h items pos mo i - ovr_text_pixbuf)
        ((mo i).text_width + 2 * ovr_text_pixbuf) (font_h + 2 * ovr_text_pixbuf) j = (0, 0))) :
    (uzawaLoop ovr_res font_h items pos mo (off_0x ovr_res font_h items pos mo)
      (off_0y ovr_res font_h items pos mo)).2 = 1 ∧
    (∀ i, (uzawaLoop ovr_res font_h items pos mo (off_0x ovr_res font_h items pos mo)
        (off_0y ovr_res font_h items pos mo)).1.off_dx i = 0 ∧
      (uzawaLoop ovr_res font_h items pos mo (off_0x ovr_res font_h items pos mo)
        (off_0y ovr_res font_h items pos mo)).1.off_dy i = 0) ∧
    ∀ i, i < items →
      (layoutLabels ovr_res font_h items pos mo i).text_offx
        = off_0x ovr_res font_h items pos mo i ∧
      (layoutLabels ovr_res font_h items pos mo i).text_offy
        = off_0y ovr_res font_h items pos mo i := by
  have hsweep := sweep_relaxInit_zero ovr_res font_h items pos mo
    (off_0x ovr_res font_h items pos mo) (off_0y ovr_res font_h items pos mo) (by
      intro i hi j hj
      simp only [add_zero]
      exact hzero i hi j hj)
  have hloop := uzawaLoop_of_sweep_zero ovr_res font_h items pos mo _ _ hsweep
  refine ⟨by rw [hloop], fun i => by rw [hloop]; exact ⟨rfl, rfl⟩, ?_⟩
  intro i hi
  unfold layoutLabels
  simp only [hi, if_true, hloop]
  simp [relaxInit]

theorem twoPos_far_off0 (i : Nat) :
    off_0x (1 / 100) 10 2 twoPos twoMo i = 71 / 10 ∧
    off_0y (1 / 100) 10 2 twoPos twoMo i = -5 := by
  have hval : candVal (1 / 100) 10 2 twoPos twoMo i 0 = 0 := by
    by_cases hi : i = 0
    · subst hi
      norm_num [candVal, footprintForce, force_collision, candTx, candTy, twoPos, twoMo,
        ovr_text_pixbuf, List.range_succ, MIN, MAX, ABS]
    · norm_num [candVal, footprintForce, force_collision, candTx, candTy, twoPos, twoMo,
        ovr_text_pixbuf, List.range_succ, MIN, MAX, ABS, hi]
  have hsel : selectPlacement (1 / 100) 10 2 twoPos twoMo i
      = { bx := 71 / 10, by_ := -5, best := some 0 } := by
    unfold selectPlacement
    rw [scanCandidates]
    simp only [hval, true_or, if_true]
    norm_num [candTx, candTy, ovr_text_pixbuf, twoMo]
  constructor
  · unfold off_0x; rw [hsel]
  · unfold off_0y; rw [hsel]

/-- The witness of C30: two items at x = 0 and x = 3 with resolution 1/100, which
are 300 pixels apart; no label box is pushed, the relaxation makes one sweep
and the label offset of item 1 is its initial-placement offset. -/
theorem relaxation_no_push_witness :
    (uzawaLoop (1 / 100) 10 2 twoPos twoMo (off_0x (1 / 100) 10 2 twoPos twoMo)
      (off_0y (1 / 100) 10 2 twoPos twoMo)).2 = 1 ∧
    (layoutLabels (1 / 100) 10 2 twoPos twoMo 1).text_offx
      = off_0x (1 / 100) 10 2 twoPos twoMo 1 := by
  have h := relaxation_no_push (1 / 100) 10 2 twoPos twoMo (by norm_num) (by norm_num) (by
    intro i hi j hj
    have hx : ∀ k, off_0x (1 / 100) 10 2 twoPos twoMo k = 71 / 10 :=
      fun k => (twoPos_far_off0 k).1
    have hy : ∀ k, off_0y (1 / 100) 10 2 twoPos twoMo k = -5 :=
      fun k => (twoPos_far_off0 k).2
    have hi2 : i = 0 ∨ i = 1 := by omega
    have hj2 : j = 0 ∨ j = 1 := by omega
    rcases hi2 with rfl | rfl <;> rcases hj2 with rfl | rfl <;>
      norm_num [footprintForce, labelForce, force_collision, hx, hy, twoPos, twoMo,
        ovr_text_pixbuf, MIN, MAX])
  exact ⟨h.1, (h.2.2 1 (by norm_num)).1⟩

/-! ## A single pair in the shrink loop with the roundings of `float`: C4 -/

theorem roundHalfEven_err (m : ℚ) : |(roundHalfEven m : ℚ) - m| ≤ 1 / 2 := by
  have h1 := Int.floor_le m
  have h2 := Int.lt_floor_add_one m
  unfold roundHalfEven
  split_ifs with a b c
  · rw [abs_le]; constructor <;> linarith
  · rw [abs_le]; push_cast; constructor <;> linarith
  · have : m - ⌊m⌋ = 1 / 2 := le_antisymm (not_lt.mp b) (not_lt.mp a)
    rw [abs_le]; constructor <;> linarith
  · have : m - ⌊m⌋ = 1 / 2 := le_antisymm (not_lt.mp b) (not_lt.mp a)
    rw [abs_le]; push_cast; constructor <;> linarith

theorem roundHalfEven_ge (m : ℚ) (k : ℤ) (h : (k : ℚ) ≤ m) : k ≤ roundHalfEven m := by
  have hk : k ≤ ⌊m⌋ := Int.le_floor.mpr h
  unfold roundHalfEven
  split_ifs <;> omega

theorem roundHalfEven_int (n : ℤ) : roundHalfEven (n : ℚ) = n := by
  unfold roundHalfEven
  simp

theorem roundHalfEven_up (m : ℚ) (f : ℤ) (hf : (f : ℚ) ≤ m) (hlt : m < f + 1)
    (hfrac : 1 / 2 < m - f) : roundHalfEven m = f + 1 := by
  have hfl : ⌊m⌋ = f := Int.floor_eq_iff.mpr ⟨hf, hlt⟩
  unfold roundHalfEven
  rw [hfl, if_neg (by linarith), if_pos hfrac]

theorem log_two_eq (q : ℚ) (e : ℤ) (h1 : (2 : ℚ) ^ e ≤ q) (h2 : q < (2 : ℚ) ^ (e + 1)) :
    Int.log 2 q = e := by
  have hq : 0 < q := lt_of_lt_of_le (by positivity) h1
  have a : e ≤ Int.log 2 q := (Int.zpow_le_iff_le_log (by norm_num) hq).mp (by simpa using h1)
  have b : Int.log 2 q < e + 1 := (Int.lt_zpow_iff_log_lt (by norm_num) hq).mp (by simpa using h2)
  omega

theorem toFloat_eq (q : ℚ) (e : ℤ) (h1 : (2 : ℚ) ^ e ≤ |q|) (h2 : |q| < (2 : ℚ) ^ (e + 1)) :
    toFloat q = (roundHalfEven (q / (2 : ℚ) ^ (e - 23)) : ℚ) * (2 : ℚ) ^ (e - 23) := by
  have hq : q ≠ 0 := by
    intro h0
    rw [h0, abs_zero] at h1
    have : (0 : ℚ) < 2 ^ e := by positivity
    linarith
  unfold toFloat
  rw [if_neg hq, log_two_eq |q| e h1 h2]

theorem toFloat_err (q : ℚ) : |toFloat q - q| ≤ 1 / 16777216 * |q| := by
  by_cases hq : q = 0
  · simp [toFloat, hq]
  · have hpos : 0 < |q| := abs_pos.mpr hq
    have hlog : (2 : ℚ) ^ Int.log 2 |q| ≤ |q| := by
      have := Int.zpow_log_le_self (b := 2) (by norm_num) hpos
      simpa using this
    unfold toFloat
    rw [if_neg hq]
    set e := Int.log 2 |q| with he
    have hp : (0 : ℚ) < 2 ^ (e - 23) := by positivity
    have herr := roundHalfEven_err (q / (2 : ℚ) ^ (e - 23))
    have hsplit : (roundHalfEven (q / (2 : ℚ) ^ (e - 23)) : ℚ) * (2 : ℚ) ^ (e - 23) - q
        = ((roundHalfEven (q / (2 : ℚ) ^ (e - 23)) : ℚ) - q / (2 : ℚ) ^ (e - 23))
            * (2 : ℚ) ^ (e - 23) := by
      field_simp
    rw [hsplit, abs_mul, abs_of_pos hp]
    have hpe : (2 : ℚ) ^ (e - 23) = (2 : ℚ) ^ e / 8388608 := by
      rw [zpow_sub₀ (by norm_num)]
      norm_num
    calc |(roundHalfEven (q / (2 : ℚ) ^ (e - 23)) : ℚ) - q / (2 : ℚ) ^ (e - 23)|
          * (2 : ℚ) ^ (e - 23)
        ≤ 1 / 2 * (2 : ℚ) ^ (e - 23) := mul_le_mul_of_nonneg_right herr hp.le
      _ = 1 / 16777216 * (2 : ℚ) ^ e := by rw [hpe]; ring
      _ ≤ 1 / 16777216 * |q| := mul_le_mul_of_nonneg_left hlog (by norm_num)

theorem toFloat_nonneg (q : ℚ) (hq : 0 ≤ q) : 0 ≤ toFloat q := by
  have h := toFloat_err q
  rw [abs_of_nonneg hq, abs_le] at h
  nlinarith [h.1]

theorem toFloat_le (q : ℚ) (hq : 0 ≤ q) : toFloat q ≤ q * (1 + 1 / 16777216) := by
  have h := toFloat_err q
  rw [abs_of_nonneg hq, abs_le] at h
  nlinarith [h.2]

theorem toFloat_ge_one (q : ℚ) (hq : 1 ≤ q) : 1 ≤ toFloat q := by
  have hpos : 0 < q := by linarith
  have hq0 : q ≠ 0 := hpos.ne'
  have habs : |q| = q := abs_of_pos hpos
  have hlog : (2 : ℚ) ^ Int.log 2 q ≤ q := by
    have := Int.zpow_log_le_self (b := 2) (by norm_num) hpos
    simpa using this
  have he : 0 ≤ Int.log 2 q := by
    have := (Int.zpow_le_iff_le_log (b := 2) (by norm_num) hpos (x := 0)).mp (by simpa using hq)
    exact this
  unfold toFloat
  rw [if_neg hq0, habs]
  set e := Int.log 2 q with hedef
  have hp : (0 : ℚ) < 2 ^ (e - 23) := by positivity
  have hpe : (2 : ℚ) ^ e = 8388608 * (2 : ℚ) ^ (e - 23) := by
    rw [zpow_sub₀ (by norm_num)]
    norm_num
    field_simp
  have hm : ((8388608 : ℤ) : ℚ) ≤ q / (2 : ℚ) ^ (e - 23) := by
    rw [le_div_iff₀ hp]
    push_cast
    rw [← hpe]
    exact hlog
  have hn := roundHalfEven_ge _ _ hm
  have hn2 : (8388608 : ℚ) ≤ (roundHalfEven (q / (2 : ℚ) ^ (e - 23)) : ℚ) := by
    exact_mod_cast hn
  have h1e : (1 : ℚ) ≤ (2 : ℚ) ^ e := one_le_zpow₀ (by norm_num) he
  calc (1 : ℚ) ≤ (2 : ℚ) ^ e := h1e
    _ = 8388608 * (2 : ℚ) ^ (e - 23) := hpe
    _ ≤ (roundHalfEven (q / (2 : ℚ) ^ (e - 23)) : ℚ) * (2 : ℚ) ^ (e - 23) :=
        mul_le_mul_of_nonneg_right hn2 hp.le

theorem roundHalfEven_le (m : ℚ) (k : ℤ) (h : m ≤ (k : ℚ)) : roundHalfEven m ≤ k := by
  have h1 := Int.floor_le m
  have hfl : ⌊m⌋ ≤ k := by
    have : (⌊m⌋ : ℚ) ≤ (k : ℚ) := h1.trans h
    exact_mod_cast this
  unfold roundHalfEven
  split_ifs with a b c
  · exact hfl
  · have h2 : (⌊m⌋ : ℚ) < (k : ℚ) := by linarith
    have h3 : ⌊m⌋ < k := by exact_mod_cast h2
    omega
  · exact hfl
  · have h4 : m - ⌊m⌋ = 1 / 2 := le_antisymm (not_lt.mp b) (not_lt.mp a)
    have h2 : (⌊m⌋ : ℚ) < (k : ℚ) := by linarith
    have h3 : ⌊m⌋ < k := by exact_mod_cast h2
    omega

theorem roundHalfEven_near (m : ℚ) (n : ℤ) (h1 : (n : ℚ) - 1 / 2 < m) (h2 : m < (n : ℚ) + 1 / 2) :
    roundHalfEven m = n := by
  have h := roundHalfEven_err m
  rw [abs_le] at h
  have a : ((roundHalfEven m : ℤ) : ℚ) < (n : ℚ) + 1 := by linarith [h.2]
  have b : (n : ℚ) - 1 < ((roundHalfEven m : ℤ) : ℚ) := by linarith [h.1]
  have a1 : roundHalfEven m < n + 1 := by exact_mod_cast a
  have b1 : n - 1 < roundHalfEven m := by exact_mod_cast b
  omega

theorem roundHalfEven_tie (m : ℚ) (f : ℤ) (hm : m = (f : ℚ) + 1 / 2) (hf : f % 2 = 0) :
    roundHalfEven m = f := by
  have hfl : ⌊m⌋ = f := Int.floor_eq_iff.mpr ⟨by linarith, by linarith⟩
  unfold roundHalfEven
  rw [hfl, if_neg (by linarith), if_neg (by linarith), if_pos hf]

theorem toFloat_pos_imp (q : ℚ) (h : 0 < toFloat q) : 0 < q := by
  by_contra hq
  have hq0 : q ≤ 0 := not_lt.mp hq
  have he := toFloat_err q
  rw [abs_of_nonpos hq0, abs_le] at he
  nlinarith [he.2]

theorem toFloat_pos_eq (q v : ℚ) (e n : ℤ) (h1 : (2 : ℚ) ^ e ≤ q) (h2 : q < (2 : ℚ) ^ (e + 1))
    (h3 : ((n : ℚ) - 1 / 2) * (2 : ℚ) ^ (e - 23) < q)
    (h4 : q < ((n : ℚ) + 1 / 2) * (2 : ℚ) ^ (e - 23))
    (hv : v = (n : ℚ) * (2 : ℚ) ^ (e - 23)) : toFloat q = v := by
  have hq : 0 < q := lt_of_lt_of_le (by positivity) h1
  have hp : (0 : ℚ) < 2 ^ (e - 23) := by positivity
  rw [toFloat_eq q e (by rwa [abs_of_pos hq]) (by rwa [abs_of_pos hq]), hv,
    roundHalfEven_near _ n ((lt_div_iff₀ hp).mpr h3) ((div_lt_iff₀ hp).mpr h4)]

theorem toFloat_repr (m : ℕ) (k : ℤ) (hm : m < 2 ^ 24) :
    toFloat ((m : ℚ) * (2 : ℚ) ^ k) = (m : ℚ) * (2 : ℚ) ^ k := by
  by_cases h0 : m = 0
  · simp [toFloat, h0]
  · have hlo : 2 ^ Nat.log 2 m ≤ m := Nat.pow_log_le_self 2 h0
    have hhi : m < 2 ^ (Nat.log 2 m + 1) := Nat.lt_pow_succ_log_self (by norm_num) m
    have hj : Nat.log 2 m < 24 := by
      have : 2 ^ Nat.log 2 m < 2 ^ 24 := lt_of_le_of_lt hlo hm
      exact (Nat.pow_lt_pow_iff_right (by norm_num)).mp this
    set j := Nat.log 2 m with hjdef
    have hk : (0 : ℚ) < 2 ^ k := by positivity
    have hq : (0 : ℚ) < (m : ℚ) * 2 ^ k := by
      have : (0 : ℚ) < (m : ℚ) := by exact_mod_cast Nat.pos_of_ne_zero h0
      positivity
    have hloq : ((2 : ℚ) ^ j) ≤ (m : ℚ) := by exact_mod_cast hlo
    have hhiq : (m : ℚ) < (2 : ℚ) ^ (j + 1) := by exact_mod_cast hhi
    have e1 : (2 : ℚ) ^ ((j : ℤ) + k) = (2 : ℚ) ^ j * (2 : ℚ) ^ k := by
      rw [zpow_add₀ (by norm_num), zpow_natCast]
    have e2 : (2 : ℚ) ^ ((j : ℤ) + k + 1) = (2 : ℚ) ^ (j + 1) * (2 : ℚ) ^ k := by
      rw [show (j : ℤ) + k + 1 = ((j + 1 : ℕ) : ℤ) + k by push_cast; ring,
        zpow_add₀ (by norm_num), zpow_natCast]
    have b1 : (2 : ℚ) ^ ((j : ℤ) + k) ≤ |(m : ℚ) * 2 ^ k| := by
      rw [abs_of_pos hq, e1]
      exact mul_le_mul_of_nonneg_right hloq hk.le
    have b2 : |(m : ℚ) * 2 ^ k| < (2 : ℚ) ^ ((j : ℤ) + k + 1) := by
      rw [abs_of_pos hq, e2]
      exact mul_lt_mul_of_pos_right hhiq hk
    rw [toFloat_eq _ _ b1 b2]
    have e3 : (m : ℚ) * (2 : ℚ) ^ k
        = (((m * 2 ^ (23 - j) : ℕ) : ℤ) : ℚ) * (2 : ℚ) ^ ((j : ℤ) + k - 23) := by
      have e4 : (2 : ℚ) ^ k = (2 : ℚ) ^ (23 - j) * (2 : ℚ) ^ ((j : ℤ) + k - 23) := by
        rw [← zpow_natCast, ← zpow_add₀ (by norm_num)]
        congr 1
        have : ((23 - j : ℕ) : ℤ) = 23 - (j : ℤ) := by omega
        rw [this]
        ring
      push_cast
      rw [e4]
      ring
    have hp : (2 : ℚ) ^ ((j : ℤ) + k - 23) ≠ 0 := by positivity
    have e5 : (m : ℚ) * (2 : ℚ) ^ k / (2 : ℚ) ^ ((j : ℤ) + k - 23)
        = (((m * 2 ^ (23 - j) : ℕ) : ℤ) : ℚ) := by
      rw [e3, mul_div_assoc, div_self hp, mul_one]
    rw [e5, roundHalfEven_int, ← e3]

theorem toFloat_sub_eps (q : ℚ) (h1 : FLT_EPSILON ≤ toFloat q) (h2 : toFloat q < 1) :
    toFloat (toFloat q - FLT_EPSILON) = toFloat q - FLT_EPSILON := by
  have heps := FLT_EPSILON_pos
  have hq : 0 < q := toFloat_pos_imp q (lt_of_lt_of_le heps h1)
  have hq0 : q ≠ 0 := hq.ne'
  have habs : |q| = q := abs_of_pos hq
  have hlog : (2 : ℚ) ^ Int.log 2 q ≤ q := by
    have := Int.zpow_log_le_self (b := 2) (by norm_num) hq
    simpa using this
  have hlog2 : q < (2 : ℚ) ^ (Int.log 2 q + 1) := by
    have := Int.lt_zpow_succ_log_self (b := 2) (by norm_num) q
    simpa using this
  have hform : toFloat q = (roundHalfEven (q / (2 : ℚ) ^ (Int.log 2 q - 23)) : ℚ)
      * (2 : ℚ) ^ (Int.log 2 q - 23) := by
    unfold toFloat
    rw [if_neg hq0, habs]
  set e := Int.log 2 q with hedef
  set n := roundHalfEven (q / (2 : ℚ) ^ (e - 23)) with hndef
  have hp : (0 : ℚ) < 2 ^ (e - 23) := by positivity
  have hpe : (2 : ℚ) ^ e = 8388608 * (2 : ℚ) ^ (e - 23) := by
    rw [zpow_sub₀ (by norm_num)]
    norm_num
    field_simp
  have hpe1 : (2 : ℚ) ^ (e + 1) = 16777216 * (2 : ℚ) ^ (e - 23) := by
    rw [zpow_add₀ (by norm_num), hpe]
    norm_num
    ring
  have hn1 : (8388608 : ℤ) ≤ n := by
    apply roundHalfEven_ge
    rw [le_div_iff₀ hp]
    push_cast
    rw [← hpe]
    exact hlog
  have hn2 : n ≤ (16777216 : ℤ) := by
    apply roundHalfEven_le
    rw [div_le_iff₀ hp]
    push_cast
    rw [← hpe1]
    exact hlog2.le
  rw [hform] at h1 h2 ⊢
  have hn1q : (8388608 : ℚ) ≤ (n : ℚ) := by exact_mod_cast hn1
  have he : e < 0 := by
    by_contra hcon
    have h0 : 0 ≤ e := not_lt.mp hcon
    have h1e : (1 : ℚ) ≤ (2 : ℚ) ^ e := one_le_zpow₀ (by norm_num) h0
    have : (2 : ℚ) ^ e ≤ (n : ℚ) * (2 : ℚ) ^ (e - 23) := by
      rw [hpe]
      exact mul_le_mul_of_nonneg_right hn1q hp.le
    linarith
  have ht : (((-e).toNat : ℕ) : ℤ) = -e := Int.toNat_of_nonneg (by omega)
  have hepsp : FLT_EPSILON = ((2 ^ (-e).toNat : ℕ) : ℚ) * (2 : ℚ) ^ (e - 23) := by
    push_cast
    rw [← zpow_natCast, ht, ← zpow_add₀ (by norm_num)]
    have : -e + (e - 23) = -23 := by ring
    rw [this]
    norm_num [FLT_EPSILON]
  have hle : ((2 ^ (-e).toNat : ℕ) : ℚ) ≤ (n : ℚ) := by
    rw [hepsp] at h1
    exact le_of_mul_le_mul_right h1 hp
  have hleZ : ((2 ^ (-e).toNat : ℕ) : ℤ) ≤ n := by exact_mod_cast hle
  have hpos2 : 0 < 2 ^ (-e).toNat := by positivity
  have hm : ((n - ((2 ^ (-e).toNat : ℕ) : ℤ)).toNat : ℤ) = n - ((2 ^ (-e).toNat : ℕ) : ℤ) :=
    Int.toNat_of_nonneg (by omega)
  have hmlt : (n - ((2 ^ (-e).toNat : ℕ) : ℤ)).toNat < 2 ^ 24 := by
    have : (0 : ℤ) < ((2 ^ (-e).toNat : ℕ) : ℤ) := by exact_mod_cast hpos2
    omega
  have hval : (n : ℚ) * (2 : ℚ) ^ (e - 23) - FLT_EPSILON
      = (((n - ((2 ^ (-e).toNat : ℕ) : ℤ)).toNat : ℕ) : ℚ) * (2 : ℚ) ^ (e - 23) := by
    have hc : ((((n - ((2 ^ (-e).toNat : ℕ) : ℤ)).toNat : ℕ) : ℤ) : ℚ)
        = (n : ℚ) - ((2 ^ (-e).toNat : ℕ) : ℚ) := by
      rw [hm]
      push_cast
      ring
    have hc2 : (((n - ((2 ^ (-e).toNat : ℕ) : ℤ)).toNat : ℕ) : ℚ)
        = (n : ℚ) - ((2 ^ (-e).toNat : ℕ) : ℚ) := by
      rw [← hc]
      norm_cast
    rw [hc2]
    nth_rewrite 1 [hepsp]
    ring
  rw [hval]
  exact toFloat_repr _ _ hmlt

theorem toFloat_tie_even (q v : ℚ) (e f : ℤ) (h1 : (2 : ℚ) ^ e ≤ q) (h2 : q < (2 : ℚ) ^ (e + 1))
    (hm : q = ((f : ℚ) + 1 / 2) * (2 : ℚ) ^ (e - 23)) (hf : f % 2 = 0)
    (hv : v = (f : ℚ) * (2 : ℚ) ^ (e - 23)) : toFloat q = v := by
  have hq : 0 < q := lt_of_lt_of_le (by positivity) h1
  have hp : (2 : ℚ) ^ (e - 23) ≠ 0 := by positivity
  rw [toFloat_eq q e (by rwa [abs_of_pos hq]) (by rwa [abs_of_pos hq]), hv,
    roundHalfEven_tie _ f (by rw [hm, mul_div_assoc, div_self hp, mul_one]) hf]

theorem toFloat_tie_odd (q v : ℚ) (e f : ℤ) (h1 : (2 : ℚ) ^ e ≤ q) (h2 : q < (2 : ℚ) ^ (e + 1))
    (hm : q = ((f : ℚ) + 1 / 2) * (2 : ℚ) ^ (e - 23)) (hf : f % 2 = 1)
    (hv : v = ((f : ℚ) + 1) * (2 : ℚ) ^ (e - 23)) : toFloat q = v := by
  have hq : 0 < q := lt_of_lt_of_le (by positivity) h1
  have hp : (2 : ℚ) ^ (e - 23) ≠ 0 := by positivity
  have hfl : ⌊q / (2 : ℚ) ^ (e - 23)⌋ = f := by
    rw [hm, mul_div_assoc, div_self hp, mul_one]
    exact Int.floor_eq_iff.mpr ⟨by linarith, by linarith⟩
  have hfr : q / (2 : ℚ) ^ (e - 23) - (f : ℚ) = 1 / 2 := by
    rw [hm, mul_div_assoc, div_self hp, mul_one]
    ring
  rw [toFloat_eq q e (by rwa [abs_of_pos hq]) (by rwa [abs_of_pos hq]), hv]
  congr 1
  unfold roundHalfEven
  rw [hfl, hfr, if_neg (lt_irrefl _), if_neg (lt_irrefl _), if_neg (by omega)]
  push_cast
  ring

theorem rounded_le (rr : ℚ → ℚ) (hrr : ∀ x, |rr x - x| ≤ 1 / 16777216 * |x|) (x : ℚ)
    (hx : 0 ≤ x) : x * (1 - 1 / 16777216) ≤ rr x ∧ rr x ≤ x * (1 + 1 / 16777216) := by
  have h := hrr x
  rw [abs_of_nonneg hx, abs_le] at h
  constructor <;> linarith [h.1, h.2]

theorem initFitsF_two (rr : ℚ → ℚ) (hypot : ℚ → ℚ → ℚ) (ovr_res : ℚ) (pos : Nat → Vector2d)
    (radius : Nat → FVal)
    (h : FVal.lt (pairDist hypot ovr_res pos 0 1)
      (FVal.rounded rr (FVal.add (radius 0) (radius 1))) = true) :
    initFitsF rr hypot ovr_res pos radius 2 =
      [{ i := 0, j := 1, dist := pairDist hypot ovr_res pos 0 1 }] := by
  simp [initFitsF, fitsOfRowF, List.range_succ, List.range', h]

theorem fitRatioF_pair (rr : ℚ → ℚ) (radius : Nat → FVal) (a0 a1 d : ℚ)
    (h0 : radius 0 = FVal.fin a0) (h1 : radius 1 = FVal.fin a1) (hS : rr (a0 + a1) ≠ 0) :
    fitRatioF rr radius { i := 0, j := 1, dist := FVal.fin d }
      = FVal.fin (toFloat (d / rr (a0 + a1))) := by
  simp [fitRatioF, h0, h1, FVal.add, FVal.rounded, FVal.div, hS]

/-- A pair whose rounded sum of radii is at most the positive distance has
`r >= 1`. -/
theorem fitRatioF_ge_one (rr : ℚ → ℚ) (radius : Nat → FVal) (a0 a1 d : ℚ)
    (h0 : radius 0 = FVal.fin a0) (h1 : radius 1 = FVal.fin a1) (hd : 0 < d)
    (hS0 : 0 ≤ rr (a0 + a1)) (hSd : rr (a0 + a1) ≤ d) :
    FVal.ge (fitRatioF rr radius { i := 0, j := 1, dist := FVal.fin d }) (FVal.fin 1) = true := by
  by_cases hS : rr (a0 + a1) = 0
  · simp [fitRatioF, h0, h1, FVal.add, FVal.rounded, FVal.div, hS, hd.ne', FVal.signedInf, hd,
      FVal.ge, FVal.le]
  · rw [fitRatioF_pair rr radius a0 a1 d h0 h1 hS]
    have hSpos : 0 < rr (a0 + a1) := lt_of_le_of_ne hS0 (Ne.symm hS)
    have : 1 ≤ toFloat (d / rr (a0 + a1)) :=
      toFloat_ge_one _ ((one_le_div hSpos).mpr hSd)
    simpa [FVal.ge, FVal.le] using this

/-- A round on a single pair with `FLT_EPSILON <= r < 1`: the pair stays and
both radii are multiplied by `r - FLT_EPSILON`. -/
theorem shrinkRoundF_keep (rr : ℚ → ℚ) (s : ShrinkState) (a0 a1 d q : ℚ)
    (h0 : s.radius 0 = FVal.fin a0) (h1 : s.radius 1 = FVal.fin a1)
    (hf : s.fits = [{ i := 0, j := 1, dist := FVal.fin d }])
    (hr : fitRatioF rr s.radius { i := 0, j := 1, dist := FVal.fin d } = FVal.fin (toFloat q))
    (hlo : FLT_EPSILON ≤ toFloat q) (hhi : toFloat q < 1) :
    (shrinkRoundF rr 2 s).fits = [{ i := 0, j := 1, dist := FVal.fin d }] ∧
    (shrinkRoundF rr 2 s).radius 0 = FVal.fin (rr (a0 * (toFloat q - FLT_EPSILON))) ∧
    (shrinkRoundF rr 2 s).radius 1 = FVal.fin (rr (a1 * (toFloat q - FLT_EPSILON))) := by
  have hnge : ¬ FVal.ge (fitRatioF rr s.radius { i := 0, j := 1, dist := FVal.fin d })
      (FVal.fin 1) = true := by
    rw [hr]
    simp only [FVal.ge, FVal.le, decide_eq_true_eq, not_le]
    exact hhi
  have hscan : scanFitsF rr s.radius [{ i := 0, j := 1, dist := FVal.fin d }] (FVal.fin 0)
      (fun _ => false) =
      { fits := [{ i := 0, j := 1, dist := FVal.fin d }],
        shrink_factor := FVal.fin (toFloat q - FLT_EPSILON),
        must_shrink := fun k => decide (k = 0) || decide (k = 1) || false } := by
    simp only [scanFitsF, hnge, if_false, Bool.false_eq_true, hr, FVal.sub, FVal.neg, FVal.add,
      FVal.rounded, FVal.MAX_fin]
    rw [← sub_eq_add_neg, toFloat_sub_eps q hlo hhi, max_eq_right (by linarith),
      if_neg (by rwa [hr] at hnge)]
  refine ⟨?_, ?_, ?_⟩
  · simp only [shrinkRoundF, hf, hscan]
  · simp [shrinkRoundF, hf, hscan, h0, FVal.mul, FVal.rounded]
  · simp [shrinkRoundF, hf, hscan, h1, FVal.mul, FVal.rounded]

/-- A round on a single pair with `r >= 1`: the pair is erased and no radius
is written. -/
theorem shrinkRoundF_erase (rr : ℚ → ℚ) (s : ShrinkState) (c : MapOverlayRadiusConstraint)
    (hf : s.fits = [c]) (hge : FVal.ge (fitRatioF rr s.radius c) (FVal.fin 1) = true) :
    (shrinkRoundF rr 2 s).fits = [] ∧ (shrinkRoundF rr 2 s).radius = s.radius := by
  have hscan : scanFitsF rr s.radius [c] (FVal.fin 0) (fun _ => false) =
      { fits := [], shrink_factor := FVal.fin 0, must_shrink := fun _ => false } := by
    simp [scanFitsF, hge]
  constructor
  · simp only [shrinkRoundF, hf, hscan]
  · funext i
    simp [shrinkRoundF, hf, hscan]

theorem shrinkLoopF_nil (rr : ℚ → ℚ) (fuel : Nat) (s : ShrinkState) (hf : s.fits = []) :
    shrinkLoopF rr 2 fuel s = some s.radius := by
  cases fuel <;> simp [shrinkLoopF, hf]

theorem shrinkLoopF_cons (rr : ℚ → ℚ) (fuel : Nat) (s : ShrinkState)
    (c : MapOverlayRadiusConstraint) (hf : s.fits = [c]) :
    shrinkLoopF rr 2 (fuel + 1) s = shrinkLoopF rr 2 fuel (shrinkRoundF rr 2 s) := by
  rw [shrinkLoopF, hf]

theorem shrinkLoopF_zero (rr : ℚ → ℚ) (s : ShrinkState)
    (c : MapOverlayRadiusConstraint) (hf : s.fits = [c]) :
    shrinkLoopF rr 2 0 s = none := by
  rw [shrinkLoopF, hf]

theorem shrinkInitF_pair (rr : ℚ → ℚ) (hypot : ℚ → ℚ → ℚ) (ovr_res : ℚ) (pos : Nat → Vector2d)
    (radius : Nat → ℚ) (d : ℚ) (hpd : pairDist hypot ovr_res pos 0 1 = FVal.fin d)
    (hlt : d < rr (radius 0 + radius 1)) :
    (shrinkInitF rr hypot ovr_res pos radius 2).fits
      = [{ i := 0, j := 1, dist := FVal.fin d }] := by
  unfold shrinkInitF
  simp only
  rw [initFitsF_two, hpd]
  rw [hpd]
  simpa [FVal.add, FVal.lt, FVal.rounded] using hlt

/-- C4, amended: two items, whose only pair has the ratio
`distance / (resolution * (r0 + r1))` stored in the `float r` of the loop with
`FLT_EPSILON <= r < 1`.  The pair is in conflict, and the first round keeps it
and multiplies both radii by `r - FLT_EPSILON`, each product rounded into the
field `radius` by `rr`.  When the `float` ratio computed from the two products
is at least 1, the second round erases the pair and writes no radius, so the
loop finishes after exactly these two rounds with one multiplication, and the
clamp then yields the larger of the product and 4.  The ratio of the products
is at least 1 whenever the field `radius` is held without rounding, and
whenever its rounding has a relative error of at most `2^-24`, as that of
`toFloat` has, the radii are not negative and the exact ratio is at most
`2/5`. -/
theorem shrink_single_pair (rr : ℚ → ℚ) (hypot : ℚ → ℚ → ℚ) (ovr_res : ℚ)
    (pos : Nat → Vector2d) (radius : Nat → ℚ) (r : ℚ) (hh : ∀ a b, 0 ≤ hypot a b)
    (hres : 0 < ovr_res)
    (hr : fitRatioF rr (fun i => FVal.fin (radius i))
      { i := 0, j := 1, dist := pairDist hypot ovr_res pos 0 1 } = FVal.fin r)
    (hlo : FLT_EPSILON ≤ r) (hhi : r < 1) :
    r = toFloat (hypot ((pos 0).x - (pos 1).x) ((pos 0).y - (pos 1).y) / ovr_res
      / rr (radius 0 + radius 1)) ∧
    (shrinkInitF rr hypot ovr_res pos radius 2).fits
      = [{ i := 0, j := 1, dist := pairDist hypot ovr_res pos 0 1 }] ∧
    (shrinkRoundF rr 2 (shrinkInitF rr hypot ovr_res pos radius 2)).fits
      = [{ i := 0, j := 1, dist := pairDist hypot ovr_res pos 0 1 }] ∧
    (∀ i, i < 2 → (shrinkRoundF rr 2 (shrinkInitF rr hypot ovr_res pos radius 2)).radius i
      = FVal.fin (rr (radius i * (r - FLT_EPSILON)))) ∧
    (FVal.ge (fitRatioF rr (shrinkRoundF rr 2 (shrinkInitF rr hypot ovr_res pos radius 2)).radius
        { i := 0, j := 1, dist := pairDist hypot ovr_res pos 0 1 }) (FVal.fin 1) = true →
      ∃ out, shrinkLoopF rr 2 2 (shrinkInitF rr hypot ovr_res pos radius 2) = some out ∧
        shrinkLoopF rr 2 1 (shrinkInitF rr hypot ovr_res pos radius 2) = none ∧
        (∀ i, i < 2 → out i = FVal.fin (rr (radius i * (r - FLT_EPSILON)))) ∧
        (∀ i, i < 2 → limitShrinkage out i
          = FVal.fin (max (rr (radius i * (r - FLT_EPSILON))) 4))) ∧
    ((∀ x, rr x = x) →
      FVal.ge (fitRatioF rr (shrinkRoundF rr 2 (shrinkInitF rr hypot ovr_res pos radius 2)).radius
        { i := 0, j := 1, dist := pairDist hypot ovr_res pos 0 1 }) (FVal.fin 1) = true) ∧
    ((∀ x, |rr x - x| ≤ 1 / 16777216 * |x|) → 0 ≤ radius 0 → 0 ≤ radius 1 →
      hypot ((pos 0).x - (pos 1).x) ((pos 0).y - (pos 1).y)
        / (ovr_res * (radius 0 + radius 1)) ≤ 2 / 5 →
      FVal.ge (fitRatioF rr (shrinkRoundF rr 2 (shrinkInitF rr hypot ovr_res pos radius 2)).radius
        { i := 0, j := 1, dist := pairDist hypot ovr_res pos 0 1 }) (FVal.fin 1) = true) := by
  have heps := FLT_EPSILON_pos
  have hpd : pairDist hypot ovr_res pos 0 1 = FVal.fin (itemDist hypot ovr_res pos 0 1) :=
    pairDist_eq hypot ovr_res pos hres.ne' 0 1
  have hdq : hypot ((pos 0).x - (pos 1).x) ((pos 0).y - (pos 1).y) / ovr_res
      = itemDist hypot ovr_res pos 0 1 := rfl
  have hrho : hypot ((pos 0).x - (pos 1).x) ((pos 0).y - (pos 1).y)
      / (ovr_res * (radius 0 + radius 1))
      = itemDist hypot ovr_res pos 0 1 / (radius 0 + radius 1) := by
    rw [← hdq, div_div]
  have hd0 : 0 ≤ itemDist hypot ovr_res pos 0 1 := itemDist_nonneg hypot ovr_res pos hh hres 0 1
  rw [hpd] at hr ⊢
  rw [hdq, hrho]
  generalize itemDist hypot ovr_res pos 0 1 = d at hr hd0 hpd ⊢
  have hS : rr (radius 0 + radius 1) ≠ 0 := by
    intro h0
    by_cases hdz : d = 0
    · simp [fitRatioF, FVal.add, FVal.rounded, FVal.div, h0, hdz] at hr
    · simp only [fitRatioF, FVal.add, FVal.rounded, FVal.div, h0, hdz, if_true, if_false,
        FVal.signedInf] at hr
      split_ifs at hr
  have hrq : r = toFloat (d / rr (radius 0 + radius 1)) := by
    rw [fitRatioF_pair rr _ (radius 0) (radius 1) d rfl rfl hS] at hr
    exact (FVal.fin.inj hr).symm
  subst hrq
  set S := rr (radius 0 + radius 1) with hSdef
  have hq : 0 < d / S := toFloat_pos_imp _ (lt_of_lt_of_le heps hlo)
  have hSpos : 0 < S := by
    by_contra hcon
    have : d / S ≤ 0 := div_nonpos_of_nonneg_of_nonpos hd0 (not_lt.mp hcon)
    linarith
  have hd : 0 < d := by
    have := mul_pos hq hSpos
    rwa [div_mul_cancel₀ d hSpos.ne'] at this
  have hq1 : d / S < 1 := by
    by_contra hcon
    have := toFloat_ge_one _ (not_lt.mp hcon)
    linarith
  have hdS : d < S := (div_lt_one hSpos).mp hq1
  have hqS : d / S * S = d := div_mul_cancel₀ d hSpos.ne'
  have hsf0 : 0 ≤ toFloat (d / S) - FLT_EPSILON := by linarith
  have hfits : (shrinkInitF rr hypot ovr_res pos radius 2).fits
      = [{ i := 0, j := 1, dist := FVal.fin d }] := by
    unfold shrinkInitF
    simp only
    rw [initFitsF_two, hpd]
    rw [hpd]
    simpa [FVal.add, FVal.lt, FVal.rounded] using hdS
  have hr0 : fitRatioF rr (shrinkInitF rr hypot ovr_res pos radius 2).radius
      { i := 0, j := 1, dist := FVal.fin d } = FVal.fin (toFloat (d / S)) := hr
  obtain ⟨hk1, hk2, hk3⟩ := shrinkRoundF_keep rr (shrinkInitF rr hypot ovr_res pos radius 2)
    (radius 0) (radius 1) d (d / S) rfl rfl hfits hr0 hlo hhi
  have hrad : ∀ i, i < 2 →
      (shrinkRoundF rr 2 (shrinkInitF rr hypot ovr_res pos radius 2)).radius i
        = FVal.fin (rr (radius i * (toFloat (d / S) - FLT_EPSILON))) := by
    intro i hi
    have : i = 0 ∨ i = 1 := by omega
    rcases this with rfl | rfl
    · exact hk2
    · exact hk3
  refine ⟨rfl, hfits, hk1, hrad, ?_, ?_, ?_⟩
  · intro hge
    obtain ⟨he1, he2⟩ := shrinkRoundF_erase rr _ _ hk1 hge
    refine ⟨(shrinkRoundF rr 2 (shrinkInitF rr hypot ovr_res pos radius 2)).radius,
      ?_, ?_, hrad, ?_⟩
    · rw [shrinkLoopF_cons rr 1 _ _ hfits, shrinkLoopF_cons rr 0 _ _ hk1,
        shrinkLoopF_nil rr 0 _ he1, he2]
    · rw [shrinkLoopF_cons rr 0 _ _ hfits, shrinkLoopF_zero rr _ _ hk1]
    · intro i hi
      rw [limitShrinkage, hrad i hi, FVal.MAX_fin]
  · intro hex
    have hle := toFloat_le (d / S) hq.le
    apply fitRatioF_ge_one rr _ _ _ d hk2 hk3 hd
    · rw [hex, hex, hex]
      have : 0 ≤ radius 0 + radius 1 := by
        have := hSpos.le
        rwa [hSdef, hex] at this
      nlinarith
    · rw [hex, hex, hex]
      have hST : S = radius 0 + radius 1 := by rw [hSdef, hex]
      have hsfq : toFloat (d / S) - FLT_EPSILON ≤ d / S := by
        have : FLT_EPSILON = 1 / 8388608 := rfl
        nlinarith
      calc radius 0 * (toFloat (d / S) - FLT_EPSILON)
            + radius 1 * (toFloat (d / S) - FLT_EPSILON)
          = S * (toFloat (d / S) - FLT_EPSILON) := by rw [hST]; ring
        _ ≤ S * (d / S) := mul_le_mul_of_nonneg_left hsfq hSpos.le
        _ = d := by rw [mul_comm, hqS]
  · intro hrr hp0 hp1 hrho25
    have hT : 0 < radius 0 + radius 1 := by
      rcases (add_nonneg hp0 hp1).lt_or_eq with h | h
      · exact h
      · exfalso
        have h0 := hrr (radius 0 + radius 1)
        rw [← h, abs_zero, mul_zero, sub_zero] at h0
        have : rr 0 = 0 := abs_eq_zero.mp (le_antisymm h0 (abs_nonneg _))
        rw [hSdef, ← h, this] at hSpos
        exact lt_irrefl _ hSpos
    have hSb := rounded_le rr hrr _ hT.le
    have hle := toFloat_le (d / S) hq.le
    have hb0 := rounded_le rr hrr _ (mul_nonneg hp0 hsf0)
    have hb1 := rounded_le rr hrr _ (mul_nonneg hp1 hsf0)
    have hb0n : 0 ≤ rr (radius 0 * (toFloat (d / S) - FLT_EPSILON)) :=
      le_trans (mul_nonneg (mul_nonneg hp0 hsf0) (by norm_num)) hb0.1
    have hb1n : 0 ≤ rr (radius 1 * (toFloat (d / S) - FLT_EPSILON)) :=
      le_trans (mul_nonneg (mul_nonneg hp1 hsf0) (by norm_num)) hb1.1
    have hSb2 := rounded_le rr hrr _ (add_nonneg hb0n hb1n)
    have hdT : d ≤ 2 / 5 * (radius 0 + radius 1) := (div_le_iff₀ hT).mp hrho25
    -- the product of the sum of the radii and the exact ratio
    have hTq : (radius 0 + radius 1) * (d / S) ≤ d * (16777216 / 16777215) := by
      have h1 : (radius 0 + radius 1) * (1 - 1 / 16777216) * (d / S) ≤ S * (d / S) :=
        mul_le_mul_of_nonneg_right hSb.1 hq.le
      rw [mul_comm S, hqS] at h1
      nlinarith
    have hTr : (radius 0 + radius 1) * toFloat (d / S)
        ≤ (radius 0 + radius 1) * (d / S) * (1 + 1 / 16777216) := by
      have := mul_le_mul_of_nonneg_left hle hT.le
      linarith
    have hTsf : (radius 0 + radius 1) * (toFloat (d / S) - FLT_EPSILON)
        ≤ d * (16777216 / 16777215) * (1 + 1 / 16777216) - 5 / 16777216 * d := by
      have : FLT_EPSILON = 1 / 8388608 := rfl
      nlinarith
    have hTsf0 : 0 ≤ (radius 0 + radius 1) * (toFloat (d / S) - FLT_EPSILON) :=
      mul_nonneg hT.le hsf0
    apply fitRatioF_ge_one rr _ _ _ d hk2 hk3 hd
    · exact le_trans (mul_nonneg (add_nonneg hb0n hb1n) (by norm_num)) hSb2.1
    · have hsum : rr (radius 0 * (toFloat (d / S) - FLT_EPSILON))
          + rr (radius 1 * (toFloat (d / S) - FLT_EPSILON))
          ≤ (radius 0 + radius 1) * (toFloat (d / S) - FLT_EPSILON) * (1 + 1 / 16777216) := by
        linarith [hb0.2, hb1.2]
      have h2 : rr (rr (radius 0 * (toFloat (d / S) - FLT_EPSILON))
          + rr (radius 1 * (toFloat (d / S) - FLT_EPSILON)))
          ≤ (radius 0 + radius 1) * (toFloat (d / S) - FLT_EPSILON) * (1 + 1 / 16777216)
            * (1 + 1 / 16777216) := by
        have := mul_le_mul_of_nonneg_right hsum (show (0 : ℚ) ≤ 1 + 1 / 16777216 by norm_num)
        linarith [hSb2.2]
      have h3 : (radius 0 + radius 1) * (toFloat (d / S) - FLT_EPSILON) * (1 + 1 / 16777216)
            * (1 + 1 / 16777216)
          ≤ (d * (16777216 / 16777215) * (1 + 1 / 16777216) - 5 / 16777216 * d)
            * (1 + 1 / 16777216) * (1 + 1 / 16777216) := by
        have := mul_le_mul_of_nonneg_right hTsf
          (show (0 : ℚ) ≤ (1 + 1 / 16777216) * (1 + 1 / 16777216) by norm_num)
        linarith
      have h4 : (d * (16777216 / 16777215) * (1 + 1 / 16777216) - 5 / 16777216 * d)
            * (1 + 1 / 16777216) * (1 + 1 / 16777216) ≤ d := by
        have : (d * (16777216 / 16777215) * (1 + 1 / 16777216) - 5 / 16777216 * d)
            * (1 + 1 / 16777216) * (1 + 1 / 16777216)
            = d * (((16777216 / 16777215) * (1 + 1 / 16777216) - 5 / 16777216)
              * (1 + 1 / 16777216) * (1 + 1 / 16777216)) := by ring
        rw [this]
        have hc : ((16777216 / 16777215 : ℚ) * (1 + 1 / 16777216) - 5 / 16777216)
            * (1 + 1 / 16777216) * (1 + 1 / 16777216) ≤ 1 := by norm_num
        exact mul_le_of_le_one_right hd.le hc
      exact le_trans h2 (le_trans h3 h4)

/-- The witness of C4: distance 3, resolution 1, both radii 2, the field
`radius` a `float`: `r` is `3/4`, the radii are `2 * (3/4 - FLT_EPSILON)`
after the loop, which takes two rounds, and 4 after the clamp. -/
theorem shrink_single_pair_witness :
    ∃ out, shrinkLoopF toFloat 2 2 (shrinkInitF toFloat hypotAxis 1 twoPos (fun _ => 2) 2)
        = some out ∧
      shrinkLoopF toFloat 2 1 (shrinkInitF toFloat hypotAxis 1 twoPos (fun _ => 2) 2) = none ∧
      out 0 = FVal.fin (2 * (3 / 4 - FLT_EPSILON)) ∧
      out 1 = FVal.fin (2 * (3 / 4 - FLT_EPSILON)) ∧
      limitShrinkage out 0 = FVal.fin 4 ∧ limitShrinkage out 1 = FVal.fin 4 := by
  have h4 : toFloat (2 + 2) = 4 := by
    have := toFloat_repr 4 0 (by norm_num)
    norm_num at this ⊢
    exact this
  have h34 : toFloat (3 / 4) = 3 / 4 := by
    have := toFloat_repr 3 (-2) (by norm_num)
    norm_num at this ⊢
    exact this
  have hprod : toFloat (2 * (3 / 4 - FLT_EPSILON)) = 2 * (3 / 4 - FLT_EPSILON) := by
    have := toFloat_repr 6291455 (-22) (by norm_num)
    norm_num [FLT_EPSILON] at this ⊢
    exact this
  have hsum : toFloat (2 * (3 / 4 - FLT_EPSILON) + 2 * (3 / 4 - FLT_EPSILON))
      = 2 * (3 / 4 - FLT_EPSILON) + 2 * (3 / 4 - FLT_EPSILON) := by
    have := toFloat_repr 6291455 (-21) (by norm_num)
    norm_num [FLT_EPSILON] at this ⊢
    exact this
  have hpd : pairDist hypotAxis 1 twoPos 0 1 = FVal.fin 3 := by
    norm_num [pairDist, twoPos, hypotAxis, FVal.div]
  have hr : fitRatioF toFloat (fun _ => FVal.fin ((fun _ => (2 : ℚ)) 0))
      { i := 0, j := 1, dist := pairDist hypotAxis 1 twoPos 0 1 } = FVal.fin (3 / 4) := by
    rw [hpd, fitRatioF_pair toFloat _ 2 2 3 rfl rfl (by rw [h4]; norm_num), h4, h34]
  obtain ⟨_, _, _, hrad, hloop, _, _⟩ := shrink_single_pair toFloat hypotAxis 1 twoPos
    (fun _ => 2) (3 / 4) hypotAxis_nonneg (by norm_num) hr (by norm_num [FLT_EPSILON])
    (by norm_num)
  have hr0 := hrad 0 (by norm_num)
  have hr1 := hrad 1 (by norm_num)
  simp only [hprod] at hr0 hr1
  have hge : FVal.ge (fitRatioF toFloat
      (shrinkRoundF toFloat 2 (shrinkInitF toFloat hypotAxis 1 twoPos (fun _ => 2) 2)).radius
      { i := 0, j := 1, dist := pairDist hypotAxis 1 twoPos 0 1 }) (FVal.fin 1) = true := by
    rw [hpd]
    apply fitRatioF_ge_one toFloat _ _ _ 3 hr0 hr1 (by norm_num)
    · rw [hsum]; norm_num [FLT_EPSILON]
    · rw [hsum]; norm_num [FLT_EPSILON]
  obtain ⟨out, h1, h2, h3, h5⟩ := hloop hge
  have m : max ((2 : ℚ) * (3 / 4 - FLT_EPSILON)) 4 = 4 := by norm_num [FLT_EPSILON]
  have e0 := h3 0 (by norm_num)
  have e1 := h3 1 (by norm_num)
  have l0 := h5 0 (by norm_num)
  have l1 := h5 1 (by norm_num)
  simp only [hprod] at e0 e1 l0 l1
  rw [m] at l0 l1
  exact ⟨out, h1, h2, e0, e1, l0, l1⟩

theorem nearPos_dist : pairDist hypotAxis 1 nearPos 0 1
    = FVal.fin (17592186044415 / 1099511627776) := by
  norm_num [pairDist, nearPos, hypotAxis, FVal.div]

theorem toFloat_near_one : toFloat (17592186044415 / 1099511627776 / 16) = 1 :=
  toFloat_pos_eq _ _ (-1) 16777216 (by norm_num) (by norm_num) (by norm_num) (by norm_num)
    (by norm_num)

/-- The pair of `nearPos` with the radii 8 and 8, for a rounding that keeps
the sum 16: the pair is in conflict, its `r` is `1.0f`, and the first round
erases it without a multiplication. -/
theorem nearPos_erased (rr : ℚ → ℚ) (h16 : rr (8 + 8) = 16) :
    (shrinkInitF rr hypotAxis 1 nearPos (fun _ => 8) 2).fits
      = [{ i := 0, j := 1, dist := FVal.fin (17592186044415 / 1099511627776) }] ∧
    fitRatioF rr (fun _ => FVal.fin 8)
      { i := 0, j := 1, dist := FVal.fin (17592186044415 / 1099511627776) } = FVal.fin 1 ∧
    shrinkLoopF rr 2 1 (shrinkInitF rr hypotAxis 1 nearPos (fun _ => 8) 2)
      = some (fun _ => FVal.fin 8) := by
  have hfits := shrinkInitF_pair rr hypotAxis 1 nearPos (fun _ => 8) _ nearPos_dist
    (by rw [h16]; norm_num)
  have hr : fitRatioF rr (fun _ => FVal.fin 8)
      { i := 0, j := 1, dist := FVal.fin (17592186044415 / 1099511627776) } = FVal.fin 1 := by
    rw [fitRatioF_pair rr _ 8 8 _ rfl rfl (by rw [h16]; norm_num), h16, toFloat_near_one]
  have hge : FVal.ge (fitRatioF rr (shrinkInitF rr hypotAxis 1 nearPos (fun _ => 8) 2).radius
      { i := 0, j := 1, dist := FVal.fin (17592186044415 / 1099511627776) }) (FVal.fin 1)
      = true := by
    have : (shrinkInitF rr hypotAxis 1 nearPos (fun _ => 8) 2).radius
        = fun _ => FVal.fin 8 := rfl
    rw [this, hr]
    simp [FVal.ge, FVal.le]
  obtain ⟨he1, he2⟩ := shrinkRoundF_erase rr _ _ hfits hge
  refine ⟨hfits, hr, ?_⟩
  rw [shrinkLoopF_cons rr 0 _ _ hfits, shrinkLoopF_nil rr 0 _ he1, he2]
  rfl

/-- C4 (the claim fails when the ratio is within `2^-25` of 1): two items at
distance `16 - 2^-40` with resolution 1 and both radii 8.  The exact ratio is
`1 - 2^-44`, between `FLT_EPSILON` and 1, and the pair is in conflict, but the
`float r` of the loop is `1.0f`: the first round erases the pair, the loop
ends after that round, and no radius has been multiplied.  The sum 16 of the
radii is exact, so this holds whether the field `radius` is rounded to `float`
or not. -/
theorem shrink_single_pair_counterexample :
    hypotAxis ((nearPos 0).x - (nearPos 1).x) ((nearPos 0).y - (nearPos 1).y) / (1 * (8 + 8))
      = 1 - 1 / 17592186044416 ∧
    FLT_EPSILON < 1 - 1 / 17592186044416 ∧ (1 - 1 / 17592186044416 : ℚ) < 1 ∧
    (shrinkInitF toFloat hypotAxis 1 nearPos (fun _ => 8) 2).fits
      = [{ i := 0, j := 1, dist := FVal.fin (17592186044415 / 1099511627776) }] ∧
    fitRatioF toFloat (fun _ => FVal.fin 8)
      { i := 0, j := 1, dist := FVal.fin (17592186044415 / 1099511627776) } = FVal.fin 1 ∧
    shrinkLoopF toFloat 2 1 (shrinkInitF toFloat hypotAxis 1 nearPos (fun _ => 8) 2)
      = some (fun _ => FVal.fin 8) ∧
    shrinkLoopF id 2 1 (shrinkInitF id hypotAxis 1 nearPos (fun _ => 8) 2)
      = some (fun _ => FVal.fin 8) ∧
    (8 : ℚ) ≠ 8 * (1 - 1 / 17592186044416 - FLT_EPSILON) := by
  have h16 : toFloat (8 + 8) = 16 := by
    have := toFloat_repr 16 0 (by norm_num)
    norm_num at this ⊢
    exact this
  obtain ⟨a, b, c⟩ := nearPos_erased toFloat h16
  obtain ⟨_, _, c2⟩ := nearPos_erased id (by norm_num)
  refine ⟨by norm_num [nearPos, hypotAxis, abs_of_pos], by norm_num [FLT_EPSILON], by norm_num, a, b, c, c2,
    by norm_num [FLT_EPSILON]⟩

theorem twicePos_dist : pairDist hypotAxis 1 twicePos 0 1 = FVal.fin (30408703 / 524288) := by
  norm_num [pairDist, twicePos, hypotAxis, FVal.div]

theorem twice_sum0 : toFloat (40 + 6815745 / 262144) = 66 :=
  toFloat_tie_even _ _ 6 8650752 (by norm_num) (by norm_num) (by norm_num) (by norm_num)
    (by norm_num)

theorem twice_r0 : toFloat (30408703 / 524288 / 66) = 7371807 / 8388608 :=
  toFloat_pos_eq _ _ (-1) 14743614 (by norm_num) (by norm_num) (by norm_num) (by norm_num)
    (by norm_num)

theorem twice_rad0 : toFloat (40 * (7371807 / 8388608 - FLT_EPSILON)) = 4607379 / 131072 :=
  toFloat_tie_odd _ _ 5 9214757 (by norm_num [FLT_EPSILON]) (by norm_num [FLT_EPSILON])
    (by norm_num [FLT_EPSILON]) (by norm_num) (by norm_num)

theorem twice_rad1 :
    toFloat (6815745 / 262144 * (7371807 / 8388608 - FLT_EPSILON)) = 11979187 / 524288 :=
  toFloat_pos_eq _ _ 4 11979187 (by norm_num [FLT_EPSILON]) (by norm_num [FLT_EPSILON])
    (by norm_num [FLT_EPSILON]) (by norm_num [FLT_EPSILON]) (by norm_num)

theorem twice_sum1 : toFloat (4607379 / 131072 + 11979187 / 524288) = 58 :=
  toFloat_tie_odd _ _ 5 15204351 (by norm_num) (by norm_num) (by norm_num) (by norm_num)
    (by norm_num)

theorem twice_r1 : toFloat (30408703 / 524288 / 58) = 16777215 / 16777216 :=
  toFloat_pos_eq _ _ (-1) 16777215 (by norm_num) (by norm_num) (by norm_num) (by norm_num)
    (by norm_num)

theorem twice_rad0b :
    toFloat (4607379 / 131072 * (16777215 / 16777216 - FLT_EPSILON)) = 2303689 / 65536 :=
  toFloat_pos_eq _ _ 5 9214756 (by norm_num [FLT_EPSILON]) (by norm_num [FLT_EPSILON])
    (by norm_num [FLT_EPSILON]) (by norm_num [FLT_EPSILON]) (by norm_num)

theorem twice_rad1b :
    toFloat (11979187 / 524288 * (16777215 / 16777216 - FLT_EPSILON)) = 11979185 / 524288 :=
  toFloat_pos_eq _ _ 4 11979185 (by norm_num [FLT_EPSILON]) (by norm_num [FLT_EPSILON])
    (by norm_num [FLT_EPSILON]) (by norm_num [FLT_EPSILON]) (by norm_num)

theorem twice_sum2 : toFloat (2303689 / 65536 + 11979185 / 524288) = 3801087 / 65536 :=
  toFloat_tie_even _ _ 5 15204348 (by norm_num) (by norm_num) (by norm_num) (by norm_num)
    (by norm_num)

/-- The shrink loop with a `float` field `radius` can multiply the radii of a
single pair twice: two items at distance `58 - 2^-19` with resolution 1 and
the `float` radii 40 and `26 + 2^-18`.  The exact ratio lies between
`FLT_EPSILON` and 1 and `r` is `7371807 / 2^23`; the products of the first
round are rounded up, their rounded sum is 58, above the distance, so that the
second round finds `r = 1 - 2^-24 < 1` and multiplies both radii again; the
third round erases the pair. -/
theorem single_pair_shrunk_twice :
    FLT_EPSILON < hypotAxis ((twicePos 0).x - (twicePos 1).x) ((twicePos 0).y - (twicePos 1).y)
      / (1 * (twiceRadius 0 + twiceRadius 1)) ∧
    hypotAxis ((twicePos 0).x - (twicePos 1).x) ((twicePos 0).y - (twicePos 1).y)
      / (1 * (twiceRadius 0 + twiceRadius 1)) < 1 ∧
    toFloat (twiceRadius 0) = twiceRadius 0 ∧ toFloat (twiceRadius 1) = twiceRadius 1 ∧
    (shrinkInitF toFloat hypotAxis 1 twicePos twiceRadius 2).fits
      = [{ i := 0, j := 1, dist := FVal.fin (30408703 / 524288) }] ∧
    fitRatioF toFloat (shrinkInitF toFloat hypotAxis 1 twicePos twiceRadius 2).radius
      { i := 0, j := 1, dist := FVal.fin (30408703 / 524288) }
      = FVal.fin (7371807 / 8388608) ∧
    (shrinkRoundF toFloat 2 (shrinkInitF toFloat hypotAxis 1 twicePos twiceRadius 2)).radius 0
      = FVal.fin (4607379 / 131072) ∧
    (shrinkRoundF toFloat 2 (shrinkInitF toFloat hypotAxis 1 twicePos twiceRadius 2)).radius 1
      = FVal.fin (11979187 / 524288) ∧
    fitRatioF toFloat
      (shrinkRoundF toFloat 2 (shrinkInitF toFloat hypotAxis 1 twicePos twiceRadius 2)).radius
      { i := 0, j := 1, dist := FVal.fin (30408703 / 524288) }
      = FVal.fin (16777215 / 16777216) ∧
    ∃ out, shrinkLoopF toFloat 2 3 (shrinkInitF toFloat hypotAxis 1 twicePos twiceRadius 2)
        = some out ∧
      shrinkLoopF toFloat 2 2 (shrinkInitF toFloat hypotAxis 1 twicePos twiceRadius 2) = none ∧
      out 0 = FVal.fin (2303689 / 65536) ∧ out 1 = FVal.fin (11979185 / 524288) := by
  have ha0 : (shrinkInitF toFloat hypotAxis 1 twicePos twiceRadius 2).radius 0 = FVal.fin 40 := by
    simp [shrinkInitF, twiceRadius]
  have ha1 : (shrinkInitF toFloat hypotAxis 1 twicePos twiceRadius 2).radius 1
      = FVal.fin (6815745 / 262144) := by
    norm_num [shrinkInitF, twiceRadius]
  have hfits : (shrinkInitF toFloat hypotAxis 1 twicePos twiceRadius 2).fits
      = [{ i := 0, j := 1, dist := FVal.fin (30408703 / 524288) }] := by
    apply shrinkInitF_pair toFloat hypotAxis 1 twicePos twiceRadius _ twicePos_dist
    have : twiceRadius 0 + twiceRadius 1 = 40 + 6815745 / 262144 := by norm_num [twiceRadius]
    rw [this, twice_sum0]
    norm_num
  -- the first round
  have hr0 := fitRatioF_pair toFloat _ 40 (6815745 / 262144) (30408703 / 524288) ha0 ha1
    (by rw [twice_sum0]; norm_num)
  have hv0 : toFloat (30408703 / 524288 / toFloat (40 + 6815745 / 262144))
      = 7371807 / 8388608 := by rw [twice_sum0, twice_r0]
  obtain ⟨hk1, hk2, hk3⟩ := shrinkRoundF_keep toFloat _ 40 (6815745 / 262144)
    (30408703 / 524288) _ ha0 ha1 hfits hr0 (by rw [hv0]; norm_num [FLT_EPSILON])
    (by rw [hv0]; norm_num)
  rw [hv0] at hr0
  rw [hv0, twice_rad0] at hk2
  rw [hv0, twice_rad1] at hk3
  -- the second round
  have hr1 := fitRatioF_pair toFloat _ (4607379 / 131072) (11979187 / 524288)
    (30408703 / 524288) hk2 hk3 (by rw [twice_sum1]; norm_num)
  have hv1 : toFloat (30408703 / 524288 / toFloat (4607379 / 131072 + 11979187 / 524288))
      = 16777215 / 16777216 := by rw [twice_sum1, twice_r1]
  obtain ⟨hm1, hm2, hm3⟩ := shrinkRoundF_keep toFloat _ (4607379 / 131072)
    (11979187 / 524288) (30408703 / 524288) _ hk2 hk3 hk1 hr1
    (by rw [hv1]; norm_num [FLT_EPSILON]) (by rw [hv1]; norm_num)
  rw [hv1] at hr1
  rw [hv1, twice_rad0b] at hm2
  rw [hv1, twice_rad1b] at hm3
  -- the third round
  have hge := fitRatioF_ge_one toFloat _ (2303689 / 65536) (11979185 / 524288)
    (30408703 / 524288) hm2 hm3 (by norm_num) (by rw [twice_sum2]; norm_num)
    (by rw [twice_sum2]; norm_num)
  obtain ⟨he1, he2⟩ := shrinkRoundF_erase toFloat _ _ hm1 hge
  refine ⟨by norm_num [twicePos, twiceRadius, hypotAxis, abs_of_pos, FLT_EPSILON],
    by norm_num [twicePos, twiceRadius, hypotAxis, abs_of_pos], ?_, ?_, hfits, hr0, hk2, hk3, hr1,
    (shrinkRoundF toFloat 2 (shrinkRoundF toFloat 2 (shrinkRoundF toFloat 2
      (shrinkInitF toFloat hypotAxis 1 twicePos twiceRadius 2)))).radius, ?_, ?_, ?_, ?_⟩
  · have := toFloat_repr 40 0 (by norm_num)
    norm_num [twiceRadius] at this ⊢
    exact this
  · have := toFloat_repr 6815745 (-18) (by norm_num)
    norm_num [twiceRadius] at this ⊢
    exact this
  · rw [shrinkLoopF_cons toFloat 2 _ _ hfits, shrinkLoopF_cons toFloat 1 _ _ hk1,
      shrinkLoopF_cons toFloat 0 _ _ hm1, shrinkLoopF_nil toFloat 0 _ he1]
  · rw [shrinkLoopF_cons toFloat 1 _ _ hfits, shrinkLoopF_cons toFloat 0 _ _ hk1,
      shrinkLoopF_zero toFloat _ _ hm1]
  · rw [he2]; exact hm2
  · rw [he2]; exact hm3

end MapOverlay
